import Mathlib

/-!
Combat core of go-kahozr: weapons, targets and the damage-cooldown resolver.

A shallow embedding of `weapon.go`, `enemy.go`, `boss.go`, the weapon and
health part of `player.go` and the per-enemy part of `Game.UpdateGameLogic`
(`game.go`), with the properties of the combat specification stated over it.

Modelling conventions

* A Go method with a pointer receiver becomes a function from the old receiver
  value to the new one; the receiver is the first argument.
* `float32` fields are rationals (`ℚ`), and the arithmetic is given in two
  readings.  In the exact reading, the first part of the definitions, the
  operations are those of `ℚ`, but for the sample counter of
  `RayGun.CheckRayCollision` (`for t := float32(0); t <= 1.0; t += 0.1`), whose
  values are constants of the program and are computed in IEEE-754 binary32,
  round to nearest even (`f32Round`).  In the 32-bit reading, the definitions
  marked `32`, every `float32` operation and constant is rounded to binary32,
  each operation on its own.  The properties in which rounding decides the
  outcome (when a clock runs out, when the heat reaches 100, when a lifetime
  ends, the length of a normalised vector) are stated in the 32-bit reading,
  with the rounding allowance they need.
* `int32` fields are `Int`.  `Player.TakeDamage` and `Enemy.TakeDamage32` wrap
  the subtraction around as Go does (`wrapInt32`); the other statements on
  health carry the range in which the subtraction cannot wrap.
* Results of the frame clock (`rl.GetFrameTime`), of the mouse
  (`rl.GetMousePosition`, `rl.GetScreenToWorld2D`) and of `math.Sqrt` are
  inputs: a `deltaTime`/`frameTime` argument, a `mouseWorld` argument and a
  `Sqrt : ℚ → ℚ` argument.  Where the accuracy of the square root matters it
  is a hypothesis (`SqrtAccurate`), at the one argument the code passes.
* Textures and draw calls are left out; `Draw` keeps the state it stores.
* The player's fields `CurrentWeapon` and `Weapons` hold pointers to weapon
  objects: `ArmedPlayer` keeps the objects in a store and a pointer is an
  index into it, so that two pointers to the same weapon see the same state.

The definitions come first, the properties after them.
-/

namespace Kahozr

/-! ## Geometry (raylib value types and collision predicates) -/

/-- Vector of raylib (`rl.Vector2`). -/
structure Vector2 where
  X : ℚ
  Y : ℚ
  deriving DecidableEq

/-- Rectangle of raylib (`rl.Rectangle`). -/
structure Rectangle where
  X : ℚ
  Y : ℚ
  Width : ℚ
  Height : ℚ
  deriving DecidableEq

/-- Point-in-rectangle test of raylib (`rl.CheckCollisionPointRec`): left and top
edges inclusive, right and bottom edges exclusive. -/
def CheckCollisionPointRec (point : Vector2) (rec : Rectangle) : Bool :=
  decide (point.X ≥ rec.X) && decide (point.X < rec.X + rec.Width) &&
    decide (point.Y ≥ rec.Y) && decide (point.Y < rec.Y + rec.Height)

/-- Rectangle overlap test of raylib (`rl.CheckCollisionRecs`). -/
def CheckCollisionRecs (rec1 rec2 : Rectangle) : Bool :=
  (decide (rec1.X < rec2.X + rec2.Width) && decide (rec1.X + rec1.Width > rec2.X)) &&
    (decide (rec1.Y < rec2.Y + rec2.Height) && decide (rec1.Y + rec1.Height > rec2.Y))

/-! ## IEEE-754 binary32 rounding (used for the sample counter of the ray) -/

/-- Number of halvings that bring `n` below 2, at most `fuel` of them. -/
def log2Fuel : Nat → Nat → Nat
  | 0, _ => 0
  | fuel + 1, n => if n < 2 then 0 else log2Fuel fuel (n / 2) + 1

/-- Floor of the binary logarithm of a positive natural number. -/
def log2Floor (n : Nat) : Nat := log2Fuel n n

/-- Binary exponent of the binary32 format for a non-zero rational: the `e` with
`2^e ≤ |x| < 2^(e+1)`, not below the smallest normal exponent `-126`. -/
def f32Exponent (x : ℚ) : Int :=
  let e0 : Int := (log2Floor x.num.natAbs : Int) - (log2Floor x.den : Int)
  let e : Int := if (2 : ℚ) ^ e0 ≤ |x| then e0 else e0 - 1
  if e < -126 then -126 else e

/-- Nearest integer, ties to the even one. -/
def roundHalfEven (m : ℚ) : Int :=
  let fl := Rat.floor m
  let r := m - fl
  if r < 1 / 2 then fl
  else if r > 1 / 2 then fl + 1
  else if fl % 2 = 0 then fl else fl + 1

/-- Rounding of a rational to binary32 (24-bit significand, round to nearest
even, gradual underflow).  Overflow to infinity is not represented: the values
rounded here stay below 2. -/
def f32Round (x : ℚ) : ℚ :=
  if x = 0 then 0
  else
    let ulp : ℚ := (2 : ℚ) ^ (f32Exponent x - 23)
    (roundHalfEven (x / ulp) : ℚ) * ulp

/-! ## Helpers of `player.go` -/

/-- The helper `Min` of `player.go`. -/
def Min (a b : ℚ) : ℚ := if a < b then a else b

/-- The helper `Max` of `player.go`. -/
def Max (a b : ℚ) : ℚ := if a > b then a else b

/-! ## Player (the fields the combat core reads) -/

/-- The player, restricted to position, size, facing, health bookkeeping and
experience.  The defaults are the values `NewPlayer` gives.  The fields
`CurrentWeapon` and `Weapons` are added by `ArmedPlayer` below. -/
structure Player where
  X : ℚ
  Y : ℚ
  Width : Int := 16
  Height : Int := 16
  FacingLeft : Bool := false
  MaxHealth : Int := 100
  CurrentHealth : Int := 100
  InvincibleTimer : ℚ := 0
  InvincibleTime : ℚ := 1
  Experience : Int := 0
  NextLevelExp : Int := 100
  deriving DecidableEq

/-- Bounding rectangle of the player (`Player.GetBounds`). -/
def Player.GetBounds (p : Player) : Rectangle :=
  { X := p.X, Y := p.Y, Width := (p.Width : ℚ), Height := (p.Height : ℚ) }

/-- Wrap-around of the 32-bit signed integers: the `int32` value of an integer
result. -/
def wrapInt32 (x : Int) : Int := (x + 2 ^ 31) % 2 ^ 32 - 2 ^ 31

/-- Damage on the player with its invincibility window (`Player.TakeDamage`);
the `int32` subtraction wraps around. -/
def Player.TakeDamage (p : Player) (damage : Int) : Player :=
  if p.InvincibleTimer ≤ 0 then
    let p := { p with CurrentHealth := wrapInt32 (p.CurrentHealth - damage) }
    let p := if p.CurrentHealth ≤ 0 then { p with CurrentHealth := 0 } else p
    { p with InvincibleTimer := p.InvincibleTime }
  else p

/-- Level up (`Player.LevelUp`).  `int(float32(n) * 1.5)` is `3 * n / 2`
truncated towards zero. -/
def Player.LevelUp (p : Player) : Player :=
  let p := { p with Experience := p.Experience - p.NextLevelExp }
  let p := { p with NextLevelExp := Int.tdiv (p.NextLevelExp * 3) 2 }
  let p := { p with MaxHealth := p.MaxHealth + 10 }
  { p with CurrentHealth := p.MaxHealth }

/-- Experience gain (`Player.GainExperience`). -/
def Player.GainExperience (p : Player) (amount : Int) : Player :=
  let p := { p with Experience := p.Experience + amount }
  if p.Experience ≥ p.NextLevelExp then p.LevelUp else p

/-! ## Ray gun -/

/-- Common weapon properties (`BaseWeapon`). -/
structure BaseWeapon where
  IsEquipped : Bool
  Active : Bool
  deriving DecidableEq

/-- The hitscan beam weapon (`RayGun`). -/
structure RayGun extends BaseWeapon where
  HeatLevel : ℚ
  IsOverheated : Bool
  CooldownRate : ℚ
  HeatRate : ℚ
  rayDirection : Vector2
  AimLength : ℚ
  deriving DecidableEq

/-- Constructor `NewRayGun`. -/
def NewRayGun : RayGun :=
  { IsEquipped := true
    Active := false
    HeatLevel := 0
    IsOverheated := false
    CooldownRate := 30
    HeatRate := 40
    rayDirection := { X := 0, Y := 0 }
    AimLength := 100 }

/-- Heat mechanics of the beam (`RayGun.Update`). -/
def RayGun.Update (r : RayGun) (deltaTime : ℚ) (_player : Player) : RayGun :=
  if r.Active then
    let r1 := { r with HeatLevel := r.HeatLevel + r.HeatRate * deltaTime }
    if r1.HeatLevel ≥ 100 then
      { r1 with HeatLevel := 100, IsOverheated := true, Active := false }
    else r1
  else
    let r1 := { r with HeatLevel := r.HeatLevel - r.CooldownRate * deltaTime }
    if r1.HeatLevel ≤ 0 then
      { r1 with HeatLevel := 0, IsOverheated := false }
    else r1

/-- The state `RayGun.Draw` stores: while active, the ray from the player's
centre towards the mouse, cut at `AimLength`. -/
def RayGun.Draw (r : RayGun) (Sqrt : ℚ → ℚ) (player : Player) (mouseWorld : Vector2) : RayGun :=
  if !r.Active then r
  else
    let playerCenter : Vector2 :=
      { X := player.X + (player.Width : ℚ) / 2, Y := player.Y + (player.Height : ℚ) / 2 }
    let direction : Vector2 :=
      { X := mouseWorld.X - playerCenter.X, Y := mouseWorld.Y - playerCenter.Y }
    let length := Sqrt (direction.X * direction.X + direction.Y * direction.Y)
    if length > 0 then
      let normalizedDir : Vector2 := { X := direction.X / length, Y := direction.Y / length }
      let rayLength := Min length r.AimLength
      { r with rayDirection := { X := normalizedDir.X * rayLength, Y := normalizedDir.Y * rayLength } }
    else r

/-- Activation signal (`RayGun.OnActivate`). -/
def RayGun.OnActivate (r : RayGun) (_player : Player) : RayGun :=
  if !r.IsOverheated then { r with Active := true } else r

/-- Deactivation signal (`RayGun.OnDeactivate`). -/
def RayGun.OnDeactivate (r : RayGun) (_player : Player) : RayGun :=
  { r with Active := false }

/-- Accessor `RayGun.IsActive`. -/
def RayGun.IsActive (r : RayGun) : Bool := r.Active

/-- The sampling loop of `RayGun.CheckRayCollision`,
`for t := float32(0); t <= 1.0; t += 0.1`, from counter value `t` on.  The
counter is a `float32`: each `t += 0.1` adds the binary32 constant nearest to
0.1 and rounds the sum to binary32.  `fuel` bounds the number of iterations;
`none` means the bound was reached before the loop ended. -/
def RayGun.sampleLoop (r : RayGun) (playerCenter : Vector2) (bounds : Rectangle) :
    Nat → ℚ → Option Bool
  | 0, _ => none
  | fuel + 1, t =>
    if t ≤ 1 then
      let point : Vector2 :=
        { X := playerCenter.X + r.rayDirection.X * t
          Y := playerCenter.Y + r.rayDirection.Y * t }
      if CheckCollisionPointRec point bounds then some true
      else RayGun.sampleLoop r playerCenter bounds fuel (f32Round (t + f32Round (1 / 10)))
    else some false

/-- Hit test of the beam (`RayGun.CheckRayCollision`).  The loop is run with a
bound of 16 iterations, which it never reaches (`RayGun.sampleLoop_eq`). -/
def RayGun.CheckRayCollision (r : RayGun) (player : Player) (bounds : Rectangle) : Bool :=
  if !r.Active then false
  else
    let playerCenter : Vector2 :=
      { X := player.X + (player.Width : ℚ) / 2, Y := player.Y + (player.Height : ℚ) / 2 }
    (RayGun.sampleLoop r playerCenter bounds 16 0).getD false

/-! ## Sword -/

/-- The anonymous struct type of the field `Sword.SlashAnim`. -/
structure SlashAnimState where
  Frame : Int
  FrameTime : ℚ
  FrameWidth : Int
  FrameHeight : Int
  deriving DecidableEq

/-- The melee weapon (`Sword`). -/
structure Sword extends BaseWeapon where
  IsSlashing : Bool
  SlashAnim : SlashAnimState
  DamageArea : Rectangle
  deriving DecidableEq

/-- Constructor `NewSword`. -/
def NewSword : Sword :=
  { IsEquipped := false
    Active := false
    IsSlashing := false
    SlashAnim := { Frame := 0, FrameTime := 0, FrameWidth := 65, FrameHeight := 27 }
    DamageArea := { X := 0, Y := 0, Width := 0, Height := 0 } }

/-- Slash animation clock (`Sword.Update`). -/
def Sword.Update (s : Sword) (deltaTime : ℚ) (_player : Player) : Sword :=
  if s.IsSlashing then
    let s1 := { s with SlashAnim := { s.SlashAnim with FrameTime := s.SlashAnim.FrameTime + deltaTime } }
    if s1.SlashAnim.FrameTime ≥ 1 / 20 then
      let s2 := { s1 with SlashAnim := { s1.SlashAnim with Frame := s1.SlashAnim.Frame + 1, FrameTime := 0 } }
      if s2.SlashAnim.Frame ≥ 6 then
        { s2 with IsSlashing := false, SlashAnim := { s2.SlashAnim with Frame := 0 }, Active := false }
      else s2
    else s1
  else s

/-- The state `Sword.Draw` stores: while slashing, the damage area next to the
player on the side it faces. -/
def Sword.Draw (s : Sword) (player : Player) : Sword :=
  if s.IsSlashing then
    if player.FacingLeft then
      { s with DamageArea :=
          { X := player.X - (s.SlashAnim.FrameWidth : ℚ) * (1 / 2)
            Y := player.Y - (player.Height : ℚ) / 2
            Width := (s.SlashAnim.FrameWidth : ℚ) * (1 / 2)
            Height := (s.SlashAnim.FrameHeight : ℚ) } }
    else
      { s with DamageArea :=
          { X := player.X + (player.Width : ℚ)
            Y := player.Y - (player.Height : ℚ) / 2
            Width := (s.SlashAnim.FrameWidth : ℚ) * (1 / 2)
            Height := (s.SlashAnim.FrameHeight : ℚ) } }
  else s

/-- Activation signal (`Sword.OnActivate`). -/
def Sword.OnActivate (s : Sword) (_player : Player) : Sword :=
  if !s.IsSlashing then
    { s with
      IsSlashing := true
      Active := true
      SlashAnim := { s.SlashAnim with Frame := 0, FrameTime := 0 } }
  else s

/-- Deactivation signal (`Sword.OnDeactivate`): nothing to do. -/
def Sword.OnDeactivate (s : Sword) (_player : Player) : Sword := s

/-- Accessor `Sword.IsActive`. -/
def Sword.IsActive (s : Sword) : Bool := s.Active

/-- Hit test of the slash (`Sword.CheckSlashCollision`). -/
def Sword.CheckSlashCollision (s : Sword) (bounds : Rectangle) : Bool :=
  if !s.IsSlashing then false
  else CheckCollisionRecs s.DamageArea bounds

/-! ## Floating damage text, dummy -/

/-- The anonymous struct type of the fields `DamageText`. -/
structure DamageTextState where
  Value : Int
  Position : Vector2
  Alpha : ℚ
  Timer : ℚ
  deriving DecidableEq

/-- The practice dummy (`Dummy`). -/
structure Dummy where
  X : ℚ
  Y : ℚ
  Width : Int
  Height : Int
  DamageCooldown : ℚ
  DamageText : DamageTextState
  deriving DecidableEq

/-- Constructor `NewDummy`. -/
def NewDummy (x y : ℚ) : Dummy :=
  { X := x, Y := y, Width := 16, Height := 32, DamageCooldown := 0
    DamageText := { Value := 0, Position := { X := 0, Y := 0 }, Alpha := 0, Timer := 0 } }

/-- Cooldown clock of the dummy (`Dummy.Update`); `frameTime` is what
`rl.GetFrameTime()` returns. -/
def Dummy.Update (d : Dummy) (frameTime : ℚ) : Dummy :=
  if d.DamageCooldown > 0 then { d with DamageCooldown := d.DamageCooldown - frameTime }
  else d

/-- Bounding rectangle of the dummy (`Dummy.GetBounds`). -/
def Dummy.GetBounds (d : Dummy) : Rectangle :=
  { X := d.X, Y := d.Y, Width := (d.Width : ℚ), Height := (d.Height : ℚ) }

/-- Damage on the dummy only shows a number (`Dummy.TakeDamage`). -/
def Dummy.TakeDamage (d : Dummy) (damage : Int) : Dummy :=
  { d with DamageText :=
      { Value := damage
        Position := { X := d.X + (d.Width : ℚ) / 2 - 8, Y := d.Y - 10 }
        Alpha := 1
        Timer := 1 } }

/-! ## Pistol -/

/-- The anonymous struct type of the elements of `Pistol.Bullets`. -/
structure Bullet where
  Position : Vector2
  Direction : Vector2
  Speed : ℚ
  LifeTimer : ℚ
  deriving DecidableEq

/-- The projectile weapon (`Pistol`). -/
structure Pistol extends BaseWeapon where
  Bullets : List Bullet
  ShootCooldown : ℚ
  CooldownTimer : ℚ
  deriving DecidableEq

/-- Constructor `NewPistol`. -/
def NewPistol : Pistol :=
  { IsEquipped := true
    Active := false
    Bullets := []
    ShootCooldown := 3 / 20
    CooldownTimer := 0 }

/-- Fire cooldown and bullet flight (`Pistol.Update`). -/
def Pistol.Update (p : Pistol) (deltaTime : ℚ) (_player : Player) : Pistol :=
  let p1 := if p.CooldownTimer > 0 then { p with CooldownTimer := p.CooldownTimer - deltaTime } else p
  let remainingBullets : List Bullet :=
    p1.Bullets.foldl
      (fun remainingBullets bullet =>
        let newBullet : Bullet :=
          { bullet with
            Position :=
              { X := bullet.Position.X + bullet.Direction.X * bullet.Speed * deltaTime
                Y := bullet.Position.Y + bullet.Direction.Y * bullet.Speed * deltaTime }
            LifeTimer := bullet.LifeTimer - deltaTime }
        if newBullet.LifeTimer > 0 then remainingBullets ++ [newBullet] else remainingBullets)
      []
  { p1 with Bullets := remainingBullets }

/-- Fire signal (`Pistol.OnActivate`). -/
def Pistol.OnActivate (p : Pistol) (Sqrt : ℚ → ℚ) (player : Player) (mouseWorld : Vector2) : Pistol :=
  if p.CooldownTimer ≤ 0 then
    let playerCenter : Vector2 :=
      { X := player.X + (player.Width : ℚ) / 2, Y := player.Y + (player.Height : ℚ) / 2 }
    let direction : Vector2 :=
      { X := mouseWorld.X - playerCenter.X, Y := mouseWorld.Y - playerCenter.Y }
    let length := Sqrt (direction.X * direction.X + direction.Y * direction.Y)
    let direction : Vector2 :=
      if length > 0 then { X := direction.X / length, Y := direction.Y / length } else direction
    { p with
      Bullets := p.Bullets ++
        [{ Position := playerCenter, Direction := direction, Speed := 240, LifeTimer := 1 / 2 }]
      CooldownTimer := p.ShootCooldown }
  else p

/-- Deactivation signal (`Pistol.OnDeactivate`): nothing to do. -/
def Pistol.OnDeactivate (p : Pistol) (_player : Player) : Pistol := p

/-- Accessor `Pistol.IsActive`. -/
def Pistol.IsActive (p : Pistol) : Bool := p.Active

/-- Hit test of the bullets (`Pistol.CheckBulletCollision`). -/
def Pistol.CheckBulletCollision (p : Pistol) (bounds : Rectangle) : Bool :=
  p.Bullets.any fun bullet =>
    CheckCollisionRecs
      { X := bullet.Position.X - 2, Y := bullet.Position.Y - 2, Width := 4, Height := 4 } bounds

/-! ## Enemy -/

/-- The enemy (`Enemy`); the pointer field `Player` is passed to `Update`. -/
structure Enemy where
  X : ℚ
  Y : ℚ
  Width : Int
  Height : Int
  Speed : ℚ
  Scale : ℚ
  Direction : Vector2
  FacingLeft : Bool
  MaxHealth : Int
  CurrentHealth : Int
  DamageText : DamageTextState
  DropChance : ℚ
  FlashTimer : ℚ
  DamageCooldown : ℚ
  deriving DecidableEq

/-- Constructor `NewEnemy`. -/
def NewEnemy (x y : ℚ) : Enemy :=
  { X := x, Y := y, Width := 16, Height := 32, Speed := 50, Scale := 1
    Direction := { X := 0, Y := 0 }
    FacingLeft := false
    MaxHealth := 3
    CurrentHealth := 3
    DamageText := { Value := 0, Position := { X := 0, Y := 0 }, Alpha := 0, Timer := 0 }
    DropChance := 2 / 5
    FlashTimer := 0
    DamageCooldown := 0 }

/-- The cooldown clock of `Enemy.Update`:
`if e.DamageCooldown > 0 { e.DamageCooldown -= deltaTime }`. -/
def Enemy.coolDown (e : Enemy) (deltaTime : ℚ) : Enemy :=
  if e.DamageCooldown > 0 then { e with DamageCooldown := e.DamageCooldown - deltaTime } else e

/-- The direction towards the player of `Enemy.Update`:
`e.Direction = Vector2{X: e.Player.X - e.X, Y: e.Player.Y - e.Y}`. -/
def Enemy.aim (e : Enemy) (player : Player) : Enemy :=
  { e with Direction := { X := player.X - e.X, Y := player.Y - e.Y } }

/-- The facing flag of `Enemy.Update`:
`if e.Direction.X != 0 { e.FacingLeft = e.Direction.X < 0 }`. -/
def Enemy.turn (e : Enemy) : Enemy :=
  if e.Direction.X ≠ 0 then { e with FacingLeft := decide (e.Direction.X < 0) } else e

/-- The normalisation of the direction in `Enemy.Update`: the components are
divided by the length when it is positive. -/
def Enemy.normalize (e : Enemy) (Sqrt : ℚ → ℚ) : Enemy :=
  let length := Sqrt (e.Direction.X * e.Direction.X + e.Direction.Y * e.Direction.Y)
  if length > 0 then
    { e with Direction := { X := e.Direction.X / length, Y := e.Direction.Y / length } }
  else e

/-- The move of `Enemy.Update`: `e.X += e.Direction.X * e.Speed * deltaTime`,
and the same for `Y`. -/
def Enemy.move (e : Enemy) (deltaTime : ℚ) : Enemy :=
  { e with
    X := e.X + e.Direction.X * e.Speed * deltaTime
    Y := e.Y + e.Direction.Y * e.Speed * deltaTime }

/-- The floating damage text of `Enemy.Update`: while its timer is positive
the timer falls by the frame time, the text rises by 1 and the alpha is the
timer. -/
def Enemy.fadeText (e : Enemy) (frameTime : ℚ) : Enemy :=
  if e.DamageText.Timer > 0 then
    let timer := e.DamageText.Timer - frameTime
    { e with DamageText :=
        { e.DamageText with
          Timer := timer
          Position := { e.DamageText.Position with Y := e.DamageText.Position.Y - 1 }
          Alpha := timer } }
  else e

/-- Per-frame update of an enemy (`Enemy.Update`): the statements of the source
in their order, cooldown clock, direction towards the player, facing flag,
normalisation, move, damage text.  `frameTime` is what `r.GetFrameTime()`
returns. -/
def Enemy.Update (e : Enemy) (Sqrt : ℚ → ℚ) (frameTime : ℚ) (player : Player) : Enemy :=
  let deltaTime := frameTime
  (((((e.coolDown deltaTime).aim player).turn).normalize Sqrt).move deltaTime).fadeText frameTime

/-- Bounding rectangle of an enemy (`Enemy.GetBounds`). -/
def Enemy.GetBounds (e : Enemy) : Rectangle :=
  { X := e.X, Y := e.Y, Width := (e.Width : ℚ), Height := (e.Height : ℚ) }

/-- Enemy against player overlap (`Enemy.CheckCollision`). -/
def Enemy.CheckCollision (e : Enemy) (player : Player) : Bool :=
  CheckCollisionRecs e.GetBounds player.GetBounds

/-- Damage on an enemy (`Enemy.TakeDamage`). -/
def Enemy.TakeDamage (e : Enemy) (damage : Int) : Enemy :=
  let e := { e with CurrentHealth := e.CurrentHealth - damage }
  let e := if e.CurrentHealth < 0 then { e with CurrentHealth := 0 } else e
  { e with DamageText :=
      { Value := damage
        Position := { X := e.X + (e.Width : ℚ) / 2 - 8, Y := e.Y - 10 }
        Alpha := 1
        Timer := 1 } }

/-- Death test (`Enemy.IsDead`). -/
def Enemy.IsDead (e : Enemy) : Bool := decide (e.CurrentHealth ≤ 0)

/-! ## Combat resolver: the per-enemy loop body of `Game.UpdateGameLogic` -/

/-- The three weapon types behind the `Weapon` interface; the type switch of the
resolver is a match on this. -/
inductive Weapon where
  | rayGun (raygun : RayGun)
  | sword (sword : Sword)
  | pistol (pistol : Pistol)
  deriving DecidableEq

/-- Colours of raylib the resolver passes to the particle system. -/
inductive Color where
  | Red
  | Yellow
  | White
  deriving DecidableEq

/-- One call `ParticleSystem.SpawnExplosion(color, particleCount, x, y)`. -/
structure Explosion where
  color : Color
  particleCount : Int
  x : ℚ
  y : ℚ
  deriving DecidableEq

/-- The fields of `Game` the damage block writes: the screen shake and the
particle system, kept as the list of `SpawnExplosion` calls made so far (the
particles themselves are random). -/
structure Game where
  particles : List Explosion
  shakeAmount : ℚ
  shakeTimer : ℚ
  deriving DecidableEq

/-- The block "Check for weapon damage" of `Game.UpdateGameLogic` for one enemy
and the player's current weapon. -/
def Game.weaponDamage (g : Game) (player : Player) (currentWeapon : Weapon) (enemy : Enemy) :
    Game × Enemy :=
  match currentWeapon with
  | .rayGun raygun =>
    if raygun.Active && !raygun.IsOverheated then
      if raygun.CheckRayCollision player enemy.GetBounds then
        if enemy.DamageCooldown ≤ 0 then
          let damagePerSecond : Int := 3
          let enemy := enemy.TakeDamage 1
          let enemy := { enemy with DamageCooldown := 1 / (damagePerSecond : ℚ) }
          ({ g with
              particles := g.particles ++ [⟨Color.Yellow, 10, enemy.X, enemy.Y⟩]
              shakeAmount := 3
              shakeTimer := 1 / 10 }, enemy)
        else (g, enemy)
      else (g, enemy)
    else (g, enemy)
  | .sword sword =>
    if sword.CheckSlashCollision enemy.GetBounds then
      if enemy.DamageCooldown ≤ 0 then
        let enemy := enemy.TakeDamage 2
        let enemy := { enemy with DamageCooldown := 3 / 10 }
        ({ g with
            particles := g.particles ++ [⟨Color.White, 10, enemy.X, enemy.Y⟩]
            shakeAmount := 3
            shakeTimer := 1 / 10 }, enemy)
      else (g, enemy)
    else (g, enemy)
  | .pistol pistol =>
    if pistol.CheckBulletCollision enemy.GetBounds then
      if enemy.DamageCooldown ≤ 0 then
        let enemy := enemy.TakeDamage 2
        let enemy := { enemy with DamageCooldown := 1 / 5 }
        ({ g with
            particles := g.particles ++ [⟨Color.Yellow, 5, enemy.X, enemy.Y⟩]
            shakeAmount := 2
            shakeTimer := 1 / 20 }, enemy)
      else (g, enemy)
    else (g, enemy)

/-- The first part of the body of the loop "Update all enemies" of
`Game.UpdateGameLogic`: the enemy's own update and the enemy-player collision.
The result is the game, player and enemy as the weapon-damage block finds them.
`player` is `g.player` as it is when the loop runs (after `Player.Update`). -/
def Game.beforeWeaponDamage (g : Game) (Sqrt : ℚ → ℚ) (frameTime : ℚ) (player : Player)
    (enemy : Enemy) : Game × Player × Enemy :=
  let enemy := enemy.Update Sqrt frameTime player
  if enemy.CheckCollision player then
    let player := player.TakeDamage 10
    ({ g with
        particles := g.particles ++ [⟨Color.Red, 10, player.X, player.Y⟩]
        shakeAmount := 3
        shakeTimer := 1 / 10 }, player, enemy)
  else (g, player, enemy)

/-- The body of the loop "Update all enemies" up to the death test: enemy
update, enemy-player collision, weapon damage with the current weapon. -/
def Game.enemyLoopBody (g : Game) (Sqrt : ℚ → ℚ) (frameTime : ℚ) (player : Player)
    (currentWeapon : Weapon) (enemy : Enemy) : Game × Player × Enemy :=
  let s := g.beforeWeaponDamage Sqrt frameTime player enemy
  let ge := s.1.weaponDamage s.2.1 currentWeapon s.2.2
  (ge.1, s.2.1, ge.2)

/-- What one frame supplies to the loop body for an enemy: the frame time, the
player and the state of its current weapon (both after `Player.Update`). -/
structure TickInput where
  frameTime : ℚ
  player : Player
  weapon : Weapon

/-- The loop body for one enemy over consecutive frames, first frame first. -/
def Game.enemyTicks (g : Game) (Sqrt : ℚ → ℚ) (enemy : Enemy) : List TickInput → Game × Enemy
  | [] => (g, enemy)
  | t :: ts =>
    let s := g.enemyLoopBody Sqrt t.frameTime t.player t.weapon enemy
    Game.enemyTicks s.1 Sqrt s.2.2 ts

/-! ## Vocabulary of the resolver properties -/

/-- The hit test the resolver runs for the weapon type at hand. -/
def Weapon.hitTest (w : Weapon) (player : Player) (bounds : Rectangle) : Bool :=
  match w with
  | .rayGun r => r.CheckRayCollision player bounds
  | .sword s => s.CheckSlashCollision bounds
  | .pistol p => p.CheckBulletCollision bounds

/-- Damage per application the specification gives for each weapon type. -/
def Weapon.damageAmount : Weapon → Int
  | .rayGun _ => 1
  | .sword _ => 2
  | .pistol _ => 2

/-- Damage cooldown the specification gives for each weapon type. -/
def Weapon.cooldownInterval : Weapon → ℚ
  | .rayGun _ => 1 / 3
  | .sword _ => 3 / 10
  | .pistol _ => 1 / 5

/-- The weapon-damage block applied damage: it did not leave game and enemy as
they were (every application spawns an explosion). -/
def Game.DamageApplied (g : Game) (player : Player) (w : Weapon) (enemy : Enemy) : Prop :=
  g.weaponDamage player w enemy ≠ (g, enemy)

/-- In this frame the weapon's hit test on the enemy, as the weapon-damage block
runs it, is true. -/
def Game.TickHits (g : Game) (Sqrt : ℚ → ℚ) (t : TickInput) (enemy : Enemy) : Prop :=
  t.weapon.hitTest (g.beforeWeaponDamage Sqrt t.frameTime t.player enemy).2.1
    (g.beforeWeaponDamage Sqrt t.frameTime t.player enemy).2.2.GetBounds = true

/-- In this frame the weapon-damage block applies damage to the enemy. -/
def Game.TickApplies (g : Game) (Sqrt : ℚ → ℚ) (t : TickInput) (enemy : Enemy) : Prop :=
  (g.beforeWeaponDamage Sqrt t.frameTime t.player enemy).1.DamageApplied
    (g.beforeWeaponDamage Sqrt t.frameTime t.player enemy).2.1 t.weapon
    (g.beforeWeaponDamage Sqrt t.frameTime t.player enemy).2.2

instance (g : Game) (player : Player) (w : Weapon) (enemy : Enemy) :
    Decidable (g.DamageApplied player w enemy) :=
  inferInstanceAs (Decidable (g.weaponDamage player w enemy ≠ (g, enemy)))

instance (g : Game) (Sqrt : ℚ → ℚ) (t : TickInput) (enemy : Enemy) :
    Decidable (g.TickHits Sqrt t enemy) :=
  inferInstanceAs (Decidable (_ = true))

instance (g : Game) (Sqrt : ℚ → ℚ) (t : TickInput) (enemy : Enemy) :
    Decidable (g.TickApplies Sqrt t enemy) :=
  inferInstanceAs (Decidable (Game.DamageApplied _ _ _ _))

/-- Number of frames of one slash in which the weapon-damage block applies
damage to the enemy.  A frame is what `Player.Update` does with the sword
(`OnActivate` when the fire button is down, `OnDeactivate` otherwise, then
`Update`) followed by the loop body for the enemy; the button is down in the
first frame only (`fire`), and the count stops with the frame whose `Update`
ends the slash.  `fuel` bounds the number of frames, `none` means it was
reached.  Player and stored damage area stay as they are. -/
def Game.slashDamageCount (Sqrt : ℚ → ℚ) (dt : ℚ) (player : Player) :
    Nat → Bool → Game → Sword → Enemy → Option Nat
  | 0, _, _, _, _ => none
  | fuel + 1, fire, g, sword, enemy =>
    let sword := if fire then sword.OnActivate player else sword.OnDeactivate player
    let sword := sword.Update dt player
    let applied : Nat :=
      if g.TickApplies Sqrt ⟨dt, player, Weapon.sword sword⟩ enemy then 1 else 0
    let s := g.enemyLoopBody Sqrt dt player (Weapon.sword sword) enemy
    if sword.IsSlashing then
      (Game.slashDamageCount Sqrt dt player fuel false s.1 sword s.2.2).map (· + applied)
    else some applied

/-! ## Call sequences on a ray gun -/

/-- One call on a ray gun, with its arguments. -/
inductive RayGunCall where
  | OnActivate (player : Player)
  | OnDeactivate (player : Player)
  | Update (deltaTime : ℚ) (player : Player)
  | Draw (Sqrt : ℚ → ℚ) (player : Player) (mouseWorld : Vector2)

/-- The elapsed time of an `Update` call is not negative. -/
def RayGunCall.timeOk : RayGunCall → Prop
  | .Update deltaTime _ => 0 ≤ deltaTime
  | _ => True

/-- Effect of one call. -/
def RayGun.call (r : RayGun) : RayGunCall → RayGun
  | .OnActivate player => r.OnActivate player
  | .OnDeactivate player => r.OnDeactivate player
  | .Update deltaTime player => r.Update deltaTime player
  | .Draw Sqrt player mouseWorld => r.Draw Sqrt player mouseWorld

/-- Effect of a sequence of calls, first call first. -/
def RayGun.run (r : RayGun) (calls : List RayGunCall) : RayGun :=
  calls.foldl RayGun.call r

/-- What holds of a ray gun in every state reachable from `NewRayGun`. -/
def RayGun.Inv (r : RayGun) : Prop :=
  0 ≤ r.HeatLevel ∧ r.HeatLevel ≤ 100 ∧ r.HeatRate = 40 ∧ r.CooldownRate = 30 ∧
    (r.IsOverheated = true → r.Active = false ∧ 0 < r.HeatLevel) ∧
    (r.HeatLevel = 100 → r.IsOverheated = true)

/-- The calls of consecutive player ticks with the fire button held, one frame
time per tick: `Player.Update` calls `OnActivate` and then `Update`. -/
def holdCalls (player : Player) : List ℚ → List RayGunCall
  | [] => []
  | deltaTime :: rest =>
    RayGunCall.OnActivate player :: RayGunCall.Update deltaTime player :: holdCalls player rest

/-- A ray gun held by the player is in a state reachable from `NewRayGun`;
sword and pistol states are not restricted. -/
def Weapon.Reachable : Weapon → Prop
  | .rayGun raygun =>
    ∃ calls : List RayGunCall, (∀ c ∈ calls, c.timeOk) ∧ raygun = NewRayGun.run calls
  | _ => True

/-! ## Reference definitions and concrete inputs -/

/-- The values the counter `t` of the sampling loop takes while `t <= 1.0`. -/
def raySampleTs : List ℚ :=
  [0, 13421773 / 134217728, 13421773 / 67108864, 5033165 / 16777216, 13421773 / 33554432,
    1 / 2, 5033165 / 8388608, 2936013 / 4194304, 6710887 / 8388608, 1887437 / 2097152]

/-- A player whose centre is the origin. -/
def playerAtOrigin : Player := { X := -8, Y := -8 }

/-- Reference behaviour of `Update` as the specification words it: heat rises by
`HeatRate*dt` while active and is cut at 100 with overheating and forced
deactivation; otherwise it falls by `CooldownRate*dt` and is cut at 0, which
clears the overheated flag. -/
def RayGun.UpdateRef (r : RayGun) (dt : ℚ) : RayGun :=
  if r.Active = true then
    if r.HeatLevel + r.HeatRate * dt ≥ 100 then
      { r with HeatLevel := 100, IsOverheated := true, Active := false }
    else { r with HeatLevel := r.HeatLevel + r.HeatRate * dt }
  else
    if r.HeatLevel - r.CooldownRate * dt ≤ 0 then
      { r with HeatLevel := 0, IsOverheated := false }
    else { r with HeatLevel := r.HeatLevel - r.CooldownRate * dt }

/-- An active gun whose stored ray runs 100 units to the right. -/
def rayGunAimedRight : RayGun :=
  { NewRayGun with Active := true, rayDirection := { X := 100, Y := 0 } }

/-- A target that contains the end of that ray and no point before 99.5. -/
def targetAtRayEnd : Rectangle := { X := 199 / 2, Y := -1, Width := 10, Height := 2 }

/-- A ray gun that was activated once, its ray still the zero vector: every
sampled point is the player's centre. -/
def rayGunJustActivated : RayGun := NewRayGun.run [RayGunCall.OnActivate playerAtOrigin]

/-- An enemy standing where the player stands: it does not move. -/
def enemyOnPlayer : Enemy := NewEnemy (-8) (-8)

/-- A sword in mid-slash whose damage area covers part of that enemy. -/
def swordMidSlash : Sword :=
  { NewSword with
    IsSlashing := true
    Active := true
    DamageArea := { X := 0, Y := 0, Width := 10, Height := 10 } }

/-- An idle sword whose stored damage area is the one `Sword.Draw` computes for
`playerAtOrigin` facing right. -/
def swordAtRest : Sword :=
  { NewSword with DamageArea := { X := 8, Y := -16, Width := 65 / 2, Height := 27 } }

/-- A fresh enemy that does not move, inside that damage area. -/
def enemyInReach : Enemy := { NewEnemy 10 (-10) with Speed := 0 }

/-! ## Sword: repeated updates -/

/-- The sword after `n` calls `Update(dt)`. -/
def Sword.UpdateN (s : Sword) (dt : ℚ) (player : Player) : Nat → Sword
  | 0 => s
  | n + 1 => (Sword.UpdateN s dt player n).Update dt player

/-- A slashing sword at animation frame `frame` with an empty frame timer. -/
def Sword.slashingAt (s : Sword) (frame : Int) : Sword :=
  { s with
    IsSlashing := true
    Active := true
    SlashAnim := { s.SlashAnim with Frame := frame, FrameTime := 0 } }

/-! ## Call sequences on a pistol, flight of a bullet -/

/-- One call on a pistol, with its arguments. -/
inductive PistolCall where
  | OnActivate (Sqrt : ℚ → ℚ) (player : Player) (mouseWorld : Vector2)
  | OnDeactivate (player : Player)
  | Update (deltaTime : ℚ) (player : Player)

/-- The elapsed time of an `Update` call is not negative. -/
def PistolCall.timeOk : PistolCall → Prop
  | .Update deltaTime _ => 0 ≤ deltaTime
  | _ => True

/-- The call is a fire attempt. -/
def PistolCall.isAttempt : PistolCall → Prop
  | .OnActivate _ _ _ => True
  | _ => False

/-- Effect of one call. -/
def Pistol.call (p : Pistol) : PistolCall → Pistol
  | .OnActivate Sqrt player mouseWorld => p.OnActivate Sqrt player mouseWorld
  | .OnDeactivate player => p.OnDeactivate player
  | .Update deltaTime player => p.Update deltaTime player

/-- Effect of a sequence of calls, first call first. -/
def Pistol.run (p : Pistol) (calls : List PistolCall) : Pistol :=
  calls.foldl Pistol.call p

/-- Total `Update` time of a sequence of calls. -/
def PistolCall.elapsed : List PistolCall → ℚ
  | [] => 0
  | .Update deltaTime _ :: rest => deltaTime + PistolCall.elapsed rest
  | _ :: rest => PistolCall.elapsed rest

/-- A sequence of `Update` calls with the given frame times. -/
def Pistol.updateCalls (player : Player) (dts : List ℚ) : List PistolCall :=
  dts.map fun dt => PistolCall.Update dt player

/-- The 4x4 box of a bullet that `CheckBulletCollision` tests. -/
def Bullet.box (b : Bullet) : Rectangle :=
  { X := b.Position.X - 2, Y := b.Position.Y - 2, Width := 4, Height := 4 }

/-- The centre of the player, where bullets and rays start. -/
def Player.center (player : Player) : Vector2 :=
  { X := player.X + (player.Width : ℚ) / 2, Y := player.Y + (player.Height : ℚ) / 2 }

/-- The direction `Pistol.OnActivate` gives the bullet: from the player's centre
to the mouse, divided by its length when `Sqrt` returns a positive length. -/
def Pistol.aimDirection (Sqrt : ℚ → ℚ) (player : Player) (mouseWorld : Vector2) : Vector2 :=
  let direction : Vector2 :=
    { X := mouseWorld.X - player.center.X, Y := mouseWorld.Y - player.center.Y }
  let length := Sqrt (direction.X * direction.X + direction.Y * direction.Y)
  if length > 0 then { X := direction.X / length, Y := direction.Y / length } else direction

/-- The call `CheckBulletCollision` together with the receiver it leaves
behind: the method has a pointer receiver and assigns to none of its fields. -/
def Pistol.CheckBulletCollisionCall (p : Pistol) (bounds : Rectangle) : Pistol × Bool :=
  (p, p.CheckBulletCollision bounds)

/-- The pistol branch of the weapon-damage block of `Game.UpdateGameLogic` with
the pistol it leaves behind. -/
def Game.pistolDamage (g : Game) (pistol : Pistol) (enemy : Enemy) : Game × Pistol × Enemy :=
  let r := pistol.CheckBulletCollisionCall enemy.GetBounds
  let pistol := r.1
  if r.2 then
    if enemy.DamageCooldown ≤ 0 then
      let enemy := enemy.TakeDamage 2
      let enemy := { enemy with DamageCooldown := 1 / 5 }
      ({ g with
          particles := g.particles ++ [⟨Color.Yellow, 5, enemy.X, enemy.Y⟩]
          shakeAmount := 2
          shakeTimer := 1 / 20 }, pistol, enemy)
    else (g, pistol, enemy)
  else (g, pistol, enemy)

/-- A bullet as `Pistol.OnActivate` spawns it, at `position` with `direction`
and `speed`: its lifetime is 0.5 s. -/
def Bullet.spawned (position direction : Vector2) (speed : ℚ) : Bullet :=
  { Position := position, Direction := direction, Speed := speed, LifeTimer := 1 / 2 }

/-! ## Boss -/

/-- The boss (`Boss`); the texture and the pointer field `Target` are left out. -/
structure Boss where
  X : ℚ
  Y : ℚ
  Width : Int
  Height : Int
  Speed : ℚ
  Health : Int
  DropChance : ℚ
  FlashTimer : ℚ
  WasHit : Bool
  deriving DecidableEq

/-- Constructor `NewBoss`. -/
def NewBoss (x y : ℚ) : Boss :=
  { X := x, Y := y, Width := 46, Height := 66, Speed := 1, Health := 100, DropChance := 1
    FlashTimer := 0
    WasHit := false }

/-- Damage on the boss (`Boss.TakeDamage`). -/
def Boss.TakeDamage (b : Boss) (amount : Int) : Boss :=
  { b with Health := b.Health - amount, FlashTimer := 1 / 10, WasHit := true }

/-- Death test (`Boss.IsDead`). -/
def Boss.IsDead (b : Boss) : Bool := decide (b.Health ≤ 0)

/-! ## The `Weapon` interface and the weapons of the player -/

/-- Method `Update` of the `Weapon` interface, dispatched on the weapon type. -/
def Weapon.Update (w : Weapon) (deltaTime : ℚ) (player : Player) : Weapon :=
  match w with
  | .rayGun r => .rayGun (r.Update deltaTime player)
  | .sword s => .sword (s.Update deltaTime player)
  | .pistol p => .pistol (p.Update deltaTime player)

/-- Method `OnActivate` of the `Weapon` interface; the camera argument is used
by the pistol only, to find the mouse position `mouseWorld`. -/
def Weapon.OnActivate (w : Weapon) (Sqrt : ℚ → ℚ) (player : Player) (mouseWorld : Vector2) :
    Weapon :=
  match w with
  | .rayGun r => .rayGun (r.OnActivate player)
  | .sword s => .sword (s.OnActivate player)
  | .pistol p => .pistol (p.OnActivate Sqrt player mouseWorld)

/-- Method `OnDeactivate` of the `Weapon` interface. -/
def Weapon.OnDeactivate (w : Weapon) (player : Player) : Weapon :=
  match w with
  | .rayGun r => .rayGun (r.OnDeactivate player)
  | .sword s => .sword (s.OnDeactivate player)
  | .pistol p => .pistol (p.OnDeactivate player)

/-- The player with its weapons.  The fields `CurrentWeapon` and `Weapons` of
the source hold pointers to weapon objects: `objects` is the store of these
objects and a pointer is an index into it. -/
structure ArmedPlayer extends Player where
  objects : List Weapon
  Weapons : List Nat
  CurrentWeapon : Nat
  deriving DecidableEq

/-- Constructor `NewPlayer`: the ray gun that is the current weapon is the same
object as the first entry of `Weapons`. -/
def NewPlayer (x y : ℚ) (_gameWidth _gameHeight : Int) : ArmedPlayer :=
  { X := x, Y := y
    objects := [Weapon.rayGun NewRayGun, Weapon.sword NewSword, Weapon.pistol NewPistol]
    Weapons := [0, 1, 2]
    CurrentWeapon := 0 }

/-- Weapon selection (`Player.SwitchWeapon`). -/
def ArmedPlayer.SwitchWeapon (p : ArmedPlayer) (index : Int) : ArmedPlayer :=
  if index ≥ 0 ∧ index < (p.Weapons.length : Int) then
    match p.Weapons[index.toNat]? with
    | some weapon => { p with CurrentWeapon := weapon }
    | none => p
  else p

/-- The weapon part of `Player.Update`, its first statements: the activation
signal from the mouse button, then `Update` of the current weapon.  The rest of
`Player.Update` (dash, movement, animation, invincibility timer, regeneration)
touches no weapon.  A `CurrentWeapon` that points to no object leaves the
store as it is. -/
def ArmedPlayer.UpdateWeapon (p : ArmedPlayer) (Sqrt : ℚ → ℚ) (deltaTime : ℚ)
    (mouseButtonDown : Bool) (mouseWorld : Vector2) : ArmedPlayer :=
  match p.objects[p.CurrentWeapon]? with
  | none => p
  | some w =>
    let w := if mouseButtonDown then w.OnActivate Sqrt p.toPlayer mouseWorld
      else w.OnDeactivate p.toPlayer
    let w := w.Update deltaTime p.toPlayer
    { p with objects := p.objects.set p.CurrentWeapon w }

/-- What the game does to a player between its creation and a later frame, as
far as the weapons can tell: a weapon selection, the weapon part of
`Player.Update`, or any change of the other fields (`body` is their new
value). -/
inductive PlayerCall where
  | SwitchWeapon (index : Int)
  | UpdateWeapon (Sqrt : ℚ → ℚ) (deltaTime : ℚ) (mouseButtonDown : Bool) (mouseWorld : Vector2)
  | SetBody (body : Player)

/-- Effect of one call on the player. -/
def ArmedPlayer.call (p : ArmedPlayer) : PlayerCall → ArmedPlayer
  | .SwitchWeapon index => p.SwitchWeapon index
  | .UpdateWeapon Sqrt deltaTime mouseButtonDown mouseWorld =>
    p.UpdateWeapon Sqrt deltaTime mouseButtonDown mouseWorld
  | .SetBody body => { p with toPlayer := body }

/-- Effect of a sequence of calls, first call first. -/
def ArmedPlayer.run (p : ArmedPlayer) (calls : List PlayerCall) : ArmedPlayer :=
  calls.foldl ArmedPlayer.call p

/-- The ray gun stored at address `a`, if there is one. -/
def ArmedPlayer.rayGunAt (p : ArmedPlayer) (a : Nat) : Option RayGun :=
  match p.objects[a]? with
  | some (.rayGun r) => some r
  | _ => none

/-- A player that fired the ray gun for one second and then selected the
sword. -/
def playerWithHotRayGun : ArmedPlayer :=
  (NewPlayer 0 0 800 600).run
    [PlayerCall.UpdateWeapon (fun _ => 0) 1 true ⟨0, 0⟩, PlayerCall.SwitchWeapon 1]

/-! ## The loop "Update all enemies" with its death test -/

/-- One iteration of the loop "Update all enemies" of `Game.UpdateGameLogic`:
the body up to the death test, then the death test.  A dead enemy leaves an
explosion and gives the player experience; a live one is appended to
`remainingEnemies`.  The random item drop writes `g.droppedItems` only and is
left out. -/
def Game.enemyIteration (Sqrt : ℚ → ℚ) (frameTime : ℚ) (currentWeapon : Weapon)
    (st : Game × Player × List Enemy) (enemy : Enemy) : Game × Player × List Enemy :=
  let s := st.1.enemyLoopBody Sqrt frameTime st.2.1 currentWeapon enemy
  let g := s.1
  let player := s.2.1
  let enemy := s.2.2
  let remainingEnemies := st.2.2
  if enemy.IsDead then
    ({ g with particles := g.particles ++ [⟨Color.Red, 15, enemy.X, enemy.Y⟩] },
      player.GainExperience 10, remainingEnemies)
  else (g, player, remainingEnemies ++ [enemy])

/-- The loop "Update all enemies" over the list `g.enemies`; the third
component of the result is the list assigned to `g.enemies` after the loop. -/
def Game.updateAllEnemies (g : Game) (Sqrt : ℚ → ℚ) (frameTime : ℚ) (player : Player)
    (currentWeapon : Weapon) (enemies : List Enemy) : Game × Player × List Enemy :=
  enemies.foldl (Game.enemyIteration Sqrt frameTime currentWeapon) (g, player, [])

/-- An enemy as the death test of this frame finds it: after its update and
this frame's damage. -/
def Game.enemyAfterDamage (g : Game) (Sqrt : ℚ → ℚ) (frameTime : ℚ) (player : Player)
    (currentWeapon : Weapon) (enemy : Enemy) : Enemy :=
  (g.enemyLoopBody Sqrt frameTime player currentWeapon enemy).2.2

/-- The loop "Update all enemies" over consecutive frames, first frame first;
the player of a frame is the player as `Player.Update` leaves it. -/
def Game.enemyListTicks (Sqrt : ℚ → ℚ) : Game → List Enemy → List TickInput → Game × List Enemy
  | g, enemies, [] => (g, enemies)
  | g, enemies, t :: ts =>
    let s := g.updateAllEnemies Sqrt t.frameTime t.player t.weapon enemies
    Game.enemyListTicks Sqrt s.1 s.2.2 ts

/-! ## Call sequences on a sword -/

/-- A call of one of the methods of a sword that write its state. -/
inductive SwordCall where
  | OnActivate (player : Player)
  | OnDeactivate (player : Player)
  | Update (deltaTime : ℚ) (player : Player)
  | Draw (player : Player)

/-- Effect of one call on the sword. -/
def Sword.call (s : Sword) : SwordCall → Sword
  | .OnActivate player => s.OnActivate player
  | .OnDeactivate player => s.OnDeactivate player
  | .Update deltaTime player => s.Update deltaTime player
  | .Draw player => s.Draw player

/-- Effect of a sequence of calls, first call first. -/
def Sword.run (s : Sword) (calls : List SwordCall) : Sword :=
  calls.foldl Sword.call s

/-- Consecutive `Update` calls with the frame times `dts`, first one first. -/
def Sword.updates (s : Sword) (player : Player) (dts : List ℚ) : Sword :=
  dts.foldl (fun s dt => s.Update dt player) s

/-- Whether the call `Update(deltaTime)` on `s` is one at which the frame timer
of a running slash reaches 0.05. -/
def Sword.timerReaches (s : Sword) (deltaTime : ℚ) : Bool :=
  s.IsSlashing && decide (s.SlashAnim.FrameTime + deltaTime ≥ 1 / 20)

/-- The number of calls, among consecutive `Update` calls with the frame times
`dts`, at which the frame timer of the running slash reaches 0.05. -/
def Sword.timerReachedCount (s : Sword) (player : Player) : List ℚ → Nat
  | [] => 0
  | dt :: dts =>
    (if s.timerReaches dt then 1 else 0) + Sword.timerReachedCount (s.Update dt player) player dts

/-! ## Vectors: the aim of the player -/

/-- The state invariant of a sword: the frame is one of the six frames of the
slash, the weapon is active exactly while it slashes, and the frame is 0 when
it does not slash. -/
def Sword.Inv (s : Sword) : Prop :=
  0 ≤ s.SlashAnim.Frame ∧ s.SlashAnim.Frame < 6 ∧ s.Active = s.IsSlashing ∧
    (s.IsSlashing = false → s.SlashAnim.Frame = 0)

/-- Two player values with the same position and size. -/
def Player.sameBox (p q : Player) : Prop :=
  q.X = p.X ∧ q.Y = p.Y ∧ q.Width = p.Width ∧ q.Height = p.Height

/-! ## The 32-bit reading of the arithmetic

The definitions above read `float32` as exact rationals.  The definitions of
this part, marked `32`, are the same functions with every `float32` operation
and constant rounded to binary32 (`f32Round`), each operation on its own, with
no fused multiply-add (as the Go compiler evaluates them on amd64).  They
agree with the program as long as no intermediate value overflows to an
infinity, which `f32Round` does not represent.  `Sqrt` stands for `math.Sqrt`
on binary64 numbers. -/

/-- A rational is a binary32 number when rounding leaves it as it is. -/
def IsF32 (x : ℚ) : Prop := f32Round x = x

instance (x : ℚ) : Decidable (IsF32 x) := by
  unfold IsF32
  infer_instance

/-- Point-in-rectangle test of raylib with the edge sums in binary32. -/
def CheckCollisionPointRec32 (point : Vector2) (rec : Rectangle) : Bool :=
  decide (point.X ≥ rec.X) && decide (point.X < f32Round (rec.X + rec.Width)) &&
    decide (point.Y ≥ rec.Y) && decide (point.Y < f32Round (rec.Y + rec.Height))

/-- Rectangle overlap test of raylib with the edge sums in binary32. -/
def CheckCollisionRecs32 (rec1 rec2 : Rectangle) : Bool :=
  (decide (rec1.X < f32Round (rec2.X + rec2.Width)) &&
      decide (f32Round (rec1.X + rec1.Width) > rec2.X)) &&
    (decide (rec1.Y < f32Round (rec2.Y + rec2.Height)) &&
      decide (f32Round (rec1.Y + rec1.Height) > rec2.Y))

/-- Bounding rectangle of the player (`Player.GetBounds`), the `int32` sizes
converted to `float32`. -/
def Player.GetBounds32 (p : Player) : Rectangle :=
  { X := p.X, Y := p.Y, Width := f32Round (p.Width : ℚ), Height := f32Round (p.Height : ℚ) }

/-- The centre of the player as the weapons compute it:
`player.X + float32(player.Width)/2`. -/
def Player.center32 (player : Player) : Vector2 :=
  { X := f32Round (player.X + f32Round (f32Round (player.Width : ℚ) / 2))
    Y := f32Round (player.Y + f32Round (f32Round (player.Height : ℚ) / 2)) }

/-- Heat mechanics of the beam (`RayGun.Update`) in binary32. -/
def RayGun.Update32 (r : RayGun) (deltaTime : ℚ) (_player : Player) : RayGun :=
  if r.Active then
    let r1 := { r with HeatLevel := f32Round (r.HeatLevel + f32Round (r.HeatRate * deltaTime)) }
    if r1.HeatLevel ≥ 100 then
      { r1 with HeatLevel := 100, IsOverheated := true, Active := false }
    else r1
  else
    let r1 := { r with HeatLevel := f32Round (r.HeatLevel - f32Round (r.CooldownRate * deltaTime)) }
    if r1.HeatLevel ≤ 0 then
      { r1 with HeatLevel := 0, IsOverheated := false }
    else r1

/-- The state `RayGun.Draw` stores, in binary32. -/
def RayGun.Draw32 (r : RayGun) (Sqrt : ℚ → ℚ) (player : Player) (mouseWorld : Vector2) :
    RayGun :=
  if !r.Active then r
  else
    let playerCenter := player.center32
    let direction : Vector2 :=
      { X := f32Round (mouseWorld.X - playerCenter.X)
        Y := f32Round (mouseWorld.Y - playerCenter.Y) }
    let length := f32Round (Sqrt (f32Round
      (f32Round (direction.X * direction.X) + f32Round (direction.Y * direction.Y))))
    if length > 0 then
      let normalizedDir : Vector2 :=
        { X := f32Round (direction.X / length), Y := f32Round (direction.Y / length) }
      let rayLength := f32Round (Min length r.AimLength)
      { r with rayDirection :=
          { X := f32Round (normalizedDir.X * rayLength)
            Y := f32Round (normalizedDir.Y * rayLength) } }
    else r

/-- The sampling loop of `RayGun.CheckRayCollision` in binary32: the counter as
in `RayGun.sampleLoop`, and the sampled point rounded as well. -/
def RayGun.sampleLoop32 (r : RayGun) (playerCenter : Vector2) (bounds : Rectangle) :
    Nat → ℚ → Option Bool
  | 0, _ => none
  | fuel + 1, t =>
    if t ≤ 1 then
      let point : Vector2 :=
        { X := f32Round (playerCenter.X + f32Round (r.rayDirection.X * t))
          Y := f32Round (playerCenter.Y + f32Round (r.rayDirection.Y * t)) }
      if CheckCollisionPointRec32 point bounds then some true
      else RayGun.sampleLoop32 r playerCenter bounds fuel (f32Round (t + f32Round (1 / 10)))
    else some false

/-- Hit test of the beam (`RayGun.CheckRayCollision`) in binary32; the loop is
run with a bound of 16 iterations, which it never reaches
(`RayGun.sampleLoop32_eq`). -/
def RayGun.CheckRayCollision32 (r : RayGun) (player : Player) (bounds : Rectangle) : Bool :=
  if !r.Active then false
  else (RayGun.sampleLoop32 r player.center32 bounds 16 0).getD false

/-- Slash animation clock (`Sword.Update`) in binary32; the threshold is the
`float32` constant 0.05. -/
def Sword.Update32 (s : Sword) (deltaTime : ℚ) (_player : Player) : Sword :=
  if s.IsSlashing then
    let s1 := { s with SlashAnim :=
      { s.SlashAnim with FrameTime := f32Round (s.SlashAnim.FrameTime + deltaTime) } }
    if s1.SlashAnim.FrameTime ≥ f32Round (1 / 20) then
      let s2 := { s1 with SlashAnim := { s1.SlashAnim with Frame := s1.SlashAnim.Frame + 1, FrameTime := 0 } }
      if s2.SlashAnim.Frame ≥ 6 then
        { s2 with IsSlashing := false, SlashAnim := { s2.SlashAnim with Frame := 0 }, Active := false }
      else s2
    else s1
  else s

/-- Hit test of the slash (`Sword.CheckSlashCollision`) in binary32. -/
def Sword.CheckSlashCollision32 (s : Sword) (bounds : Rectangle) : Bool :=
  if !s.IsSlashing then false
  else CheckCollisionRecs32 s.DamageArea bounds

/-- Constructor `NewPistol` with the `float32` constant 0.15. -/
def NewPistol32 : Pistol :=
  { IsEquipped := true
    Active := false
    Bullets := []
    ShootCooldown := f32Round (3 / 20)
    CooldownTimer := 0 }

/-- One bullet after `Pistol.Update` has moved and aged it, in binary32. -/
def Bullet.step32 (bullet : Bullet) (deltaTime : ℚ) : Bullet :=
  { bullet with
    Position :=
      { X := f32Round (bullet.Position.X +
          f32Round (f32Round (bullet.Direction.X * bullet.Speed) * deltaTime))
        Y := f32Round (bullet.Position.Y +
          f32Round (f32Round (bullet.Direction.Y * bullet.Speed) * deltaTime)) }
    LifeTimer := f32Round (bullet.LifeTimer - deltaTime) }

/-- Fire cooldown and bullet flight (`Pistol.Update`) in binary32. -/
def Pistol.Update32 (p : Pistol) (deltaTime : ℚ) (_player : Player) : Pistol :=
  let p1 :=
    if p.CooldownTimer > 0 then { p with CooldownTimer := f32Round (p.CooldownTimer - deltaTime) }
    else p
  let remainingBullets : List Bullet :=
    p1.Bullets.foldl
      (fun remainingBullets bullet =>
        let newBullet : Bullet := bullet.step32 deltaTime
        if newBullet.LifeTimer > 0 then remainingBullets ++ [newBullet] else remainingBullets)
      []
  { p1 with Bullets := remainingBullets }

/-- The direction `Pistol.OnActivate` gives the bullet, in binary32: the
difference vector from the player's centre to the mouse, divided by its length
when that is positive. -/
def Pistol.aimDirection32 (Sqrt : ℚ → ℚ) (player : Player) (mouseWorld : Vector2) : Vector2 :=
  let playerCenter := player.center32
  let direction : Vector2 :=
    { X := f32Round (mouseWorld.X - playerCenter.X)
      Y := f32Round (mouseWorld.Y - playerCenter.Y) }
  let length := f32Round (Sqrt (f32Round
    (f32Round (direction.X * direction.X) + f32Round (direction.Y * direction.Y))))
  if length > 0 then
    { X := f32Round (direction.X / length), Y := f32Round (direction.Y / length) }
  else direction

/-- Fire signal (`Pistol.OnActivate`) in binary32. -/
def Pistol.OnActivate32 (p : Pistol) (Sqrt : ℚ → ℚ) (player : Player) (mouseWorld : Vector2) :
    Pistol :=
  if p.CooldownTimer ≤ 0 then
    { p with
      Bullets := p.Bullets ++
        [{ Position := player.center32
           Direction := Pistol.aimDirection32 Sqrt player mouseWorld
           Speed := 240
           LifeTimer := 1 / 2 }]
      CooldownTimer := p.ShootCooldown }
  else p

/-- Hit test of the bullets (`Pistol.CheckBulletCollision`) in binary32. -/
def Pistol.CheckBulletCollision32 (p : Pistol) (bounds : Rectangle) : Bool :=
  p.Bullets.any fun bullet =>
    CheckCollisionRecs32
      { X := f32Round (bullet.Position.X - 2), Y := f32Round (bullet.Position.Y - 2)
        Width := 4, Height := 4 } bounds

/-- The cooldown clock of `Enemy.Update` in binary32:
`if e.DamageCooldown > 0 { e.DamageCooldown -= deltaTime }`. -/
def Enemy.coolDown32 (e : Enemy) (deltaTime : ℚ) : Enemy :=
  if e.DamageCooldown > 0 then { e with DamageCooldown := f32Round (e.DamageCooldown - deltaTime) }
  else e

/-- The direction towards the player of `Enemy.Update` in binary32:
`e.Direction = Vector2{X: e.Player.X - e.X, Y: e.Player.Y - e.Y}`. -/
def Enemy.aim32 (e : Enemy) (player : Player) : Enemy :=
  { e with Direction := { X := f32Round (player.X - e.X), Y := f32Round (player.Y - e.Y) } }

/-- The normalisation of the direction in `Enemy.Update`, in binary32: the
length is `float32(Sqrt(float64(X*X + Y*Y)))`, and the components are divided
by it when it is positive. -/
def Enemy.normalize32 (e : Enemy) (Sqrt : ℚ → ℚ) : Enemy :=
  let length := f32Round (Sqrt (f32Round
    (f32Round (e.Direction.X * e.Direction.X) + f32Round (e.Direction.Y * e.Direction.Y))))
  if length > 0 then
    { e with Direction :=
        { X := f32Round (e.Direction.X / length), Y := f32Round (e.Direction.Y / length) } }
  else e

/-- The move of `Enemy.Update` in binary32:
`e.X += e.Direction.X * e.Speed * deltaTime`, and the same for `Y`. -/
def Enemy.move32 (e : Enemy) (deltaTime : ℚ) : Enemy :=
  { e with
    X := f32Round (e.X + f32Round (f32Round (e.Direction.X * e.Speed) * deltaTime))
    Y := f32Round (e.Y + f32Round (f32Round (e.Direction.Y * e.Speed) * deltaTime)) }

/-- The floating damage text of `Enemy.Update` in binary32: while its timer is
positive the timer falls by the frame time, the text rises by 1 and the alpha
is the timer. -/
def Enemy.fadeText32 (e : Enemy) (frameTime : ℚ) : Enemy :=
  if e.DamageText.Timer > 0 then
    let timer := f32Round (e.DamageText.Timer - frameTime)
    { e with DamageText :=
        { e.DamageText with
          Timer := timer
          Position := { e.DamageText.Position with Y := f32Round (e.DamageText.Position.Y - 1) }
          Alpha := timer } }
  else e

/-- Per-frame update of an enemy (`Enemy.Update`) in binary32: the statements
of the source in their order, cooldown clock, direction, facing flag,
normalisation, move, damage text. -/
def Enemy.Update32 (e : Enemy) (Sqrt : ℚ → ℚ) (frameTime : ℚ) (player : Player) : Enemy :=
  let deltaTime := frameTime
  (((((e.coolDown32 deltaTime).aim32 player).turn).normalize32 Sqrt).move32
    deltaTime).fadeText32 frameTime

/-- Bounding rectangle of an enemy (`Enemy.GetBounds`), the `int32` sizes
converted to `float32`. -/
def Enemy.GetBounds32 (e : Enemy) : Rectangle :=
  { X := e.X, Y := e.Y, Width := f32Round (e.Width : ℚ), Height := f32Round (e.Height : ℚ) }

/-- Enemy against player overlap (`Enemy.CheckCollision`) in binary32. -/
def Enemy.CheckCollision32 (e : Enemy) (player : Player) : Bool :=
  CheckCollisionRecs32 e.GetBounds32 player.GetBounds32

/-- Damage on an enemy (`Enemy.TakeDamage`) with the `int32` subtraction
wrapping around and the text position in binary32. -/
def Enemy.TakeDamage32 (e : Enemy) (damage : Int) : Enemy :=
  let e := { e with CurrentHealth := wrapInt32 (e.CurrentHealth - damage) }
  let e := if e.CurrentHealth < 0 then { e with CurrentHealth := 0 } else e
  { e with DamageText :=
      { Value := damage
        Position :=
          { X := f32Round (f32Round (e.X + f32Round (f32Round (e.Width : ℚ) / 2)) - 8)
            Y := f32Round (e.Y - 10) }
        Alpha := 1
        Timer := 1 } }

/-- The block "Check for weapon damage" of `Game.UpdateGameLogic` in the 32-bit
reading: hit tests in binary32, cooldown intervals and shake times the
`float32` constants. -/
def Game.weaponDamage32 (g : Game) (player : Player) (currentWeapon : Weapon) (enemy : Enemy) :
    Game × Enemy :=
  match currentWeapon with
  | .rayGun raygun =>
    if raygun.Active && !raygun.IsOverheated then
      if raygun.CheckRayCollision32 player enemy.GetBounds32 then
        if enemy.DamageCooldown ≤ 0 then
          let damagePerSecond : Int := 3
          let enemy := enemy.TakeDamage32 1
          let enemy := { enemy with
            DamageCooldown := f32Round (1 / f32Round (damagePerSecond : ℚ)) }
          ({ g with
              particles := g.particles ++ [⟨Color.Yellow, 10, enemy.X, enemy.Y⟩]
              shakeAmount := 3
              shakeTimer := f32Round (1 / 10) }, enemy)
        else (g, enemy)
      else (g, enemy)
    else (g, enemy)
  | .sword sword =>
    if sword.CheckSlashCollision32 enemy.GetBounds32 then
      if enemy.DamageCooldown ≤ 0 then
        let enemy := enemy.TakeDamage32 2
        let enemy := { enemy with DamageCooldown := f32Round (3 / 10) }
        ({ g with
            particles := g.particles ++ [⟨Color.White, 10, enemy.X, enemy.Y⟩]
            shakeAmount := 3
            shakeTimer := f32Round (1 / 10) }, enemy)
      else (g, enemy)
    else (g, enemy)
  | .pistol pistol =>
    if pistol.CheckBulletCollision32 enemy.GetBounds32 then
      if enemy.DamageCooldown ≤ 0 then
        let enemy := enemy.TakeDamage32 2
        let enemy := { enemy with DamageCooldown := f32Round (1 / 5) }
        ({ g with
            particles := g.particles ++ [⟨Color.Yellow, 5, enemy.X, enemy.Y⟩]
            shakeAmount := 2
            shakeTimer := f32Round (1 / 20) }, enemy)
      else (g, enemy)
    else (g, enemy)

/-- The first part of the body of the loop "Update all enemies" in the 32-bit
reading: the enemy's own update and the enemy-player collision. -/
def Game.beforeWeaponDamage32 (g : Game) (Sqrt : ℚ → ℚ) (frameTime : ℚ) (player : Player)
    (enemy : Enemy) : Game × Player × Enemy :=
  let enemy := enemy.Update32 Sqrt frameTime player
  if enemy.CheckCollision32 player then
    let player := player.TakeDamage 10
    ({ g with
        particles := g.particles ++ [⟨Color.Red, 10, player.X, player.Y⟩]
        shakeAmount := 3
        shakeTimer := f32Round (1 / 10) }, player, enemy)
  else (g, player, enemy)

/-- The body of the loop "Update all enemies" up to the death test, in the
32-bit reading. -/
def Game.enemyLoopBody32 (g : Game) (Sqrt : ℚ → ℚ) (frameTime : ℚ) (player : Player)
    (currentWeapon : Weapon) (enemy : Enemy) : Game × Player × Enemy :=
  let s := g.beforeWeaponDamage32 Sqrt frameTime player enemy
  let ge := s.1.weaponDamage32 s.2.1 currentWeapon s.2.2
  (ge.1, s.2.1, ge.2)

/-- The loop body for one enemy over consecutive frames, in the 32-bit
reading. -/
def Game.enemyTicks32 (g : Game) (Sqrt : ℚ → ℚ) (enemy : Enemy) : List TickInput → Game × Enemy
  | [] => (g, enemy)
  | t :: ts =>
    let s := g.enemyLoopBody32 Sqrt t.frameTime t.player t.weapon enemy
    Game.enemyTicks32 s.1 Sqrt s.2.2 ts

/-- The hit test the resolver runs for the weapon type at hand, in binary32. -/
def Weapon.hitTest32 (w : Weapon) (player : Player) (bounds : Rectangle) : Bool :=
  match w with
  | .rayGun r => r.CheckRayCollision32 player bounds
  | .sword s => s.CheckSlashCollision32 bounds
  | .pistol p => p.CheckBulletCollision32 bounds

/-- The cooldown interval the resolver stores for each weapon type: the
`float32` constants `1.0 / float32(3)`, 0.3 and 0.2. -/
def Weapon.cooldownInterval32 : Weapon → ℚ
  | .rayGun _ => f32Round (1 / f32Round 3)
  | .sword _ => f32Round (3 / 10)
  | .pistol _ => f32Round (1 / 5)

/-- The weapon-damage block applied damage (32-bit reading). -/
def Game.DamageApplied32 (g : Game) (player : Player) (w : Weapon) (enemy : Enemy) : Prop :=
  g.weaponDamage32 player w enemy ≠ (g, enemy)

/-- In this frame the weapon's hit test on the enemy, as the weapon-damage block
runs it, is true (32-bit reading). -/
def Game.TickHits32 (g : Game) (Sqrt : ℚ → ℚ) (t : TickInput) (enemy : Enemy) : Prop :=
  t.weapon.hitTest32 (g.beforeWeaponDamage32 Sqrt t.frameTime t.player enemy).2.1
    (g.beforeWeaponDamage32 Sqrt t.frameTime t.player enemy).2.2.GetBounds32 = true

/-- In this frame the weapon-damage block applies damage to the enemy (32-bit
reading). -/
def Game.TickApplies32 (g : Game) (Sqrt : ℚ → ℚ) (t : TickInput) (enemy : Enemy) : Prop :=
  (g.beforeWeaponDamage32 Sqrt t.frameTime t.player enemy).1.DamageApplied32
    (g.beforeWeaponDamage32 Sqrt t.frameTime t.player enemy).2.1 t.weapon
    (g.beforeWeaponDamage32 Sqrt t.frameTime t.player enemy).2.2

instance (g : Game) (player : Player) (w : Weapon) (enemy : Enemy) :
    Decidable (g.DamageApplied32 player w enemy) :=
  inferInstanceAs (Decidable (g.weaponDamage32 player w enemy ≠ (g, enemy)))

instance (g : Game) (Sqrt : ℚ → ℚ) (t : TickInput) (enemy : Enemy) :
    Decidable (g.TickHits32 Sqrt t enemy) :=
  inferInstanceAs (Decidable (_ = true))

instance (g : Game) (Sqrt : ℚ → ℚ) (t : TickInput) (enemy : Enemy) :
    Decidable (g.TickApplies32 Sqrt t enemy) :=
  inferInstanceAs (Decidable (Game.DamageApplied32 _ _ _ _))

/-- The countdown of a cooldown clock in binary32: the value `c` after the
frames `dts`, each of which subtracts its frame time while the clock is
positive (`if cd > 0 { cd -= dt }`). -/
def countdown32 (c : ℚ) (dts : List ℚ) : ℚ :=
  dts.foldl (fun c dt => if c > 0 then f32Round (c - dt) else c) c

/-- The heat of a ray gun fired without a break for the frames `dts`, as long as
it does not overheat: each frame adds `float32(HeatRate * dt)` in binary32. -/
def heatSum32 (heatRate : ℚ) (h : ℚ) (dts : List ℚ) : ℚ :=
  dts.foldl (fun h dt => f32Round (h + f32Round (heatRate * dt))) h

/-- Effect of one call on a ray gun in the 32-bit reading. -/
def RayGun.call32 (r : RayGun) : RayGunCall → RayGun
  | .OnActivate player => r.OnActivate player
  | .OnDeactivate player => r.OnDeactivate player
  | .Update deltaTime player => r.Update32 deltaTime player
  | .Draw Sqrt player mouseWorld => r.Draw32 Sqrt player mouseWorld

/-- Effect of a sequence of calls in the 32-bit reading, first call first. -/
def RayGun.run32 (r : RayGun) (calls : List RayGunCall) : RayGun :=
  calls.foldl RayGun.call32 r

/-- What holds of a ray gun in every state reachable from `NewRayGun` in the
32-bit reading. -/
def RayGun.Inv32 (r : RayGun) : Prop :=
  0 ≤ r.HeatLevel ∧ r.HeatLevel ≤ 100 ∧ IsF32 r.HeatLevel ∧ r.HeatRate = 40 ∧
    r.CooldownRate = 30 ∧
    (r.IsOverheated = true → r.Active = false ∧ 0 < r.HeatLevel) ∧
    (r.HeatLevel = 100 → r.IsOverheated = true)

/-- Sixty frames per second: the `float32` frame time nearest to 1/60 s. -/
def frame60 : ℚ := f32Round (1 / 60)

/-- Effect of one call on a pistol in the 32-bit reading. -/
def Pistol.call32 (p : Pistol) : PistolCall → Pistol
  | .OnActivate Sqrt player mouseWorld => p.OnActivate32 Sqrt player mouseWorld
  | .OnDeactivate player => p.OnDeactivate player
  | .Update deltaTime player => p.Update32 deltaTime player

/-- Effect of a sequence of calls in the 32-bit reading, first call first. -/
def Pistol.run32 (p : Pistol) (calls : List PistolCall) : Pistol :=
  calls.foldl Pistol.call32 p

/-- Number of `Update` calls of a sequence of calls. -/
def PistolCall.updates : List PistolCall → Nat
  | [] => 0
  | .Update _ _ :: rest => PistolCall.updates rest + 1
  | _ :: rest => PistolCall.updates rest

/-- Fate of a bullet in one `Update` in binary32: moved and aged, if lifetime
is left. -/
def Bullet.flight32 (dt : ℚ) (b : Bullet) : Option Bullet :=
  if (b.step32 dt).LifeTimer > 0 then some (b.step32 dt) else none

/-- Fate of a bullet over consecutive `Update` calls with the frame times
`dts`, in binary32. -/
def Bullet.flights32 (dts : List ℚ) (b : Bullet) : Option Bullet :=
  dts.foldl (fun ob dt => ob.bind (Bullet.flight32 dt)) (some b)

/-- The 4x4 box of a bullet that `CheckBulletCollision` tests, in binary32. -/
def Bullet.box32 (b : Bullet) : Rectangle :=
  { X := f32Round (b.Position.X - 2), Y := f32Round (b.Position.Y - 2), Width := 4, Height := 4 }

/-- A pistol of the game just after a shot from the player at the origin
towards (3, 4). -/
def pistolAfterShot32 : Pistol := NewPistol32.OnActivate32 (fun _ => 5) playerAtOrigin ⟨3, 4⟩

/-- A bullet spawned at `p0` with direction `d` and speed `S` is on course
after `n` frames and the time `t`: it has that direction and speed, its
lifetime is a positive binary32 number of at most 0.5 within `n * 2^-26` of
`0.5 - t`, and, for a spawn position within 2048 of the origin, a velocity of
at most 256 per second and at most 4096 frames, each coordinate is within
`n * 2^-12` of `p0 + d * S * t`. -/
def Bullet.OnCourse (p0 d : Vector2) (S : ℚ) (n : ℕ) (t : ℚ) (b : Bullet) : Prop :=
  b.Direction = d ∧ b.Speed = S ∧ IsF32 b.LifeTimer ∧ 0 < b.LifeTimer ∧ b.LifeTimer ≤ 1 / 2 ∧
    |b.LifeTimer - (1 / 2 - t)| ≤ n * (2 : ℚ) ^ (-26 : Int) ∧
    (|p0.X| ≤ 2048 → |d.X * S| ≤ 256 → n ≤ 4096 →
      |b.Position.X - (p0.X + d.X * S * t)| ≤ n * (2 : ℚ) ^ (-12 : Int)) ∧
    (|p0.Y| ≤ 2048 → |d.Y * S| ≤ 256 → n ≤ 4096 →
      |b.Position.Y - (p0.Y + d.Y * S * t)| ≤ n * (2 : ℚ) ^ (-12 : Int))

/-- The vector from the player's centre to the aim point as `Pistol.OnActivate`
and `RayGun.Draw` compute it, in binary32. -/
def aimDifference32 (player : Player) (mouseWorld : Vector2) : Vector2 :=
  { X := f32Round (mouseWorld.X - player.center32.X)
    Y := f32Round (mouseWorld.Y - player.center32.Y) }

/-- The sum of squares that is passed to `math.Sqrt`, in binary32. -/
def aimSquare32 (player : Player) (mouseWorld : Vector2) : ℚ :=
  f32Round
    (f32Round ((aimDifference32 player mouseWorld).X * (aimDifference32 player mouseWorld).X) +
      f32Round ((aimDifference32 player mouseWorld).Y * (aimDifference32 player mouseWorld).Y))

/-- The length of the aim vector in binary32:
`float32(math.Sqrt(float64(dx*dx + dy*dy)))`. -/
def aimLength32 (Sqrt : ℚ → ℚ) (player : Player) (mouseWorld : Vector2) : ℚ :=
  f32Round (Sqrt (aimSquare32 player mouseWorld))

/-- The length of the ray that `RayGun.Draw` stores, in binary32:
`float32(Min(float64(length), float64(r.AimLength)))`. -/
def RayGun.rayLength32 (r : RayGun) (Sqrt : ℚ → ℚ) (player : Player) (mouseWorld : Vector2) :
    ℚ :=
  f32Round (Min (aimLength32 Sqrt player mouseWorld) r.AimLength)

/-- A component that the rounding error bounds cover: zero, or between `2^-60`
and `2^60` in absolute value, so that no product of the normalisation leaves
the normal range of binary32. -/
def InRange32 (a : ℚ) : Prop :=
  a = 0 ∨ ((2 : ℚ) ^ (-60 : Int) ≤ |a| ∧ |a| ≤ (2 : ℚ) ^ (60 : Int))

instance (a : ℚ) : Decidable (InRange32 a) := by
  unfold InRange32
  infer_instance

/-- The square root is accurate at `s`: its result is not negative and its
square is `s` up to the relative error `2^-50`.  The correctly rounded binary64
square root of `math.Sqrt`, whose relative error is at most `2^-53`, is of this
kind at every `s ≥ 0`. -/
def SqrtAccurate (Sqrt : ℚ → ℚ) (s : ℚ) : Prop :=
  0 ≤ Sqrt s ∧ |Sqrt s * Sqrt s - s| ≤ s * (2 : ℚ) ^ (-50 : Int)

instance (Sqrt : ℚ → ℚ) (s : ℚ) : Decidable (SqrtAccurate Sqrt s) := by
  unfold SqrtAccurate
  infer_instance

/-- The binary64 value of the square root of 2. -/
def sqrtTwo64 : ℚ := 6369051672525773 / 4503599627370496

/-- The binary64 value of the square root of 20000. -/
def sqrt20000 : ℚ := 621977702395095 / 4398046511104

/-- A ray gun held by the player is in a state reachable from `NewRayGun` in
the 32-bit reading; sword and pistol states are not restricted. -/
def Weapon.Reachable32 : Weapon → Prop
  | .rayGun raygun =>
    ∃ calls : List RayGunCall, (∀ c ∈ calls, c.timeOk) ∧ raygun = NewRayGun.run32 calls
  | _ => True

/-- The pistol of the game after a shot aimed at the player's own centre: the
bullet has the zero direction and stays at the centre. -/
def pistolAtCentre : Pistol := NewPistol32.OnActivate32 (fun _ => 0) playerAtOrigin ⟨0, 0⟩

/-- Frame `k` of a run at sixty frames per second with that pistol: what the
loop body is given after the `k`-th `Player.Update` since the shot. -/
def pistolFrame60 (k : Nat) : TickInput :=
  ⟨frame60, playerAtOrigin,
    Weapon.pistol
      (pistolAtCentre.run32 (Pistol.updateCalls playerAtOrigin (List.replicate k frame60)))⟩

/-- First frame at sixty frames per second: the ray gun, just activated, hits. -/
def gatingFirst32 : TickInput := ⟨frame60, playerAtOrigin, Weapon.rayGun rayGunJustActivated⟩

/-- Scenario B in the 32-bit reading: the number of frames of one slash in
which the weapon-damage block applies damage.  Each frame is the player's
weapon update (`OnActivate` or `OnDeactivate`, then `Update`) followed by the
loop body for the enemy; the button is down in the first frame only (`fire`),
and the count stops with the frame whose `Update` ends the slash.  `fuel`
bounds the number of frames, `none` means it was reached. -/
def Game.slashDamageCount32 (Sqrt : ℚ → ℚ) (dt : ℚ) (player : Player) :
    Nat → Bool → Game → Sword → Enemy → Option Nat
  | 0, _, _, _, _ => none
  | fuel + 1, fire, g, sword, enemy =>
    let sword := if fire then sword.OnActivate player else sword.OnDeactivate player
    let sword := sword.Update32 dt player
    let applied : Nat :=
      if g.TickApplies32 Sqrt ⟨dt, player, Weapon.sword sword⟩ enemy then 1 else 0
    let s := g.enemyLoopBody32 Sqrt dt player (Weapon.sword sword) enemy
    if sword.IsSlashing then
      (Game.slashDamageCount32 Sqrt dt player fuel false s.1 sword s.2.2).map (· + applied)
    else some applied

/-- The frame timer of a slash `k` updates after it was 0, in binary32: each
update adds the frame time (`FrameTime += deltaTime`). -/
def frameTimer32 (dt : ℚ) : Nat → ℚ
  | 0 => 0
  | k + 1 => f32Round (frameTimer32 dt k + dt)

/-! ## Ray gun: the heat stays in range -/

theorem RayGun.inv_new : NewRayGun.Inv := by
  simp [RayGun.Inv, NewRayGun]

theorem RayGun.inv_Update (r : RayGun) (deltaTime : ℚ) (player : Player) (h : r.Inv)
    (hdt : 0 ≤ deltaTime) : (r.Update deltaTime player).Inv := by
  obtain ⟨h0, h100, hr, hc, hov, hfull⟩ := h
  unfold RayGun.Update
  by_cases hA : r.Active = true
  · have hno : r.IsOverheated = false := by
      cases hO : r.IsOverheated with
      | false => rfl
      | true => exact absurd hA (by simp [(hov hO).1])
    simp only [hA, if_true]
    split_ifs with hge
    · simp [RayGun.Inv, hr, hc]
    · simp only [ge_iff_le, not_le] at hge
      refine ⟨?_, ?_, hr, hc, ?_, ?_⟩
      · show 0 ≤ r.HeatLevel + r.HeatRate * deltaTime
        rw [hr]; positivity
      · exact le_of_lt hge
      · intro hO; simp [hno] at hO
      · intro hEq; exact absurd hEq (ne_of_lt hge)
  · have hA' : r.Active = false := by simpa using hA
    simp only [hA', Bool.false_eq_true, if_false]
    split_ifs with hle
    · simp [RayGun.Inv, hr, hc]
    · simp only [not_le] at hle
      refine ⟨le_of_lt hle, ?_, hr, hc, ?_, ?_⟩
      · show r.HeatLevel - r.CooldownRate * deltaTime ≤ 100
        rw [hc]; linarith
      · intro hO
        exact ⟨hA', hle⟩
      · intro hEq
        apply hfull
        have h1 : r.HeatLevel - r.CooldownRate * deltaTime = 100 := hEq
        rw [hc] at h1
        linarith

theorem RayGun.inv_call (r : RayGun) (c : RayGunCall) (h : r.Inv) (hc : c.timeOk) :
    (r.call c).Inv := by
  cases c with
  | OnActivate player =>
    obtain ⟨h0, h100, hr, hcr, hov, hfull⟩ := h
    unfold RayGun.call RayGun.OnActivate
    cases hO : r.IsOverheated with
    | false => simp [RayGun.Inv, hO, h0, h100, hr, hcr]; simpa [hO] using hfull
    | true => simpa [RayGun.Inv, hO, h0, h100, hr, hcr] using hov hO
  | OnDeactivate player =>
    obtain ⟨h0, h100, hr, hcr, hov, hfull⟩ := h
    exact ⟨h0, h100, hr, hcr, fun hO => ⟨rfl, (hov hO).2⟩, hfull⟩
  | Update deltaTime player => exact RayGun.inv_Update r deltaTime player h hc
  | Draw Sqrt player mouseWorld =>
    obtain ⟨h0, h100, hr, hcr, hov, hfull⟩ := h
    unfold RayGun.call RayGun.Draw
    simp only []
    split_ifs
    · exact ⟨h0, h100, hr, hcr, hov, hfull⟩
    · exact ⟨h0, h100, hr, hcr, hov, hfull⟩
    · exact ⟨h0, h100, hr, hcr, hov, hfull⟩

theorem RayGun.inv_run (calls : List RayGunCall) (r : RayGun) (h : r.Inv)
    (hc : ∀ c ∈ calls, c.timeOk) : (r.run calls).Inv := by
  induction calls generalizing r with
  | nil => exact h
  | cons c cs ih =>
    have hstep : (r.call c).Inv := RayGun.inv_call r c h (hc c (List.mem_cons_self c cs))
    exact ih (r.call c) hstep (fun d hd => hc d (List.mem_cons_of_mem c hd))

/-- C1: for the ray gun made by `NewRayGun` and every finite sequence of
`OnActivate`, `OnDeactivate`, `Update` (and `Draw`) calls whose elapsed times
are not negative, the heat level lies in [0, 100] after every call, that is,
after every prefix of the sequence. -/
theorem rayGun_heat_in_range (calls : List RayGunCall) (hdt : ∀ c ∈ calls, c.timeOk) (n : ℕ) :
    0 ≤ (NewRayGun.run (calls.take n)).HeatLevel ∧
      (NewRayGun.run (calls.take n)).HeatLevel ≤ 100 := by
  have h := RayGun.inv_run (calls.take n) NewRayGun RayGun.inv_new
    (fun c hc => hdt c (List.mem_of_mem_take hc))
  exact ⟨h.1, h.2.1⟩

/-- Witness of C1: activate, heat for 3 s (overheats), try again, cool for 1 s. -/
theorem rayGun_heat_in_range_witness :
    (∀ c ∈ [RayGunCall.OnActivate playerAtOrigin, RayGunCall.Update 3 playerAtOrigin,
        RayGunCall.OnActivate playerAtOrigin, RayGunCall.Update 1 playerAtOrigin], c.timeOk) ∧
      0 ≤ (NewRayGun.run ([RayGunCall.OnActivate playerAtOrigin,
        RayGunCall.Update 3 playerAtOrigin, RayGunCall.OnActivate playerAtOrigin,
        RayGunCall.Update 1 playerAtOrigin].take 2)).HeatLevel ∧
      (NewRayGun.run ([RayGunCall.OnActivate playerAtOrigin,
        RayGunCall.Update 3 playerAtOrigin, RayGunCall.OnActivate playerAtOrigin,
        RayGunCall.Update 1 playerAtOrigin].take 2)).HeatLevel ≤ 100 :=
  ⟨by simp [RayGunCall.timeOk], rayGun_heat_in_range _ (by simp [RayGunCall.timeOk]) 2⟩

/-! ## Ray gun: overheating locks the beam -/

theorem holdCalls_append (player : Player) (dts : List ℚ) (dt : ℚ) :
    holdCalls player (dts ++ [dt]) =
      holdCalls player dts ++ [RayGunCall.OnActivate player, RayGunCall.Update dt player] := by
  induction dts with
  | nil => rfl
  | cons d ds ih => simp [holdCalls, ih]

theorem RayGun.inactive_no_hit (r : RayGun) (player : Player) (bounds : Rectangle)
    (h : r.Active = false) : r.CheckRayCollision player bounds = false := by
  simp [RayGun.CheckRayCollision, h]

theorem Game.weaponDamage_miss (g : Game) (player : Player) (w : Weapon) (enemy : Enemy)
    (h : ¬ (w.hitTest player enemy.GetBounds = true ∧ enemy.DamageCooldown ≤ 0)) :
    g.weaponDamage player w enemy = (g, enemy) := by
  cases w with
  | rayGun raygun =>
    simp only [Weapon.hitTest] at h
    unfold Game.weaponDamage
    simp only []
    split_ifs with h1 h2 h3
    · exact absurd ⟨h2, h3⟩ h
    · rfl
    · rfl
    · rfl
  | sword sword =>
    simp only [Weapon.hitTest] at h
    unfold Game.weaponDamage
    simp only []
    split_ifs with h2 h3
    · exact absurd ⟨h2, h3⟩ h
    · rfl
    · rfl
  | pistol pistol =>
    simp only [Weapon.hitTest] at h
    unfold Game.weaponDamage
    simp only []
    split_ifs with h2 h3
    · exact absurd ⟨h2, h3⟩ h
    · rfl
    · rfl

/-! ## Ray gun: `Update` against its reference, `OnActivate`, inactive hit test -/

/-- C3: for every state and every `dt`, `RayGun.Update` is the reference
`UpdateRef`; it leaves `IsEquipped`, the two rates, the stored ray and
`AimLength` alone; the overheated flag goes from false to true only in a call
that leaves the heat at 100 and from true to false only in a call that leaves
it at 0. -/
theorem rayGun_update_eq_reference (r : RayGun) (dt : ℚ) (player : Player) :
    r.Update dt player = r.UpdateRef dt ∧
      ((r.Update dt player).IsEquipped = r.IsEquipped ∧
        (r.Update dt player).CooldownRate = r.CooldownRate ∧
        (r.Update dt player).HeatRate = r.HeatRate ∧
        (r.Update dt player).rayDirection = r.rayDirection ∧
        (r.Update dt player).AimLength = r.AimLength) ∧
      (r.IsOverheated = false → (r.Update dt player).IsOverheated = true →
        (r.Update dt player).HeatLevel = 100) ∧
      (r.IsOverheated = true → (r.Update dt player).IsOverheated = false →
        (r.Update dt player).HeatLevel = 0) := by
  unfold RayGun.Update RayGun.UpdateRef
  cases hA : r.Active <;> cases hO : r.IsOverheated <;> simp <;> split_ifs <;> simp_all

/-- C4: `OnActivate` on an overheated gun returns the state unchanged; on a gun
that is not overheated it sets `Active` and changes no other field. -/
theorem rayGun_onActivate (r : RayGun) (player : Player) :
    (r.IsOverheated = true → r.OnActivate player = r) ∧
      (r.IsOverheated = false → r.OnActivate player = { r with Active := true }) := by
  constructor <;> intro h <;> simp [RayGun.OnActivate, h]

/-- Witness of C4: an overheated gun at heat 100 and a fresh gun. -/
theorem rayGun_onActivate_witness :
    ({ NewRayGun with HeatLevel := 100, IsOverheated := true } : RayGun).OnActivate
        playerAtOrigin = { NewRayGun with HeatLevel := 100, IsOverheated := true } ∧
      NewRayGun.OnActivate playerAtOrigin = { NewRayGun with Active := true } :=
  ⟨(rayGun_onActivate _ playerAtOrigin).1 rfl, (rayGun_onActivate _ playerAtOrigin).2 rfl⟩

/-- C5: whatever the player position, the stored ray and the target rectangle,
`CheckRayCollision` is false when `IsActive()` is false. -/
theorem rayGun_inactive_never_hits (r : RayGun) (player : Player) (bounds : Rectangle)
    (h : r.IsActive = false) : r.CheckRayCollision player bounds = false := by
  simp only [RayGun.IsActive] at h
  simp [RayGun.CheckRayCollision, h]

/-- Witness of C5: an inactive gun whose stored ray ends inside the target. -/
theorem rayGun_inactive_never_hits_witness :
    ({ NewRayGun with rayDirection := { X := 50, Y := 0 } } : RayGun).IsActive = false ∧
      ({ NewRayGun with rayDirection := { X := 50, Y := 0 } } : RayGun).CheckRayCollision
        playerAtOrigin { X := -100, Y := -100, Width := 200, Height := 200 } = false :=
  ⟨rfl, rayGun_inactive_never_hits _ _ _ rfl⟩

/-! ## Ray gun: the sampled points of the beam -/

theorem f32_tenth : f32Round (1 / 10) = 13421773 / 134217728 := by decide!

theorem f32_step1 : f32Round (0 + 13421773 / 134217728) = 13421773 / 134217728 := by decide!

theorem f32_step2 :
    f32Round (13421773 / 134217728 + 13421773 / 134217728) = 13421773 / 67108864 := by decide!

theorem f32_step3 :
    f32Round (13421773 / 67108864 + 13421773 / 134217728) = 5033165 / 16777216 := by decide!

theorem f32_step4 :
    f32Round (5033165 / 16777216 + 13421773 / 134217728) = 13421773 / 33554432 := by decide!

theorem f32_step5 : f32Round (13421773 / 33554432 + 13421773 / 134217728) = 1 / 2 := by decide!

theorem f32_step6 : f32Round (1 / 2 + 13421773 / 134217728) = 5033165 / 8388608 := by decide!

theorem f32_step7 :
    f32Round (5033165 / 8388608 + 13421773 / 134217728) = 2936013 / 4194304 := by decide!

theorem f32_step8 :
    f32Round (2936013 / 4194304 + 13421773 / 134217728) = 6710887 / 8388608 := by decide!

theorem f32_step9 :
    f32Round (6710887 / 8388608 + 13421773 / 134217728) = 1887437 / 2097152 := by decide!

theorem f32_step10 :
    f32Round (1887437 / 2097152 + 13421773 / 134217728) = 8388609 / 8388608 := by decide!

theorem RayGun.sampleLoop_step (r : RayGun) (playerCenter : Vector2) (bounds : Rectangle)
    (fuel : Nat) (t : ℚ) (h : t ≤ 1) :
    RayGun.sampleLoop r playerCenter bounds (fuel + 1) t =
      if CheckCollisionPointRec
          { X := playerCenter.X + r.rayDirection.X * t
            Y := playerCenter.Y + r.rayDirection.Y * t } bounds = true then some true
      else RayGun.sampleLoop r playerCenter bounds fuel (f32Round (t + 13421773 / 134217728)) := by
  simp only [RayGun.sampleLoop, h, if_true, f32_tenth]

theorem RayGun.sampleLoop_stop (r : RayGun) (playerCenter : Vector2) (bounds : Rectangle)
    (fuel : Nat) (t : ℚ) (h : ¬ t ≤ 1) :
    RayGun.sampleLoop r playerCenter bounds (fuel + 1) t = some false := by
  simp only [RayGun.sampleLoop, h, if_false]

theorem ite_some_or (b x : Bool) : (if b = true then some true else some x) = some (b || x) := by
  cases b <;> simp

/-- The sampling loop ends by its own test after ten iterations: it tests the
points at the ten counter values of `raySampleTs`, the last of them about 0.9,
and leaves when the counter is 8388609/8388608, just above 1. -/
theorem RayGun.sampleLoop_eq (r : RayGun) (playerCenter : Vector2) (bounds : Rectangle) :
    RayGun.sampleLoop r playerCenter bounds 16 0 =
      some (raySampleTs.any fun t =>
        CheckCollisionPointRec
          { X := playerCenter.X + r.rayDirection.X * t
            Y := playerCenter.Y + r.rayDirection.Y * t } bounds) := by
  rw [RayGun.sampleLoop_step r playerCenter bounds 15 0 (by norm_num), f32_step1,
    RayGun.sampleLoop_step r playerCenter bounds 14 _ (by norm_num), f32_step2,
    RayGun.sampleLoop_step r playerCenter bounds 13 _ (by norm_num), f32_step3,
    RayGun.sampleLoop_step r playerCenter bounds 12 _ (by norm_num), f32_step4,
    RayGun.sampleLoop_step r playerCenter bounds 11 _ (by norm_num), f32_step5,
    RayGun.sampleLoop_step r playerCenter bounds 10 _ (by norm_num), f32_step6,
    RayGun.sampleLoop_step r playerCenter bounds 9 _ (by norm_num), f32_step7,
    RayGun.sampleLoop_step r playerCenter bounds 8 _ (by norm_num), f32_step8,
    RayGun.sampleLoop_step r playerCenter bounds 7 _ (by norm_num), f32_step9,
    RayGun.sampleLoop_step r playerCenter bounds 6 _ (by norm_num), f32_step10,
    RayGun.sampleLoop_stop r playerCenter bounds 5 _ (by norm_num)]
  simp only [ite_some_or, raySampleTs, List.any_cons, List.any_nil]

/-- Hit test of the beam in closed form: active, and one of the ten sampled
points inside the bounds. -/
theorem RayGun.CheckRayCollision_eq (r : RayGun) (player : Player) (bounds : Rectangle) :
    r.CheckRayCollision player bounds =
      (r.Active && raySampleTs.any fun t =>
        CheckCollisionPointRec
          { X := player.X + (player.Width : ℚ) / 2 + r.rayDirection.X * t
            Y := player.Y + (player.Height : ℚ) / 2 + r.rayDirection.Y * t } bounds) := by
  unfold RayGun.CheckRayCollision
  cases hA : r.Active with
  | false => simp
  | true => simp [RayGun.sampleLoop_eq]

/-- C6, evaluation at the failing input: the gun is active, the end point of
the stored ray (`t = 1.0`, the point (100, 0)) lies inside the target, the
sampled counter values are ten and none of them is 1, and `CheckRayCollision`
returns false. -/
theorem rayGun_misses_ray_end :
    rayGunAimedRight.IsActive = true ∧
      CheckCollisionPointRec
        { X := playerAtOrigin.X + (playerAtOrigin.Width : ℚ) / 2 +
            rayGunAimedRight.rayDirection.X * 1
          Y := playerAtOrigin.Y + (playerAtOrigin.Height : ℚ) / 2 +
            rayGunAimedRight.rayDirection.Y * 1 } targetAtRayEnd = true ∧
      raySampleTs.length = 10 ∧ (1 : ℚ) ∉ raySampleTs ∧
      rayGunAimedRight.CheckRayCollision playerAtOrigin targetAtRayEnd = false := by
  refine ⟨rfl, by decide!, rfl, by decide!, ?_⟩
  rw [RayGun.CheckRayCollision_eq]
  decide!

/-! ## Combat resolver: when damage is applied -/

theorem Game.weaponDamage_hit (g : Game) (player : Player) (w : Weapon) (enemy : Enemy)
    (hw : w.Reachable) (hhit : w.hitTest player enemy.GetBounds = true)
    (hcd : enemy.DamageCooldown ≤ 0) :
    (g.weaponDamage player w enemy).2 =
        { enemy.TakeDamage w.damageAmount with DamageCooldown := w.cooldownInterval } ∧
      (g.weaponDamage player w enemy).1.particles.length = g.particles.length + 1 := by
  cases w with
  | rayGun raygun =>
    obtain ⟨calls, hcalls, rfl⟩ := hw
    have hinv := RayGun.inv_run calls NewRayGun RayGun.inv_new hcalls
    simp only [Weapon.hitTest] at hhit
    have hA : (NewRayGun.run calls).Active = true := by
      by_contra hA
      have hA' : (NewRayGun.run calls).Active = false := by simpa using hA
      rw [RayGun.inactive_no_hit _ _ _ hA'] at hhit
      exact Bool.false_ne_true hhit
    have hO : (NewRayGun.run calls).IsOverheated = false := by
      cases hO : (NewRayGun.run calls).IsOverheated with
      | false => rfl
      | true => exact absurd hA (by simp [(hinv.2.2.2.2.1 hO).1])
    simp [Game.weaponDamage, hA, hO, hhit, hcd, Weapon.damageAmount, Weapon.cooldownInterval]
  | sword sword =>
    simp only [Weapon.hitTest] at hhit
    simp [Game.weaponDamage, hhit, hcd, Weapon.damageAmount, Weapon.cooldownInterval]
  | pistol pistol =>
    simp only [Weapon.hitTest] at hhit
    simp [Game.weaponDamage, hhit, hcd, Weapon.damageAmount, Weapon.cooldownInterval]

theorem Game.damageApplied_iff (g : Game) (player : Player) (w : Weapon) (enemy : Enemy)
    (hw : w.Reachable) :
    g.DamageApplied player w enemy ↔
      (w.hitTest player enemy.GetBounds = true ∧ enemy.DamageCooldown ≤ 0) := by
  constructor
  · intro happ
    by_contra hno
    exact happ (Game.weaponDamage_miss g player w enemy hno)
  · intro hyes heq
    have hlen := (Game.weaponDamage_hit g player w enemy hw hyes.1 hyes.2).2
    rw [heq] at hlen
    simp at hlen

/-- C7: in the weapon-damage block of the per-enemy step, with the ray gun in
a reachable state, damage is applied if and only if the current weapon's hit
test on the enemy's bounds is true and the enemy's `DamageCooldown` is at most
0.  When applied, the enemy is the result of `TakeDamage` with 1 (ray gun), 2
(sword), 2 (pistol) and its cooldown is 1/3, 3/10, 1/5; when not applied, game
and enemy, so health and cooldown, are unchanged. -/
theorem resolver_damage_iff (g : Game) (player : Player) (w : Weapon) (enemy : Enemy)
    (hw : w.Reachable) :
    (g.DamageApplied player w enemy ↔
        (w.hitTest player enemy.GetBounds = true ∧ enemy.DamageCooldown ≤ 0)) ∧
      (g.DamageApplied player w enemy →
        (g.weaponDamage player w enemy).2 =
          { enemy.TakeDamage w.damageAmount with DamageCooldown := w.cooldownInterval }) ∧
      (¬ g.DamageApplied player w enemy → g.weaponDamage player w enemy = (g, enemy)) ∧
      (∀ (raygun : RayGun) (sword : Sword) (pistol : Pistol),
        (Weapon.rayGun raygun).damageAmount = 1 ∧ (Weapon.rayGun raygun).cooldownInterval = 1 / 3 ∧
        (Weapon.sword sword).damageAmount = 2 ∧ (Weapon.sword sword).cooldownInterval = 3 / 10 ∧
        (Weapon.pistol pistol).damageAmount = 2 ∧
        (Weapon.pistol pistol).cooldownInterval = 2 / 10) := by
  have hiff := Game.damageApplied_iff g player w enemy hw
  refine ⟨hiff, ?_, ?_, ?_⟩
  · intro happ
    have h := hiff.1 happ
    exact (Game.weaponDamage_hit g player w enemy hw h.1 h.2).1
  · intro hno
    exact Game.weaponDamage_miss g player w enemy (fun h => hno (hiff.2 h))
  · intro raygun sword pistol
    refine ⟨rfl, rfl, rfl, rfl, rfl, ?_⟩
    norm_num [Weapon.cooldownInterval]

/-- Witness of C7: the fresh enemy stands on the player's centre, the ray gun
was just activated. -/
theorem resolver_damage_iff_witness :
    (Weapon.rayGun rayGunJustActivated).Reachable ∧
      (Game.DamageApplied ⟨[], 0, 0⟩ playerAtOrigin (Weapon.rayGun rayGunJustActivated)
          (NewEnemy (-8) (-16)) ↔
        ((Weapon.rayGun rayGunJustActivated).hitTest playerAtOrigin
            (NewEnemy (-8) (-16)).GetBounds = true ∧
          (NewEnemy (-8) (-16)).DamageCooldown ≤ 0)) :=
  ⟨⟨[RayGunCall.OnActivate playerAtOrigin], by simp [RayGunCall.timeOk], rfl⟩,
    (resolver_damage_iff ⟨[], 0, 0⟩ playerAtOrigin (Weapon.rayGun rayGunJustActivated)
      (NewEnemy (-8) (-16))
      ⟨[RayGunCall.OnActivate playerAtOrigin], by simp [RayGunCall.timeOk], rfl⟩).1⟩

/-! ## The cooldown clock of a target -/

theorem Enemy.Update_DamageCooldown (e : Enemy) (Sqrt : ℚ → ℚ) (frameTime : ℚ) (player : Player) :
    (e.Update Sqrt frameTime player).DamageCooldown =
      if e.DamageCooldown > 0 then e.DamageCooldown - frameTime else e.DamageCooldown := by
  unfold Enemy.Update Enemy.fadeText Enemy.move Enemy.normalize Enemy.turn Enemy.aim
    Enemy.coolDown
  simp only []
  split_ifs <;> rfl

/-- C9 as stated fails: with 0.01 s of cooldown left and a frame of 1/60 s the
enemy's and the dummy's cooldown become -1/150, which is negative and is not
`max 0 (old - dt)`. -/
theorem cooldown_goes_negative :
    (({ NewEnemy 0 0 with DamageCooldown := 1 / 100 } : Enemy).Update (fun _ => 0) (1 / 60)
        playerAtOrigin).DamageCooldown = -1 / 150 ∧
      (({ NewDummy 0 0 with DamageCooldown := 1 / 100 } : Dummy).Update (1 / 60)).DamageCooldown
        = -1 / 150 ∧
      (-1 / 150 : ℚ) < 0 ∧ (-1 / 150 : ℚ) ≠ max 0 (1 / 100 - 1 / 60) := by
  refine ⟨?_, ?_, by norm_num, by norm_num⟩
  · rw [Enemy.Update_DamageCooldown]; norm_num [NewEnemy]
  · norm_num [Dummy.Update, NewDummy]

/-- C9 amended: for enemy and dummy and every `dt ≥ 0` the decrement subtracts
`dt` only while the cooldown is positive and has no floor at 0: the new value
is `old - dt` when `old > 0` and `old` otherwise.  It is not negative when
`dt ≤ old`, and never below `-dt` when `old ≥ 0`. -/
theorem cooldown_decrement (e : Enemy) (d : Dummy) (Sqrt : ℚ → ℚ) (dt : ℚ) (player : Player)
    (hdt : 0 ≤ dt) :
    ((e.Update Sqrt dt player).DamageCooldown =
        if e.DamageCooldown > 0 then e.DamageCooldown - dt else e.DamageCooldown) ∧
      ((d.Update dt).DamageCooldown =
        if d.DamageCooldown > 0 then d.DamageCooldown - dt else d.DamageCooldown) ∧
      (dt ≤ e.DamageCooldown → 0 ≤ (e.Update Sqrt dt player).DamageCooldown) ∧
      (dt ≤ d.DamageCooldown → 0 ≤ (d.Update dt).DamageCooldown) ∧
      (0 ≤ e.DamageCooldown → -dt ≤ (e.Update Sqrt dt player).DamageCooldown) ∧
      (0 ≤ d.DamageCooldown → -dt ≤ (d.Update dt).DamageCooldown) := by
  have hd : (d.Update dt).DamageCooldown =
      if d.DamageCooldown > 0 then d.DamageCooldown - dt else d.DamageCooldown := by
    unfold Dummy.Update
    split_ifs <;> rfl
  rw [Enemy.Update_DamageCooldown, hd]
  refine ⟨rfl, rfl, ?_, ?_, ?_, ?_⟩ <;> intro h <;> split_ifs <;> linarith

/-- Witness of C9 amended: 0.3 s of cooldown and a frame of 1/60 s. -/
theorem cooldown_decrement_witness :
    (0 : ℚ) ≤ 1 / 60 ∧
      (({ NewEnemy 0 0 with DamageCooldown := 3 / 10 } : Enemy).Update (fun _ => 0) (1 / 60)
        playerAtOrigin).DamageCooldown =
        if ({ NewEnemy 0 0 with DamageCooldown := 3 / 10 } : Enemy).DamageCooldown > 0 then
          ({ NewEnemy 0 0 with DamageCooldown := 3 / 10 } : Enemy).DamageCooldown - 1 / 60
        else ({ NewEnemy 0 0 with DamageCooldown := 3 / 10 } : Enemy).DamageCooldown :=
  ⟨by norm_num,
    (cooldown_decrement { NewEnemy 0 0 with DamageCooldown := 3 / 10 } (NewDummy 0 0)
      (fun _ => 0) (1 / 60) playerAtOrigin (by norm_num)).1⟩

/-! ## Damage-cooldown gating over consecutive frames -/

theorem Game.beforeWeaponDamage_enemy (g : Game) (Sqrt : ℚ → ℚ) (frameTime : ℚ)
    (player : Player) (enemy : Enemy) :
    (g.beforeWeaponDamage Sqrt frameTime player enemy).2.2 = enemy.Update Sqrt frameTime player := by
  unfold Game.beforeWeaponDamage
  simp only []
  split_ifs <;> rfl

theorem Enemy.TakeDamage_CurrentHealth (e : Enemy) (damage : Int) :
    (e.TakeDamage damage).CurrentHealth = max 0 (e.CurrentHealth - damage) := by
  unfold Enemy.TakeDamage
  simp only []
  split_ifs with h
  · exact (max_eq_left (le_of_lt h)).symm
  · exact (max_eq_right (not_lt.1 h)).symm

/-! ## Scenario B: one slash against a stationary enemy -/

theorem Sword.OnActivate_idle (s : Sword) (player : Player) (h : s.IsSlashing = false) :
    (s.OnActivate player).IsSlashing = true ∧ (s.OnActivate player).SlashAnim.Frame = 0 ∧
      (s.OnActivate player).SlashAnim.FrameTime = 0 ∧
      (s.OnActivate player).DamageArea = s.DamageArea := by
  simp [Sword.OnActivate, h]

/-! ## Sword: activation, the six frames of a slash, hit test, damage area -/

/-- C11: `OnActivate` on an idle sword sets `IsSlashing` and `Active` and
resets `Frame` and `FrameTime` to 0, changing nothing else; on a sword that is
slashing, in whatever state, it returns the state unchanged, so a second
`OnActivate` right after the first changes nothing. -/
theorem sword_onActivate (s : Sword) (player : Player) :
    (s.IsSlashing = false →
        s.OnActivate player =
          { s with
            IsSlashing := true
            Active := true
            SlashAnim := { s.SlashAnim with Frame := 0, FrameTime := 0 } }) ∧
      (s.IsSlashing = true → s.OnActivate player = s) ∧
      (s.OnActivate player).OnActivate player = s.OnActivate player := by
  refine ⟨?_, ?_, ?_⟩
  · intro h; simp [Sword.OnActivate, h]
  · intro h; simp [Sword.OnActivate, h]
  · cases h : s.IsSlashing <;> simp [Sword.OnActivate, h]

/-- Witness of C11: the new sword, and a sword in the third frame of a slash
with 0.02 s on the frame timer. -/
theorem sword_onActivate_witness :
    NewSword.OnActivate playerAtOrigin = NewSword.slashingAt 0 ∧
      ({ NewSword.slashingAt 2 with
          SlashAnim := { (NewSword.slashingAt 2).SlashAnim with FrameTime := 1 / 50 } } :
        Sword).OnActivate playerAtOrigin =
        { NewSword.slashingAt 2 with
          SlashAnim := { (NewSword.slashingAt 2).SlashAnim with FrameTime := 1 / 50 } } :=
  ⟨(sword_onActivate NewSword playerAtOrigin).1 rfl, (sword_onActivate _ playerAtOrigin).2.1 rfl⟩

theorem Sword.slashingAt_Update (s : Sword) (player : Player) (frame : Int) :
    (s.slashingAt frame).Update (1 / 20) player =
      if frame + 1 ≥ 6 then
        { s with
          IsSlashing := false
          Active := false
          SlashAnim := { s.SlashAnim with Frame := 0, FrameTime := 0 } }
      else s.slashingAt (frame + 1) := by
  simp only [Sword.Update, Sword.slashingAt]
  norm_num

theorem Sword.UpdateN_slashing (s : Sword) (player : Player) (h : s.IsSlashing = false)
    (k : ℕ) (hk : k ≤ 5) :
    (s.OnActivate player).UpdateN (1 / 20) player k = s.slashingAt (k : Int) := by
  induction k with
  | zero => simp [Sword.UpdateN, Sword.OnActivate, Sword.slashingAt, h]
  | succ n ih =>
    have hn : ¬ ((n : Int) + 1 ≥ 6) := by omega
    rw [Sword.UpdateN, ih (by omega), Sword.slashingAt_Update, if_neg hn]
    push_cast
    rfl

/-- C12: after `OnActivate` on an idle sword, each of the first five calls
`Update(0.05)` advances `Frame` by one: after `k ≤ 5` calls the sword is
active and slashing with `Frame = k` and an empty frame timer; the sixth call
ends the slash: `IsActive()` and `IsSlashing` are false and `Frame` is 0. -/
theorem sword_six_frames (s : Sword) (player : Player) (h : s.IsSlashing = false) :
    (∀ k : ℕ, k ≤ 5 →
        ((s.OnActivate player).UpdateN (1 / 20) player k).IsActive = true ∧
          ((s.OnActivate player).UpdateN (1 / 20) player k).IsSlashing = true ∧
          ((s.OnActivate player).UpdateN (1 / 20) player k).SlashAnim.Frame = (k : Int) ∧
          ((s.OnActivate player).UpdateN (1 / 20) player k).SlashAnim.FrameTime = 0) ∧
      ((s.OnActivate player).UpdateN (1 / 20) player 6).IsActive = false ∧
      ((s.OnActivate player).UpdateN (1 / 20) player 6).IsSlashing = false ∧
      ((s.OnActivate player).UpdateN (1 / 20) player 6).SlashAnim.Frame = 0 := by
  constructor
  · intro k hk
    rw [Sword.UpdateN_slashing s player h k hk]
    exact ⟨rfl, rfl, rfl, rfl⟩
  · have h6 : (s.OnActivate player).UpdateN (1 / 20) player 6 =
        ((s.OnActivate player).UpdateN (1 / 20) player 5).Update (1 / 20) player := rfl
    rw [h6, Sword.UpdateN_slashing s player h 5 (le_refl 5), Sword.slashingAt_Update]
    norm_num [Sword.IsActive]

/-- Witness of C12: the new sword. -/
theorem sword_six_frames_witness :
    ((NewSword.OnActivate playerAtOrigin).UpdateN (1 / 20) playerAtOrigin 5).IsActive = true ∧
      ((NewSword.OnActivate playerAtOrigin).UpdateN (1 / 20) playerAtOrigin 5).SlashAnim.Frame
        = 5 ∧
      ((NewSword.OnActivate playerAtOrigin).UpdateN (1 / 20) playerAtOrigin 6).IsActive = false :=
  ⟨((sword_six_frames NewSword playerAtOrigin rfl).1 5 (le_refl 5)).1,
    ((sword_six_frames NewSword playerAtOrigin rfl).1 5 (le_refl 5)).2.2.1,
    (sword_six_frames NewSword playerAtOrigin rfl).2.1⟩

/-- C13: `CheckSlashCollision` is false for every rectangle when the sword is
not slashing, whatever the stored damage area; when it is slashing the result
is raylib's overlap test of the damage area and the bounds, true exactly when
the two axis-aligned rectangles overlap on both axes. -/
theorem sword_checkSlashCollision (s : Sword) (bounds : Rectangle) :
    (s.IsSlashing = false → s.CheckSlashCollision bounds = false) ∧
      (s.IsSlashing = true →
        s.CheckSlashCollision bounds = CheckCollisionRecs s.DamageArea bounds ∧
          (s.CheckSlashCollision bounds = true ↔
            (s.DamageArea.X < bounds.X + bounds.Width ∧
              bounds.X < s.DamageArea.X + s.DamageArea.Width) ∧
            (s.DamageArea.Y < bounds.Y + bounds.Height ∧
              bounds.Y < s.DamageArea.Y + s.DamageArea.Height))) := by
  constructor
  · intro h; simp [Sword.CheckSlashCollision, h]
  · intro h
    simp [Sword.CheckSlashCollision, h, CheckCollisionRecs]

/-- Witness of C13: an idle sword whose stored area covers the target, and the
same sword slashing. -/
theorem sword_checkSlashCollision_witness :
    swordAtRest.CheckSlashCollision enemyInReach.GetBounds = false ∧
      ({ swordAtRest with IsSlashing := true } : Sword).CheckSlashCollision
        enemyInReach.GetBounds =
        CheckCollisionRecs ({ swordAtRest with IsSlashing := true } : Sword).DamageArea
          enemyInReach.GetBounds :=
  ⟨(sword_checkSlashCollision swordAtRest enemyInReach.GetBounds).1 rfl,
    ((sword_checkSlashCollision { swordAtRest with IsSlashing := true }
      enemyInReach.GetBounds).2 rfl).1⟩

/-- C14 as stated fails: for the 65x27 frame of `NewSword` the damage area
`Draw` stores while slashing is 32.5 wide and 27 high, the full frame height
and not 13.5. -/
theorem sword_damage_area_full_height :
    ((NewSword.OnActivate playerAtOrigin).Draw playerAtOrigin).DamageArea.Width = 65 / 2 ∧
      ((NewSword.OnActivate playerAtOrigin).Draw playerAtOrigin).DamageArea.Height = 27 ∧
      ((NewSword.OnActivate playerAtOrigin).Draw playerAtOrigin).DamageArea.Height ≠
        (((NewSword.OnActivate playerAtOrigin).SlashAnim.FrameHeight : Int) : ℚ) / 2 := by
  refine ⟨by decide!, by decide!, by decide!⟩

/-- C14 amended: while slashing, the damage area `Draw` stores is half the
frame width wide and the full frame height high (32.5 by 27 for the 65x27
frame); facing left it lies to the left of the player with its right edge on
the player's left edge, otherwise to the right with its left edge on the
player's right edge, the mirror image about the player's vertical centre line;
its top is half the player's height above the player's top in both cases.
When the sword is not slashing `Draw` leaves the stored area alone. -/
theorem sword_damage_area (s : Sword) (player : Player) :
    (s.IsSlashing = true →
        (s.Draw player).DamageArea.Width = (s.SlashAnim.FrameWidth : ℚ) / 2 ∧
          (s.Draw player).DamageArea.Height = (s.SlashAnim.FrameHeight : ℚ) ∧
          (s.Draw player).DamageArea.Y = player.Y - (player.Height : ℚ) / 2 ∧
          (player.FacingLeft = true →
            (s.Draw player).DamageArea.X + (s.Draw player).DamageArea.Width = player.X) ∧
          (player.FacingLeft = false →
            (s.Draw player).DamageArea.X = player.X + (player.Width : ℚ)) ∧
          ((s.Draw { player with FacingLeft := true }).DamageArea.X +
              (s.Draw { player with FacingLeft := true }).DamageArea.Width / 2) +
            ((s.Draw { player with FacingLeft := false }).DamageArea.X +
              (s.Draw { player with FacingLeft := false }).DamageArea.Width / 2) =
            2 * (player.X + (player.Width : ℚ) / 2)) ∧
      (s.IsSlashing = false → s.Draw player = s) ∧
      ((NewSword.SlashAnim.FrameWidth : ℚ) / 2 = 65 / 2 ∧
        (NewSword.SlashAnim.FrameHeight : ℚ) = 27) := by
  refine ⟨?_, ?_, ?_⟩
  · intro h
    cases hF : player.FacingLeft <;> simp [Sword.Draw, h, hF] <;> constructor <;> ring
  · intro h; simp [Sword.Draw, h]
  · norm_num [NewSword]

/-- Witness of C14 amended: the new sword, activated, drawn for a player at the
origin facing right. -/
theorem sword_damage_area_witness :
    ((NewSword.OnActivate playerAtOrigin).Draw playerAtOrigin).DamageArea.Width =
        ((NewSword.OnActivate playerAtOrigin).SlashAnim.FrameWidth : ℚ) / 2 ∧
      ((NewSword.OnActivate playerAtOrigin).Draw playerAtOrigin).DamageArea.Height =
        ((NewSword.OnActivate playerAtOrigin).SlashAnim.FrameHeight : ℚ) :=
  ⟨((sword_damage_area (NewSword.OnActivate playerAtOrigin) playerAtOrigin).1 rfl).1,
    ((sword_damage_area (NewSword.OnActivate playerAtOrigin) playerAtOrigin).1 rfl).2.1⟩

/-! ## Pistol: one update of the pool -/

theorem List.foldl_keep_eq_filterMap {α β : Type} (f : α → β) (keep : β → Prop)
    [DecidablePred keep] (l : List α) (init : List β) :
    l.foldl (fun acc a => if keep (f a) then acc ++ [f a] else acc) init =
      init ++ l.filterMap (fun a => if keep (f a) then some (f a) else none) := by
  induction l generalizing init with
  | nil => simp
  | cons a l ih =>
    rw [List.foldl_cons, ih]
    by_cases h : keep (f a) <;> simp [List.filterMap_cons, h]

theorem Pistol.Update_Active (p : Pistol) (dt : ℚ) (player : Player) :
    (p.Update dt player).Active = p.Active := by
  unfold Pistol.Update
  simp only []
  split_ifs <;> rfl

/-! ## Pistol: firing -/

theorem Pistol.OnActivate_fire (p : Pistol) (Sqrt : ℚ → ℚ) (player : Player)
    (mouseWorld : Vector2) (h : p.CooldownTimer ≤ 0) :
    p.OnActivate Sqrt player mouseWorld =
      { p with
        Bullets := p.Bullets ++
          [{ Position := player.center
             Direction := Pistol.aimDirection Sqrt player mouseWorld
             Speed := 240
             LifeTimer := 1 / 2 }]
        CooldownTimer := p.ShootCooldown } := by
  unfold Pistol.OnActivate Pistol.aimDirection Player.center
  simp only [h, if_true]

theorem Pistol.OnActivate_wait (p : Pistol) (Sqrt : ℚ → ℚ) (player : Player)
    (mouseWorld : Vector2) (h : 0 < p.CooldownTimer) :
    p.OnActivate Sqrt player mouseWorld = p := by
  unfold Pistol.OnActivate
  simp only [not_le.2 h, if_false]

/-- C15: with `CooldownTimer ≤ 0`, `OnActivate` appends exactly one bullet to
the pool, at the player's centre with speed 240 and lifetime 0.5, keeps the
bullets that were there, in order, sets `CooldownTimer` to `ShootCooldown` and
changes no other field; with `CooldownTimer > 0` it returns the pistol
unchanged. -/
theorem pistol_onActivate (p : Pistol) (Sqrt : ℚ → ℚ) (player : Player)
    (mouseWorld : Vector2) :
    (p.CooldownTimer ≤ 0 →
        p.OnActivate Sqrt player mouseWorld =
          { p with
            Bullets := p.Bullets ++
              [{ Position :=
                   { X := player.X + (player.Width : ℚ) / 2
                     Y := player.Y + (player.Height : ℚ) / 2 }
                 Direction := Pistol.aimDirection Sqrt player mouseWorld
                 Speed := 240
                 LifeTimer := 1 / 2 }]
            CooldownTimer := p.ShootCooldown }) ∧
      (0 < p.CooldownTimer → p.OnActivate Sqrt player mouseWorld = p) :=
  ⟨fun h => Pistol.OnActivate_fire p Sqrt player mouseWorld h,
    fun h => Pistol.OnActivate_wait p Sqrt player mouseWorld h⟩

/-- Witness of C15: the new pistol fires, and the pistol it leaves does not. -/
theorem pistol_onActivate_witness :
    (NewPistol.OnActivate (fun _ => 5) playerAtOrigin ⟨3, 4⟩).Bullets.length = 1 ∧
      (NewPistol.OnActivate (fun _ => 5) playerAtOrigin ⟨3, 4⟩).OnActivate (fun _ => 5)
        playerAtOrigin ⟨3, 4⟩ = NewPistol.OnActivate (fun _ => 5) playerAtOrigin ⟨3, 4⟩ :=
  ⟨by rw [(pistol_onActivate NewPistol (fun _ => 5) playerAtOrigin ⟨3, 4⟩).1 (by decide!)]; rfl,
    (pistol_onActivate _ (fun _ => 5) playerAtOrigin ⟨3, 4⟩).2 (by decide!)⟩

/-! ## Pistol: hit test and the pool it leaves -/

theorem Pistol.CheckBulletCollision_iff (p : Pistol) (bounds : Rectangle) :
    p.CheckBulletCollision bounds = true ↔
      ∃ b ∈ p.Bullets, CheckCollisionRecs b.box bounds = true := by
  simp [Pistol.CheckBulletCollision, Bullet.box, List.any_eq_true]

theorem Enemy.TakeDamage_GetBounds (e : Enemy) (damage : Int) :
    (e.TakeDamage damage).GetBounds = e.GetBounds := by
  unfold Enemy.TakeDamage Enemy.GetBounds
  simp only []
  split_ifs <;> rfl

/-- C18: `CheckBulletCollision` is true exactly when some bullet of the pool
has its 4x4 box `(x-2, y-2, 4, 4)` overlapping the bounds.  The call leaves
the pistol as it was, and so does the pistol branch of the resolver, which is
the weapon-damage block for a pistol; the enemy's bounds are not changed by
the damage, so the same pool gives the same hit test on the damaged enemy. -/
theorem pistol_hit_keeps_pool (p : Pistol) (bounds : Rectangle) (g : Game) (player : Player)
    (enemy : Enemy) :
    (p.CheckBulletCollision bounds = true ↔
        ∃ b ∈ p.Bullets,
          CheckCollisionRecs
            { X := b.Position.X - 2, Y := b.Position.Y - 2, Width := 4, Height := 4 }
            bounds = true) ∧
      (p.CheckBulletCollisionCall bounds).1 = p ∧
      (p.CheckBulletCollisionCall bounds).1.Bullets = p.Bullets ∧
      (g.pistolDamage p enemy).2.1 = p ∧
      (g.pistolDamage p enemy).2.1.Bullets = p.Bullets ∧
      ((g.pistolDamage p enemy).1, (g.pistolDamage p enemy).2.2) =
        g.weaponDamage player (Weapon.pistol p) enemy ∧
      p.CheckBulletCollision (g.weaponDamage player (Weapon.pistol p) enemy).2.GetBounds =
        p.CheckBulletCollision enemy.GetBounds := by
  have hpd : (g.pistolDamage p enemy).2.1 = p := by
    unfold Game.pistolDamage Pistol.CheckBulletCollisionCall
    simp only []
    split_ifs <;> rfl
  have hsame : ((g.pistolDamage p enemy).1, (g.pistolDamage p enemy).2.2) =
      g.weaponDamage player (Weapon.pistol p) enemy := by
    unfold Game.pistolDamage Game.weaponDamage Pistol.CheckBulletCollisionCall
    simp only []
    split_ifs <;> rfl
  have hbounds : (g.weaponDamage player (Weapon.pistol p) enemy).2.GetBounds =
      enemy.GetBounds := by
    unfold Game.weaponDamage
    simp only []
    split_ifs
    · exact Enemy.TakeDamage_GetBounds enemy 2
    · rfl
    · rfl
  refine ⟨Pistol.CheckBulletCollision_iff p bounds, rfl, rfl, hpd, by rw [hpd], hsame, ?_⟩
  rw [hbounds]

/-! ## Health of an enemy, of the boss, of the player -/

/-- C24: for `CurrentHealth ≥ 0` and `d ≥ 0` (where the `int32` subtraction
cannot wrap) `Enemy.TakeDamage(d)` sets `CurrentHealth` to
`max(0, CurrentHealth − d)`, and the health afterwards is not negative. -/
theorem enemy_takeDamage_clamped (e : Enemy) (d : Int) (hh : 0 ≤ e.CurrentHealth)
    (hd : 0 ≤ d) :
    (e.TakeDamage d).CurrentHealth = max 0 (e.CurrentHealth - d) ∧
      0 ≤ (e.TakeDamage d).CurrentHealth ∧
      (e.TakeDamage d).CurrentHealth ≤ e.CurrentHealth := by
  rw [Enemy.TakeDamage_CurrentHealth]
  refine ⟨rfl, le_max_left _ _, ?_⟩
  exact max_le hh (by omega)

/-- Witness of C24: a new enemy (health 3) takes 2 and then 2 again: the health
is 1, then 0. -/
theorem enemy_takeDamage_clamped_witness :
    ((NewEnemy 0 0).TakeDamage 2).CurrentHealth = max 0 (3 - 2) ∧
      (((NewEnemy 0 0).TakeDamage 2).TakeDamage 2).CurrentHealth = 0 :=
  ⟨(enemy_takeDamage_clamped (NewEnemy 0 0) 2 (by decide) (by decide)).1, by decide⟩

/-- C25 fails on the code: `Boss.TakeDamage` subtracts the damage and has no
clamp, so the health after a hit is `Health − amount` whatever its sign; a new
boss (health 100) hit for 150 has health −50.  `Enemy.TakeDamage` on the same
numbers stops at 0. -/
theorem boss_takeDamage_unclamped :
    (∀ (b : Boss) (amount : Int), (b.TakeDamage amount).Health = b.Health - amount) ∧
      0 ≤ (NewBoss 0 0).Health ∧
      ((NewBoss 0 0).TakeDamage 150).Health = -50 ∧
      ¬ 0 ≤ ((NewBoss 0 0).TakeDamage 150).Health ∧
      ((NewBoss 0 0).TakeDamage 150).IsDead = true ∧
      (({ NewEnemy 0 0 with CurrentHealth := 100 } : Enemy).TakeDamage 150).CurrentHealth = 0 :=
  ⟨fun _ _ => rfl, by decide, by decide, by decide, by decide, by decide⟩

theorem wrapInt32_of_range {x : Int} (h0 : -2 ^ 31 ≤ x) (h1 : x < 2 ^ 31) : wrapInt32 x = x := by
  unfold wrapInt32
  omega

/-- C30 as stated fails at a damage whose subtraction leaves the `int32` range:
with health 100, no invincibility and `d = −2^31` the difference
`100 + 2^31` wraps to a negative number and the health becomes 0, where
`max(0, CurrentHealth − d)` is 2147483748. -/
theorem player_takeDamage_wraps :
    (NewPlayer 0 0 800 600).CurrentHealth = 100 ∧
      (NewPlayer 0 0 800 600).InvincibleTimer ≤ 0 ∧
      ((NewPlayer 0 0 800 600).toPlayer.TakeDamage (-2 ^ 31)).CurrentHealth = 0 ∧
      max 0 ((NewPlayer 0 0 800 600).CurrentHealth - (-2 ^ 31)) = 2147483748 ∧
      ((NewPlayer 0 0 800 600).toPlayer.TakeDamage (-2 ^ 31)).CurrentHealth ≠
        max 0 ((NewPlayer 0 0 800 600).CurrentHealth - (-2 ^ 31)) := by
  refine ⟨by decide!, by decide!, by decide!, by decide!, by decide!⟩

/-- C30 amended: `Player.TakeDamage(d)` leaves the player as it is while
`InvincibleTimer > 0`; with `InvincibleTimer ≤ 0`, and `CurrentHealth − d` in
the `int32` range (as it is for `CurrentHealth ≥ 0` and `d ≥ 0`), it sets
`CurrentHealth` to `max(0, CurrentHealth − d)` and `InvincibleTimer` to
`InvincibleTime`.  With the invincibility time of `NewPlayer` (1 s, any
positive time) a second hit with no time elapsed after the first changes
nothing: the health is reduced once. -/
theorem player_takeDamage_window (p : Player) (d : Int)
    (hlo : -2 ^ 31 ≤ p.CurrentHealth - d) (hhi : p.CurrentHealth - d < 2 ^ 31) :
    (0 < p.InvincibleTimer → p.TakeDamage d = p) ∧
      (p.InvincibleTimer ≤ 0 →
        p.TakeDamage d =
          { p with
            CurrentHealth := max 0 (p.CurrentHealth - d)
            InvincibleTimer := p.InvincibleTime }) ∧
      (p.InvincibleTimer ≤ 0 → 0 < p.InvincibleTime →
        ∀ d2 : Int, (p.TakeDamage d).TakeDamage d2 = p.TakeDamage d) ∧
      (NewPlayer 0 0 800 600).InvincibleTime = 1 ∧
      (NewPlayer 0 0 800 600).InvincibleTimer = 0 ∧
      (((NewPlayer 0 0 800 600).toPlayer.TakeDamage 10).TakeDamage 10).CurrentHealth = 90 := by
  have h2 : p.InvincibleTimer ≤ 0 →
      p.TakeDamage d =
        { p with
          CurrentHealth := max 0 (p.CurrentHealth - d)
          InvincibleTimer := p.InvincibleTime } := by
    intro h
    unfold Player.TakeDamage
    rw [if_pos h, wrapInt32_of_range hlo hhi]
    by_cases hc : p.CurrentHealth - d ≤ 0
    · simp [hc]
    · have hc2 : 0 ≤ p.CurrentHealth - d := by omega
      simp [hc, hc2]
  refine ⟨?_, h2, ?_, by decide!, by decide!, by decide!⟩
  · intro h
    unfold Player.TakeDamage
    rw [if_neg (not_le.2 h)]
  · intro h hpos d2
    rw [h2 h]
    unfold Player.TakeDamage
    rw [if_neg]
    exact not_le.2 hpos

/-- Witness of C30 amended: a new player hit for 10 and, at once, for 10 again:
the health is 90 after the first hit and after the second. -/
theorem player_takeDamage_window_witness :
    ((NewPlayer 0 0 800 600).toPlayer.TakeDamage 10).CurrentHealth = 90 ∧
      (((NewPlayer 0 0 800 600).toPlayer.TakeDamage 10).TakeDamage 10) =
        (NewPlayer 0 0 800 600).toPlayer.TakeDamage 10 := by
  have h := player_takeDamage_window (NewPlayer 0 0 800 600).toPlayer 10 (by decide!) (by decide!)
  refine ⟨?_, h.2.2.1 (by decide!) (by decide!) 10⟩
  rw [h.2.1 (by decide!)]
  decide!

/-! ## Pistol: never active -/

theorem Pistol.call_Active (p : Pistol) (c : PistolCall) : (p.call c).Active = p.Active := by
  cases c with
  | OnActivate Sqrt player mouseWorld =>
    show (p.OnActivate Sqrt player mouseWorld).Active = p.Active
    unfold Pistol.OnActivate
    simp only []
    split_ifs <;> rfl
  | OnDeactivate player => rfl
  | Update dt player => exact Pistol.Update_Active p dt player

theorem Pistol.run_Active (calls : List PistolCall) (p : Pistol) :
    (p.run calls).Active = p.Active := by
  induction calls generalizing p with
  | nil => rfl
  | cons c cs ih =>
    show ((p.call c).run cs).Active = p.Active
    rw [ih, Pistol.call_Active]

/-- C29: in every state reached from `NewPistol` by calls of `OnActivate`,
`OnDeactivate` and `Update`, `Pistol.IsActive()` is false: no method of the
pistol writes `Active`.  So it is after a shot, with the bullet in flight. -/
theorem pistol_never_active (calls : List PistolCall) :
    (NewPistol.run calls).IsActive = false ∧
      (NewPistol.run [PistolCall.OnActivate (fun _ => 5) playerAtOrigin ⟨3, 4⟩,
        PistolCall.Update (1 / 60) playerAtOrigin]).Bullets.length = 1 ∧
      (NewPistol.run [PistolCall.OnActivate (fun _ => 5) playerAtOrigin ⟨3, 4⟩,
        PistolCall.Update (1 / 60) playerAtOrigin]).IsActive = false := by
  refine ⟨?_, by decide!, by decide!⟩
  show (NewPistol.run calls).Active = false
  rw [Pistol.run_Active]
  rfl

/-! ## Ray gun: the stored ray -/

theorem Min_eq_min (a b : ℚ) : Min a b = min a b := by
  unfold Min
  split_ifs with h
  · exact (min_eq_left (le_of_lt h)).symm
  · exact (min_eq_right (not_lt.1 h)).symm

/-! ## Sword: the state invariant -/

theorem Sword.invariant_new : NewSword.Inv := by
  unfold Sword.Inv NewSword
  simp

theorem Sword.invariant_OnActivate (s : Sword) (player : Player) (h : s.Inv) :
    (s.OnActivate player).Inv := by
  unfold Sword.OnActivate
  cases hS : s.IsSlashing
  · simp [Sword.Inv]
  · simpa using h

theorem Sword.invariant_Update (s : Sword) (dt : ℚ) (player : Player) (h : s.Inv) :
    (s.Update dt player).Inv := by
  obtain ⟨h0, h6, hA, hF⟩ := h
  unfold Sword.Update
  simp only []
  split_ifs with hS ht hf
  · simp [Sword.Inv]
  · refine ⟨?_, ?_, hA, ?_⟩
    · show 0 ≤ s.SlashAnim.Frame + 1
      omega
    · show s.SlashAnim.Frame + 1 < 6
      have : ¬ (s.SlashAnim.Frame + 1 ≥ 6) := hf
      omega
    · intro h
      rw [hS] at h
      cases h
  · exact ⟨h0, h6, hA, fun h => by rw [hS] at h; cases h⟩
  · exact ⟨h0, h6, hA, hF⟩

theorem Sword.invariant_Draw (s : Sword) (player : Player) (h : s.Inv) : (s.Draw player).Inv := by
  unfold Sword.Draw
  split_ifs <;> exact h

theorem Sword.invariant_call (s : Sword) (c : SwordCall) (h : s.Inv) : (s.call c).Inv := by
  cases c with
  | OnActivate player => exact Sword.invariant_OnActivate s player h
  | OnDeactivate player => exact h
  | Update dt player => exact Sword.invariant_Update s dt player h
  | Draw player => exact Sword.invariant_Draw s player h

theorem Sword.invariant_run (calls : List SwordCall) (s : Sword) (h : s.Inv) : (s.run calls).Inv := by
  induction calls generalizing s with
  | nil => exact h
  | cons c cs ih => exact ih (s.call c) (Sword.invariant_call s c h)

/-- C27: in every state reached from `NewSword` by calls of `OnActivate`,
`OnDeactivate`, `Update` (with any frame time) and `Draw`: `0 ≤ Frame < 6`,
`Active` equals `IsSlashing`, and `Frame` is 0 when the sword is not
slashing. -/
theorem sword_state_invariant (calls : List SwordCall) :
    0 ≤ (NewSword.run calls).SlashAnim.Frame ∧
      (NewSword.run calls).SlashAnim.Frame < 6 ∧
      (NewSword.run calls).Active = (NewSword.run calls).IsSlashing ∧
      ((NewSword.run calls).IsSlashing = false → (NewSword.run calls).SlashAnim.Frame = 0) :=
  Sword.invariant_run calls NewSword Sword.invariant_new

/-! ## Sword: one frame per update -/

theorem Sword.Update_not_slashing (s : Sword) (dt : ℚ) (player : Player)
    (h : s.IsSlashing = false) : s.Update dt player = s := by
  unfold Sword.Update
  simp [h]

theorem Sword.updates_not_slashing (dts : List ℚ) (s : Sword) (player : Player)
    (h : s.IsSlashing = false) : s.updates player dts = s := by
  induction dts with
  | nil => rfl
  | cons dt dts ih =>
    show (s.Update dt player).updates player dts = s
    rw [Sword.Update_not_slashing s dt player h]
    exact ih

theorem Sword.timerReachedCount_not_slashing (dts : List ℚ) (s : Sword) (player : Player)
    (h : s.IsSlashing = false) : s.timerReachedCount player dts = 0 := by
  induction dts with
  | nil => rfl
  | cons dt dts ih =>
    rw [Sword.timerReachedCount, Sword.Update_not_slashing s dt player h, ih]
    simp [Sword.timerReaches, h]

/-- One `Update` of a slashing sword, by whether the frame timer reaches 0.05
at this call. -/
theorem Sword.Update_cases (s : Sword) (dt : ℚ) (player : Player) (hS : s.IsSlashing = true) :
    (s.timerReaches dt = false →
        (s.Update dt player).IsSlashing = true ∧ (s.Update dt player).Active = s.Active ∧
          (s.Update dt player).SlashAnim.Frame = s.SlashAnim.Frame ∧
          (s.Update dt player).SlashAnim.FrameTime = s.SlashAnim.FrameTime + dt) ∧
      (s.timerReaches dt = true → s.SlashAnim.Frame + 1 < 6 →
        (s.Update dt player).IsSlashing = true ∧ (s.Update dt player).Active = s.Active ∧
          (s.Update dt player).SlashAnim.Frame = s.SlashAnim.Frame + 1 ∧
          (s.Update dt player).SlashAnim.FrameTime = 0) ∧
      (s.timerReaches dt = true → 6 ≤ s.SlashAnim.Frame + 1 →
        (s.Update dt player).IsSlashing = false ∧ (s.Update dt player).Active = false ∧
          (s.Update dt player).SlashAnim.Frame = 0 ∧
          (s.Update dt player).SlashAnim.FrameTime = 0) := by
  unfold Sword.timerReaches Sword.Update
  simp only [hS, Bool.true_and, decide_eq_false_iff_not, decide_eq_true_eq, if_true]
  refine ⟨?_, ?_, ?_⟩
  · intro h
    rw [if_neg h]
    exact ⟨rfl, rfl, rfl, rfl⟩
  · intro h hf
    have hf2 : ¬ (s.SlashAnim.Frame + 1 ≥ 6) := by omega
    rw [if_pos h, if_neg hf2]
    exact ⟨rfl, rfl, rfl, rfl⟩
  · intro h hf
    have hf2 : s.SlashAnim.Frame + 1 ≥ 6 := hf
    rw [if_pos h, if_pos hf2]
    exact ⟨rfl, rfl, rfl, rfl⟩

/-- A slash in frame `k` after consecutive `Update` calls: it is in frame
`k + c` while `k + c < 6`, where `c` counts the calls at which the frame timer
reached 0.05, and it has ended when `k + c = 6`; `k + c` never exceeds 6. -/
theorem Sword.updates_slashing (dts : List ℚ) (s : Sword) (player : Player) (k : ℕ)
    (hS : s.IsSlashing = true) (hA : s.Active = true) (hk : s.SlashAnim.Frame = (k : Int))
    (hk6 : k < 6) :
    k + s.timerReachedCount player dts ≤ 6 ∧
      (k + s.timerReachedCount player dts < 6 →
        (s.updates player dts).IsSlashing = true ∧ (s.updates player dts).Active = true ∧
          (s.updates player dts).SlashAnim.Frame = ((k + s.timerReachedCount player dts : ℕ) : Int)) ∧
      (k + s.timerReachedCount player dts = 6 →
        (s.updates player dts).IsSlashing = false ∧ (s.updates player dts).Active = false ∧
          (s.updates player dts).SlashAnim.Frame = 0) := by
  induction dts generalizing s k with
  | nil =>
    refine ⟨by simp [Sword.timerReachedCount]; omega, ?_, ?_⟩
    · intro _
      exact ⟨hS, hA, by simpa [Sword.timerReachedCount] using hk⟩
    · intro h
      simp [Sword.timerReachedCount] at h
      omega
  | cons dt dts ih =>
    have hc := Sword.Update_cases s dt player hS
    have hup : s.updates player (dt :: dts) = (s.Update dt player).updates player dts := rfl
    rw [hup, Sword.timerReachedCount]
    cases ht : s.timerReaches dt
    · obtain ⟨h1, h2, h3, _⟩ := hc.1 ht
      have := ih (s.Update dt player) k h1 (by rw [h2, hA]) (by rw [h3, hk]) hk6
      simpa using this
    · by_cases hf : k + 1 < 6
      · obtain ⟨h1, h2, h3, _⟩ := hc.2.1 ht (by rw [hk]; omega)
        have := ih (s.Update dt player) (k + 1) h1 (by rw [h2, hA])
          (by rw [h3, hk]; push_cast; rfl) hf
        have heq : k + (1 + (s.Update dt player).timerReachedCount player dts) =
            k + 1 + (s.Update dt player).timerReachedCount player dts := by omega
        simp only [if_true, heq]
        exact this
      · obtain ⟨h1, h2, h3, _⟩ := hc.2.2 ht (by rw [hk]; omega)
        rw [Sword.timerReachedCount_not_slashing dts _ player h1,
          Sword.updates_not_slashing dts _ player h1]
        have hk5 : k = 5 := by omega
        subst hk5
        simp [h1, h2, h3]

theorem Sword.timerReachedCount_le_length (dts : List ℚ) (s : Sword) (player : Player) :
    s.timerReachedCount player dts ≤ dts.length := by
  induction dts generalizing s with
  | nil => simp [Sword.timerReachedCount]
  | cons dt dts ih =>
    rw [Sword.timerReachedCount, List.length_cons]
    have := ih (s.Update dt player)
    split_ifs <;> omega

/-- C28: `Sword.Update` advances `Frame` by at most one per call whatever the
frame time, and sets `FrameTime` to 0 at each call at which the timer reaches
0.05.  For a slash started by `OnActivate` on an idle sword and every sequence
of frame times: the slash is still active after any 5 calls of `Update`; while
fewer than 6 calls have had the timer reach 0.05 it is active with `Frame` the
number of such calls; it has ended exactly when there have been 6 of them.  A
single `Update(1.0)` leaves the slash active in frame 1. -/
theorem sword_one_frame_per_update (s : Sword) (player : Player) (h : s.IsSlashing = false) :
    (∀ (q : Sword) (dt : ℚ),
        (q.Update dt player).SlashAnim.Frame ≤ q.SlashAnim.Frame + 1 ∧
          (q.timerReaches dt = true → (q.Update dt player).SlashAnim.FrameTime = 0) ∧
          (q.timerReaches dt = false →
            (q.Update dt player).SlashAnim.Frame = q.SlashAnim.Frame)) ∧
      (∀ dts : List ℚ, dts.length ≤ 5 →
        ((s.OnActivate player).updates player dts).IsActive = true ∧
          ((s.OnActivate player).updates player dts).IsSlashing = true) ∧
      (∀ dts : List ℚ, (s.OnActivate player).timerReachedCount player dts ≤ 6) ∧
      (∀ dts : List ℚ, (s.OnActivate player).timerReachedCount player dts < 6 →
        ((s.OnActivate player).updates player dts).IsActive = true ∧
          ((s.OnActivate player).updates player dts).IsSlashing = true ∧
          ((s.OnActivate player).updates player dts).SlashAnim.Frame =
            (((s.OnActivate player).timerReachedCount player dts : ℕ) : Int)) ∧
      (∀ dts : List ℚ, (s.OnActivate player).timerReachedCount player dts = 6 →
        ((s.OnActivate player).updates player dts).IsActive = false ∧
          ((s.OnActivate player).updates player dts).IsSlashing = false ∧
          ((s.OnActivate player).updates player dts).SlashAnim.Frame = 0) ∧
      ((s.OnActivate player).Update 1 player).IsActive = true ∧
      ((s.OnActivate player).Update 1 player).IsSlashing = true ∧
      ((s.OnActivate player).Update 1 player).SlashAnim.Frame = 1 := by
  have hOn : (s.OnActivate player).IsSlashing = true ∧ (s.OnActivate player).Active = true ∧
      (s.OnActivate player).SlashAnim.Frame = ((0 : ℕ) : Int) := by
    unfold Sword.OnActivate
    simp [h]
  have key := fun dts =>
    Sword.updates_slashing dts (s.OnActivate player) player 0 hOn.1 hOn.2.1 hOn.2.2 (by omega)
  simp only [Nat.zero_add] at key
  refine ⟨?_, ?_, fun dts => (key dts).1,
    fun dts hc => ⟨((key dts).2.1 hc).2.1, ((key dts).2.1 hc).1, ((key dts).2.1 hc).2.2⟩,
    fun dts hc => ⟨((key dts).2.2 hc).2.1, ((key dts).2.2 hc).1, ((key dts).2.2 hc).2.2⟩, ?_⟩
  · intro q dt
    cases hq : q.IsSlashing
    · rw [Sword.Update_not_slashing q dt player hq]
      refine ⟨by omega, ?_, fun _ => rfl⟩
      intro ht
      simp [Sword.timerReaches, hq] at ht
    · have hc := Sword.Update_cases q dt player hq
      refine ⟨?_, ?_, fun ht => (hc.1 ht).2.2.1⟩
      · cases ht : q.timerReaches dt
        · rw [(hc.1 ht).2.2.1]
          omega
        · by_cases hf : q.SlashAnim.Frame + 1 < 6
          · rw [(hc.2.1 ht hf).2.2.1]
          · rw [(hc.2.2 ht (by omega)).2.2.1]
            omega
      · intro ht
        by_cases hf : q.SlashAnim.Frame + 1 < 6
        · exact (hc.2.1 ht hf).2.2.2
        · exact (hc.2.2 ht (by omega)).2.2.2
  · intro dts hlen
    have hle := Sword.timerReachedCount_le_length dts (s.OnActivate player) player
    have := (key dts).2.1 (by omega)
    exact ⟨this.2.1, this.1⟩
  · have hc := Sword.Update_cases (s.OnActivate player) 1 player hOn.1
    have ht : (s.OnActivate player).timerReaches 1 = true := by
      unfold Sword.timerReaches Sword.OnActivate
      simp [h]
      norm_num
    have hf : (s.OnActivate player).SlashAnim.Frame + 1 < 6 := by
      rw [hOn.2.2]
      decide
    obtain ⟨h1, h2, h3, _⟩ := hc.2.1 ht hf
    refine ⟨?_, h1, ?_⟩
    · show ((s.OnActivate player).Update 1 player).Active = true
      rw [h2, hOn.2.1]
    · rw [h3, hOn.2.2]
      rfl

/-- Witness of C28: a new sword; frame times 0.06, 0.01, 0.2, 1, 0.05, 0.03 (the
timer reaches 0.05 at four of the six calls) leave the slash active in frame
4, and two more calls of 0.05 end it. -/
theorem sword_one_frame_per_update_witness :
    NewSword.IsSlashing = false ∧
      ((NewSword.OnActivate playerAtOrigin).updates playerAtOrigin
        [3 / 50, 1 / 100, 1 / 5, 1, 1 / 20]).IsActive = true ∧
      (NewSword.OnActivate playerAtOrigin).timerReachedCount playerAtOrigin
        [3 / 50, 1 / 100, 1 / 5, 1, 1 / 20, 3 / 100] = 4 ∧
      ((NewSword.OnActivate playerAtOrigin).updates playerAtOrigin
        [3 / 50, 1 / 100, 1 / 5, 1, 1 / 20, 3 / 100]).SlashAnim.Frame = 4 ∧
      ((NewSword.OnActivate playerAtOrigin).updates playerAtOrigin
        [3 / 50, 1 / 100, 1 / 5, 1, 1 / 20, 3 / 100, 1 / 20, 1 / 20]).IsActive = false ∧
      ((NewSword.OnActivate playerAtOrigin).Update 1 playerAtOrigin).IsActive = true := by
  have hw := sword_one_frame_per_update NewSword playerAtOrigin rfl
  refine ⟨rfl, (hw.2.1 _ (by decide)).1, by decide!, by decide!, ?_, hw.2.2.2.2.2.1⟩
  exact (hw.2.2.2.2.1 [3 / 50, 1 / 100, 1 / 5, 1, 1 / 20, 3 / 100, 1 / 20, 1 / 20]
    (by decide!)).1

/-! ## The enemy list after the loop of a frame -/

theorem Player.sameBox_refl (p : Player) : p.sameBox p := ⟨rfl, rfl, rfl, rfl⟩

theorem Player.sameBox_trans {p q r : Player} (h1 : p.sameBox q) (h2 : q.sameBox r) :
    p.sameBox r :=
  ⟨h2.1.trans h1.1, h2.2.1.trans h1.2.1, h2.2.2.1.trans h1.2.2.1, h2.2.2.2.trans h1.2.2.2⟩

theorem Player.sameBox_TakeDamage (p : Player) (d : Int) : p.sameBox (p.TakeDamage d) := by
  unfold Player.TakeDamage
  simp only []
  split_ifs <;> exact ⟨rfl, rfl, rfl, rfl⟩

theorem Player.sameBox_GainExperience (p : Player) (amount : Int) :
    p.sameBox (p.GainExperience amount) := by
  unfold Player.GainExperience Player.LevelUp
  simp only []
  split_ifs <;> exact ⟨rfl, rfl, rfl, rfl⟩

theorem Enemy.Update_sameBox (e : Enemy) (Sqrt : ℚ → ℚ) (frameTime : ℚ) {p q : Player}
    (h : p.sameBox q) : e.Update Sqrt frameTime q = e.Update Sqrt frameTime p := by
  simp only [Enemy.Update, Enemy.aim, h.1, h.2.1]

theorem Enemy.CheckCollision_sameBox (e : Enemy) {p q : Player} (h : p.sameBox q) :
    e.CheckCollision q = e.CheckCollision p := by
  simp only [Enemy.CheckCollision, Player.GetBounds, h.1, h.2.1, h.2.2.1, h.2.2.2]

theorem RayGun.CheckRayCollision_sameBox (r : RayGun) (bounds : Rectangle) {p q : Player}
    (h : p.sameBox q) : r.CheckRayCollision q bounds = r.CheckRayCollision p bounds := by
  simp only [RayGun.CheckRayCollision, h.1, h.2.1, h.2.2.1, h.2.2.2]

theorem Game.weaponDamage_enemy_sameBox (g g2 : Game) (w : Weapon) (e : Enemy) {p q : Player}
    (h : p.sameBox q) : (g2.weaponDamage q w e).2 = (g.weaponDamage p w e).2 := by
  cases w with
  | rayGun r =>
    simp only [Game.weaponDamage, RayGun.CheckRayCollision_sameBox r _ h]
    split_ifs <;> rfl
  | sword s =>
    simp only [Game.weaponDamage]
    split_ifs <;> rfl
  | pistol p =>
    simp only [Game.weaponDamage]
    split_ifs <;> rfl

theorem Game.beforeWeaponDamage_player (g : Game) (Sqrt : ℚ → ℚ) (frameTime : ℚ)
    (player : Player) (enemy : Enemy) :
    player.sameBox (g.beforeWeaponDamage Sqrt frameTime player enemy).2.1 := by
  unfold Game.beforeWeaponDamage
  simp only []
  split_ifs
  · exact Player.sameBox_TakeDamage player 10
  · exact Player.sameBox_refl player

theorem Game.enemyLoopBody_player (g : Game) (Sqrt : ℚ → ℚ) (frameTime : ℚ)
    (player : Player) (w : Weapon) (enemy : Enemy) :
    player.sameBox (g.enemyLoopBody Sqrt frameTime player w enemy).2.1 :=
  Game.beforeWeaponDamage_player g Sqrt frameTime player enemy

/-- The enemy that an iteration of the loop leaves depends on the position and
size of the player only, not on the game state or the player's health. -/
theorem Game.enemyAfterDamage_sameBox (g g2 : Game) (Sqrt : ℚ → ℚ) (frameTime : ℚ)
    (w : Weapon) (enemy : Enemy) {p q : Player} (h : p.sameBox q) :
    g2.enemyAfterDamage Sqrt frameTime q w enemy = g.enemyAfterDamage Sqrt frameTime p w enemy := by
  unfold Game.enemyAfterDamage Game.enemyLoopBody
  simp only [Game.beforeWeaponDamage_enemy]
  rw [Enemy.Update_sameBox enemy Sqrt frameTime h]
  exact Game.weaponDamage_enemy_sameBox _ _ w _
    (Player.sameBox_trans
      (Player.sameBox_trans
        (by
          have := Game.beforeWeaponDamage_player g Sqrt frameTime p enemy
          exact ⟨this.1.symm, this.2.1.symm, this.2.2.1.symm, this.2.2.2.symm⟩) h)
      (Game.beforeWeaponDamage_player g2 Sqrt frameTime q enemy))

theorem Game.enemyIteration_spec (Sqrt : ℚ → ℚ) (frameTime : ℚ) (w : Weapon)
    (st : Game × Player × List Enemy) (enemy : Enemy) :
    st.2.1.sameBox (Game.enemyIteration Sqrt frameTime w st enemy).2.1 ∧
      (Game.enemyIteration Sqrt frameTime w st enemy).2.2 =
        st.2.2 ++ [st.1.enemyAfterDamage Sqrt frameTime st.2.1 w enemy].filter
          (fun e => decide (0 < e.CurrentHealth)) := by
  unfold Game.enemyIteration
  simp only []
  by_cases hd : (st.1.enemyLoopBody Sqrt frameTime st.2.1 w enemy).2.2.CurrentHealth ≤ 0
  · have hdead : (st.1.enemyLoopBody Sqrt frameTime st.2.1 w enemy).2.2.IsDead = true := by
      simp [Enemy.IsDead, hd]
    rw [if_pos hdead]
    refine ⟨Player.sameBox_trans (Game.enemyLoopBody_player st.1 Sqrt frameTime st.2.1 w enemy)
      (Player.sameBox_GainExperience _ _), ?_⟩
    simp [Game.enemyAfterDamage, hd]
  · have hdead : ¬ (st.1.enemyLoopBody Sqrt frameTime st.2.1 w enemy).2.2.IsDead = true := by
      simp [Enemy.IsDead, hd]
    rw [if_neg hdead]
    refine ⟨Game.enemyLoopBody_player st.1 Sqrt frameTime st.2.1 w enemy, ?_⟩
    have hpos : 0 < (st.1.enemyLoopBody Sqrt frameTime st.2.1 w enemy).2.2.CurrentHealth := by
      omega
    simp [Game.enemyAfterDamage, hpos]

theorem Game.enemyLoop_remaining (Sqrt : ℚ → ℚ) (frameTime : ℚ) (w : Weapon) (g : Game)
    (player : Player) (enemies : List Enemy) (st : Game × Player × List Enemy)
    (h : player.sameBox st.2.1) :
    (enemies.foldl (Game.enemyIteration Sqrt frameTime w) st).2.2 =
      st.2.2 ++ (enemies.map (g.enemyAfterDamage Sqrt frameTime player w)).filter
        (fun e => decide (0 < e.CurrentHealth)) := by
  induction enemies generalizing st with
  | nil => simp
  | cons e es ih =>
    have hs := Game.enemyIteration_spec Sqrt frameTime w st e
    rw [List.foldl_cons, ih _ (Player.sameBox_trans h hs.1), hs.2,
      Game.enemyAfterDamage_sameBox g st.1 Sqrt frameTime w e h, List.map_cons,
      List.append_assoc, ← List.filter_append]
    rfl

theorem Game.updateAllEnemies_remaining (g : Game) (Sqrt : ℚ → ℚ) (frameTime : ℚ)
    (player : Player) (w : Weapon) (enemies : List Enemy) :
    (g.updateAllEnemies Sqrt frameTime player w enemies).2.2 =
      (enemies.map (g.enemyAfterDamage Sqrt frameTime player w)).filter
        (fun e => decide (0 < e.CurrentHealth)) := by
  unfold Game.updateAllEnemies
  rw [Game.enemyLoop_remaining Sqrt frameTime w g player enemies (g, player, [])
    (Player.sameBox_refl player)]
  rfl

theorem Game.updateAllEnemies_alive (g : Game) (Sqrt : ℚ → ℚ) (frameTime : ℚ)
    (player : Player) (w : Weapon) (enemies : List Enemy) :
    ∀ e ∈ (g.updateAllEnemies Sqrt frameTime player w enemies).2.2, 0 < e.CurrentHealth := by
  intro e he
  rw [Game.updateAllEnemies_remaining] at he
  simpa using (List.mem_filter.1 he).2

theorem Game.enemyListTicks_alive (Sqrt : ℚ → ℚ) (ts : List TickInput) (t : TickInput)
    (g : Game) (enemies : List Enemy) :
    ∀ e ∈ (Game.enemyListTicks Sqrt g enemies (t :: ts)).2, 0 < e.CurrentHealth := by
  induction ts generalizing t g enemies with
  | nil =>
    exact Game.updateAllEnemies_alive g Sqrt t.frameTime t.player t.weapon enemies
  | cons t2 ts ih =>
    exact ih t2 _ _

/-- C23: after the loop "Update all enemies" of one frame the list of live
enemies is, in the original order, the list of the enemies as this frame's
update and damage leave them, restricted to those with `CurrentHealth > 0`;
`IsDead()` holds exactly when `CurrentHealth ≤ 0`; every enemy on the list
after a frame is alive, and so is every enemy on the list after any number of
further frames, whose loops range over that list only: an enemy that died is
not hit-tested again. -/
theorem enemy_list_after_loop (g : Game) (Sqrt : ℚ → ℚ) (frameTime : ℚ) (player : Player)
    (w : Weapon) (enemies : List Enemy) :
    (g.updateAllEnemies Sqrt frameTime player w enemies).2.2 =
        (enemies.map (g.enemyAfterDamage Sqrt frameTime player w)).filter
          (fun e => decide (0 < e.CurrentHealth)) ∧
      (∀ e : Enemy, e.IsDead = true ↔ e.CurrentHealth ≤ 0) ∧
      (∀ e ∈ (g.updateAllEnemies Sqrt frameTime player w enemies).2.2,
        0 < e.CurrentHealth ∧ e.IsDead = false) ∧
      (∀ e ∈ enemies, (g.enemyAfterDamage Sqrt frameTime player w e).IsDead = true →
        g.enemyAfterDamage Sqrt frameTime player w e ∉
          (g.updateAllEnemies Sqrt frameTime player w enemies).2.2) ∧
      (∀ (t : TickInput) (ts : List TickInput),
        ∀ e ∈ (Game.enemyListTicks Sqrt g enemies (t :: ts)).2, 0 < e.CurrentHealth) := by
  refine ⟨Game.updateAllEnemies_remaining g Sqrt frameTime player w enemies, ?_, ?_, ?_,
    fun t ts => Game.enemyListTicks_alive Sqrt ts t g enemies⟩
  · intro e
    simp [Enemy.IsDead]
  · intro e he
    have := Game.updateAllEnemies_alive g Sqrt frameTime player w enemies e he
    refine ⟨this, ?_⟩
    simp [Enemy.IsDead, this]
  · intro e _ hdead hmem
    have h2 := Game.updateAllEnemies_alive g Sqrt frameTime player w enemies _ hmem
    simp [Enemy.IsDead] at hdead
    omega

/-- An instance of the loop: a sword in mid-slash, an enemy with 2 health on the
player and in the damage area, and an enemy far away.  The first dies in this
frame and only the second is on the list afterwards. -/
theorem Game.updateAllEnemies_example :
    ((Game.updateAllEnemies ⟨[], 0, 0⟩ (fun _ => 0) (1 / 60) playerAtOrigin
        (Weapon.sword swordMidSlash)
        [{ enemyOnPlayer with CurrentHealth := 2 }, { NewEnemy 500 500 with Speed := 0 }]).2.2.map
      Enemy.CurrentHealth) = [3] ∧
      (Game.updateAllEnemies ⟨[], 0, 0⟩ (fun _ => 0) (1 / 60) playerAtOrigin
        (Weapon.sword swordMidSlash)
        [{ enemyOnPlayer with CurrentHealth := 2 }, { NewEnemy 500 500 with Speed := 0 }]).1.particles =
        [⟨Color.Red, 10, -8, -8⟩, ⟨Color.White, 10, -8, -8⟩, ⟨Color.Red, 15, -8, -8⟩] ∧
      (Game.updateAllEnemies ⟨[], 0, 0⟩ (fun _ => 0) (1 / 60) playerAtOrigin
        (Weapon.sword swordMidSlash)
        [{ enemyOnPlayer with CurrentHealth := 2 }, { NewEnemy 500 500 with Speed := 0 }]).2.1.Experience =
        10 := by
  refine ⟨by decide!, by decide!, by decide!⟩

/-! ## The weapons of the player: selection, the weapon that is updated -/

theorem ArmedPlayer.SwitchWeapon_frame (p : ArmedPlayer) (index : Int) :
    (p.SwitchWeapon index).Weapons = p.Weapons ∧ (p.SwitchWeapon index).objects = p.objects ∧
      (p.SwitchWeapon index).toPlayer = p.toPlayer := by
  unfold ArmedPlayer.SwitchWeapon
  split_ifs
  · split <;> exact ⟨rfl, rfl, rfl⟩
  · exact ⟨rfl, rfl, rfl⟩

theorem ArmedPlayer.SwitchWeapon_in_range (p : ArmedPlayer) (index : Int) (h0 : 0 ≤ index)
    (h1 : index < (p.Weapons.length : Int)) :
    p.Weapons[index.toNat]? = some (p.SwitchWeapon index).CurrentWeapon := by
  have hlt : index.toNat < p.Weapons.length := by omega
  have hget : p.Weapons[index.toNat]? = some (p.Weapons.get ⟨index.toNat, hlt⟩) :=
    List.getElem?_eq_getElem hlt
  unfold ArmedPlayer.SwitchWeapon
  rw [if_pos ⟨h0, h1⟩]
  simp only [hget]

theorem ArmedPlayer.SwitchWeapon_out_of_range (p : ArmedPlayer) (index : Int)
    (h : ¬ (0 ≤ index ∧ index < (p.Weapons.length : Int))) : p.SwitchWeapon index = p := by
  unfold ArmedPlayer.SwitchWeapon
  rw [if_neg h]

theorem ArmedPlayer.SwitchWeapon_mem (p : ArmedPlayer) (index : Int)
    (h : p.CurrentWeapon ∈ p.Weapons) :
    (p.SwitchWeapon index).CurrentWeapon ∈ (p.SwitchWeapon index).Weapons := by
  rw [(ArmedPlayer.SwitchWeapon_frame p index).1]
  by_cases hr : 0 ≤ index ∧ index < (p.Weapons.length : Int)
  · exact List.mem_iff_getElem?.2 ⟨_, ArmedPlayer.SwitchWeapon_in_range p index hr.1 hr.2⟩
  · rw [ArmedPlayer.SwitchWeapon_out_of_range p index hr]
    exact h

theorem ArmedPlayer.UpdateWeapon_frame (p : ArmedPlayer) (Sqrt : ℚ → ℚ) (dt : ℚ)
    (mouseButtonDown : Bool) (mouseWorld : Vector2) :
    (p.UpdateWeapon Sqrt dt mouseButtonDown mouseWorld).Weapons = p.Weapons ∧
      (p.UpdateWeapon Sqrt dt mouseButtonDown mouseWorld).CurrentWeapon = p.CurrentWeapon ∧
      (p.UpdateWeapon Sqrt dt mouseButtonDown mouseWorld).toPlayer = p.toPlayer ∧
      (p.UpdateWeapon Sqrt dt mouseButtonDown mouseWorld).objects.length = p.objects.length := by
  unfold ArmedPlayer.UpdateWeapon
  split
  · exact ⟨rfl, rfl, rfl, rfl⟩
  · exact ⟨rfl, rfl, rfl, by simp⟩

theorem ArmedPlayer.UpdateWeapon_other (p : ArmedPlayer) (Sqrt : ℚ → ℚ) (dt : ℚ)
    (mouseButtonDown : Bool) (mouseWorld : Vector2) (a : Nat) (h : a ≠ p.CurrentWeapon) :
    (p.UpdateWeapon Sqrt dt mouseButtonDown mouseWorld).objects[a]? = p.objects[a]? := by
  unfold ArmedPlayer.UpdateWeapon
  split
  · rfl
  · exact List.getElem?_set_ne (Ne.symm h)

theorem ArmedPlayer.UpdateWeapon_current (p : ArmedPlayer) (Sqrt : ℚ → ℚ) (dt : ℚ)
    (mouseButtonDown : Bool) (mouseWorld : Vector2) (w : Weapon)
    (h : p.objects[p.CurrentWeapon]? = some w) :
    (p.UpdateWeapon Sqrt dt mouseButtonDown mouseWorld).objects[p.CurrentWeapon]? =
      some ((if mouseButtonDown then w.OnActivate Sqrt p.toPlayer mouseWorld
        else w.OnDeactivate p.toPlayer).Update dt p.toPlayer) := by
  have hlt : p.CurrentWeapon < p.objects.length := by
    by_contra hge
    rw [List.getElem?_eq_none (not_lt.1 hge)] at h
    cases h
  unfold ArmedPlayer.UpdateWeapon
  simp only [h]
  rw [List.getElem?_set]
  simp [hlt]

/-- The weapons of a player reached from `NewPlayer`: the list `Weapons` is the
one of the constructor, its three objects exist, and `CurrentWeapon` is on the
list. -/
theorem ArmedPlayer.run_weapons (calls : List PlayerCall) (p : ArmedPlayer)
    (hW : p.Weapons = [0, 1, 2]) (hO : p.objects.length = 3)
    (hC : p.CurrentWeapon ∈ p.Weapons) :
    (p.run calls).Weapons = [0, 1, 2] ∧ (p.run calls).objects.length = 3 ∧
      (p.run calls).CurrentWeapon ∈ (p.run calls).Weapons := by
  induction calls generalizing p with
  | nil => exact ⟨hW, hO, hC⟩
  | cons c cs ih =>
    show ((p.call c).run cs).Weapons = [0, 1, 2] ∧ ((p.call c).run cs).objects.length = 3 ∧
      ((p.call c).run cs).CurrentWeapon ∈ ((p.call c).run cs).Weapons
    cases c with
    | SwitchWeapon index =>
      have hf := ArmedPlayer.SwitchWeapon_frame p index
      exact ih (p.SwitchWeapon index) (by rw [hf.1, hW]) (by rw [hf.2.1, hO])
        (ArmedPlayer.SwitchWeapon_mem p index hC)
    | UpdateWeapon Sqrt dt mouseButtonDown mouseWorld =>
      have hf := ArmedPlayer.UpdateWeapon_frame p Sqrt dt mouseButtonDown mouseWorld
      exact ih (p.UpdateWeapon Sqrt dt mouseButtonDown mouseWorld) (by rw [hf.1, hW])
        (by rw [hf.2.2.2, hO]) (by rw [hf.1, hf.2.1]; exact hC)
    | SetBody body => exact ih _ hW hO hC

/-- C22: `SwitchWeapon(i)` sets `CurrentWeapon` to `Weapons[i]` when
`0 ≤ i < len(Weapons)` and changes nothing when `i` is out of range; it never
changes the list `Weapons`, the state of any weapon, or the other fields of
the player.  In every state reached from `NewPlayer` by weapon selections,
player updates and changes of the other fields, `CurrentWeapon` is one of the
three weapons of the list and points to an existing weapon. -/
theorem switchWeapon_selects (p : ArmedPlayer) (index : Int) :
    (0 ≤ index ∧ index < (p.Weapons.length : Int) →
        p.Weapons[index.toNat]? = some (p.SwitchWeapon index).CurrentWeapon) ∧
      (¬ (0 ≤ index ∧ index < (p.Weapons.length : Int)) → p.SwitchWeapon index = p) ∧
      (p.SwitchWeapon index).Weapons = p.Weapons ∧
      (p.SwitchWeapon index).objects = p.objects ∧
      (p.SwitchWeapon index).toPlayer = p.toPlayer ∧
      (∀ (x y : ℚ) (gameWidth gameHeight : Int) (calls : List PlayerCall),
        ((NewPlayer x y gameWidth gameHeight).run calls).CurrentWeapon ∈
            ((NewPlayer x y gameWidth gameHeight).run calls).Weapons ∧
          ((NewPlayer x y gameWidth gameHeight).run calls).Weapons = [0, 1, 2] ∧
          ∃ w : Weapon,
            ((NewPlayer x y gameWidth gameHeight).run calls).objects[
              ((NewPlayer x y gameWidth gameHeight).run calls).CurrentWeapon]? = some w) ∧
      ((NewPlayer 0 0 800 600).SwitchWeapon 1).CurrentWeapon = 1 ∧
      ((NewPlayer 0 0 800 600).SwitchWeapon 1).objects[1]? = some (Weapon.sword NewSword) ∧
      (NewPlayer 0 0 800 600).SwitchWeapon 3 = NewPlayer 0 0 800 600 ∧
      (NewPlayer 0 0 800 600).SwitchWeapon (-1) = NewPlayer 0 0 800 600 := by
  have hf := ArmedPlayer.SwitchWeapon_frame p index
  refine ⟨fun h => ArmedPlayer.SwitchWeapon_in_range p index h.1 h.2,
    ArmedPlayer.SwitchWeapon_out_of_range p index, hf.1, hf.2.1, hf.2.2, ?_,
    by decide!, by decide!, by decide!, by decide!⟩
  intro x y gameWidth gameHeight calls
  obtain ⟨hW, hO, hC⟩ := ArmedPlayer.run_weapons calls (NewPlayer x y gameWidth gameHeight) rfl
    rfl (by simp [NewPlayer])
  refine ⟨hC, hW, ?_⟩
  have hlt : ((NewPlayer x y gameWidth gameHeight).run calls).CurrentWeapon <
      ((NewPlayer x y gameWidth gameHeight).run calls).objects.length := by
    rw [hW] at hC
    rw [hO]
    simp at hC
    omega
  exact ⟨_, List.getElem?_eq_getElem hlt⟩

/-- C21 as stated fails: a player fires the ray gun for one second (heat 40)
and selects the sword.  In the next player update, of 0.5 s, the ray gun is not
the current weapon and is not updated: its heat is still 40, where the claim
has it at 40 − 30 · 0.5 = 25. -/
theorem unselected_rayGun_keeps_heat :
    playerWithHotRayGun.objects[playerWithHotRayGun.CurrentWeapon]? =
        some (Weapon.sword NewSword) ∧
      (playerWithHotRayGun.rayGunAt 0).map RayGun.HeatLevel = some 40 ∧
      (playerWithHotRayGun.rayGunAt 0).map RayGun.CooldownRate = some 30 ∧
      ((playerWithHotRayGun.UpdateWeapon (fun _ => 0) (1 / 2) false ⟨0, 0⟩).rayGunAt 0).map
          RayGun.HeatLevel = some 40 ∧
      ((playerWithHotRayGun.UpdateWeapon (fun _ => 0) (1 / 2) false ⟨0, 0⟩).rayGunAt 0).map
          RayGun.HeatLevel ≠ some (Max 0 (40 - 30 * (1 / 2))) := by
  refine ⟨by decide!, by decide!, by decide!, by decide!, by decide!⟩

/-- C21 amended: a player update does not touch a weapon that is not the
current one: it calls `OnActivate` or `OnDeactivate` and `Update` on
`CurrentWeapon` only.  So a ray gun keeps its heat, and every other field,
while another weapon is selected, whatever the frame time. -/
theorem player_updates_current_weapon_only (p : ArmedPlayer) (Sqrt : ℚ → ℚ) (dt : ℚ)
    (mouseButtonDown : Bool) (mouseWorld : Vector2) :
    (∀ a : Nat, a ≠ p.CurrentWeapon →
        (p.UpdateWeapon Sqrt dt mouseButtonDown mouseWorld).objects[a]? = p.objects[a]?) ∧
      (∀ a : Nat, a ≠ p.CurrentWeapon →
        (p.UpdateWeapon Sqrt dt mouseButtonDown mouseWorld).rayGunAt a = p.rayGunAt a) ∧
      (∀ a : Nat, a ≠ p.CurrentWeapon →
        ((p.UpdateWeapon Sqrt dt mouseButtonDown mouseWorld).rayGunAt a).map RayGun.HeatLevel =
          (p.rayGunAt a).map RayGun.HeatLevel) ∧
      (p.UpdateWeapon Sqrt dt mouseButtonDown mouseWorld).CurrentWeapon = p.CurrentWeapon ∧
      (p.UpdateWeapon Sqrt dt mouseButtonDown mouseWorld).Weapons = p.Weapons := by
  have hf := ArmedPlayer.UpdateWeapon_frame p Sqrt dt mouseButtonDown mouseWorld
  have h2 : ∀ a : Nat, a ≠ p.CurrentWeapon →
      (p.UpdateWeapon Sqrt dt mouseButtonDown mouseWorld).rayGunAt a = p.rayGunAt a := by
    intro a ha
    unfold ArmedPlayer.rayGunAt
    rw [ArmedPlayer.UpdateWeapon_other p Sqrt dt mouseButtonDown mouseWorld a ha]
  exact ⟨ArmedPlayer.UpdateWeapon_other p Sqrt dt mouseButtonDown mouseWorld, h2,
    fun a ha => by rw [h2 a ha], hf.2.1, hf.1⟩

/-! ## Binary32 rounding: exponent, error bounds, monotonicity -/

theorem log2Fuel_spec (fuel n : Nat) (h1 : 1 ≤ n) (hf : n < 2 ^ fuel) :
    2 ^ log2Fuel fuel n ≤ n ∧ n < 2 ^ (log2Fuel fuel n + 1) := by
  induction fuel generalizing n with
  | zero => simp at hf; omega
  | succ k ih =>
    unfold log2Fuel
    split_ifs with h2
    · simp; omega
    · have hk : n / 2 < 2 ^ k := by
        rw [pow_succ] at hf
        omega
      have := ih (n / 2) (by omega) hk
      rw [pow_succ, pow_succ]
      omega

theorem log2Floor_spec (n : Nat) (h1 : 1 ≤ n) :
    2 ^ log2Floor n ≤ n ∧ n < 2 ^ (log2Floor n + 1) :=
  log2Fuel_spec n n h1 (Nat.lt_two_pow n)

theorem abs_eq_natAbs_div_den (x : ℚ) : |x| = (x.num.natAbs : ℚ) / (x.den : ℚ) := by
  have h : x = (x.num : ℚ) / (x.den : ℚ) := (Rat.num_div_den x).symm
  have hd : (0 : ℚ) < (x.den : ℚ) := by exact_mod_cast x.den_pos
  have hn : |(x.num : ℚ)| = (x.num.natAbs : ℚ) := by
    have h1 := congrArg (Int.cast : ℤ → ℚ) (Int.abs_eq_natAbs x.num)
    rw [Int.cast_abs, Int.cast_natCast] at h1
    exact h1
  calc |x| = |(x.num : ℚ) / (x.den : ℚ)| := by rw [← h]
    _ = (x.num.natAbs : ℚ) / (x.den : ℚ) := by rw [abs_div, abs_of_pos hd, hn]

theorem f32Exponent_spec (x : ℚ) (hx : x ≠ 0) :
    -126 ≤ f32Exponent x ∧ |x| < (2 : ℚ) ^ (f32Exponent x + 1) ∧
      ((2 : ℚ) ^ f32Exponent x ≤ |x| ∨ f32Exponent x = -126) := by
  have hN1 : 1 ≤ x.num.natAbs := by
    have : x.num ≠ 0 := Rat.num_ne_zero.2 hx
    omega
  have hD1 : 1 ≤ x.den := x.den_pos
  obtain ⟨hNl, hNu⟩ := log2Floor_spec _ hN1
  obtain ⟨hDl, hDu⟩ := log2Floor_spec _ hD1
  set N := x.num.natAbs with hN
  set D := x.den with hD
  set ln := log2Floor N with hln
  set ld := log2Floor D with hld
  have habs : |x| = (N : ℚ) / (D : ℚ) := abs_eq_natAbs_div_den x
  have hDpos : (0 : ℚ) < (D : ℚ) := by exact_mod_cast hD1
  have hNl2 : (2 : ℚ) ^ ln ≤ (N : ℚ) := by exact_mod_cast hNl
  have hNu2 : (N : ℚ) < (2 : ℚ) ^ (ln + 1) := by exact_mod_cast hNu
  have hDl2 : (2 : ℚ) ^ ld ≤ (D : ℚ) := by exact_mod_cast hDl
  have hDu2 : (D : ℚ) < (2 : ℚ) ^ (ld + 1) := by exact_mod_cast hDu
  have h2 : (0 : ℚ) < 2 := by norm_num
  have hup : |x| < (2 : ℚ) ^ (((ln : Int) - (ld : Int)) + 1) := by
    rw [habs, div_lt_iff₀ hDpos]
    have e1 : (2 : ℚ) ^ (((ln : Int) - (ld : Int)) + 1) * (2 : ℚ) ^ ld = (2 : ℚ) ^ (ln + 1) := by
      rw [← zpow_natCast (2 : ℚ) ld, ← zpow_add₀ (by norm_num : (2 : ℚ) ≠ 0),
        ← zpow_natCast (2 : ℚ) (ln + 1)]
      congr 1
      push_cast
      ring
    calc (N : ℚ) < (2 : ℚ) ^ (ln + 1) := hNu2
      _ = (2 : ℚ) ^ (((ln : Int) - (ld : Int)) + 1) * (2 : ℚ) ^ ld := e1.symm
      _ ≤ (2 : ℚ) ^ (((ln : Int) - (ld : Int)) + 1) * (D : ℚ) :=
          mul_le_mul_of_nonneg_left hDl2 (le_of_lt (zpow_pos h2 _))
  have hlow : (2 : ℚ) ^ (((ln : Int) - (ld : Int)) - 1) ≤ |x| := by
    rw [habs, le_div_iff₀ hDpos]
    have e1 : (2 : ℚ) ^ (((ln : Int) - (ld : Int)) - 1) * (2 : ℚ) ^ (ld + 1) = (2 : ℚ) ^ ln := by
      rw [← zpow_natCast (2 : ℚ) (ld + 1), ← zpow_add₀ (by norm_num : (2 : ℚ) ≠ 0),
        ← zpow_natCast (2 : ℚ) ln]
      congr 1
      push_cast
      ring
    calc (2 : ℚ) ^ (((ln : Int) - (ld : Int)) - 1) * (D : ℚ)
        ≤ (2 : ℚ) ^ (((ln : Int) - (ld : Int)) - 1) * (2 : ℚ) ^ (ld + 1) :=
          mul_le_mul_of_nonneg_left (le_of_lt hDu2) (le_of_lt (zpow_pos h2 _))
      _ = (2 : ℚ) ^ ln := e1
      _ ≤ (N : ℚ) := hNl2
  have hmono : ∀ a b : Int, a ≤ b → (2 : ℚ) ^ a ≤ (2 : ℚ) ^ b :=
    fun a b hab => zpow_le_zpow_right₀ (by norm_num) hab
  unfold f32Exponent
  simp only []
  rw [← hN, ← hD, ← hln, ← hld]
  by_cases hc : (2 : ℚ) ^ ((ln : Int) - (ld : Int)) ≤ |x|
  · rw [if_pos hc]
    split_ifs with h126
    · refine ⟨le_refl _, ?_, Or.inr rfl⟩
      exact lt_of_lt_of_le hup (hmono _ _ (by omega))
    · exact ⟨by omega, hup, Or.inl hc⟩
  · rw [if_neg hc]
    have hup2 : |x| < (2 : ℚ) ^ (((ln : Int) - (ld : Int)) - 1 + 1) := by
      rw [sub_add_cancel]
      exact not_le.1 hc
    split_ifs with h126
    · refine ⟨le_refl _, ?_, Or.inr rfl⟩
      exact lt_of_lt_of_le hup2 (hmono _ _ (by omega))
    · exact ⟨by omega, hup2, Or.inl hlow⟩

theorem roundHalfEven_cases (m : ℚ) :
    (roundHalfEven m = ⌊m⌋ ∧ m - ⌊m⌋ ≤ 1 / 2) ∨
      (roundHalfEven m = ⌊m⌋ + 1 ∧ 1 / 2 ≤ m - ⌊m⌋) := by
  have hfl : Rat.floor m = ⌊m⌋ := rfl
  unfold roundHalfEven
  simp only [hfl]
  split_ifs with h1 h2 h3
  · exact Or.inl ⟨rfl, le_of_lt h1⟩
  · exact Or.inr ⟨rfl, le_of_lt h2⟩
  · exact Or.inl ⟨rfl, not_lt.1 h2⟩
  · exact Or.inr ⟨rfl, not_lt.1 h1⟩

theorem roundHalfEven_error (m : ℚ) : |(roundHalfEven m : ℚ) - m| ≤ 1 / 2 := by
  have h0 : (⌊m⌋ : ℚ) ≤ m := Int.floor_le m
  have h1 : m < (⌊m⌋ : ℚ) + 1 := Int.lt_floor_add_one m
  rcases roundHalfEven_cases m with ⟨h, hr⟩ | ⟨h, hr⟩
  · rw [h, abs_le]
    constructor <;> linarith
  · rw [h, abs_le]
    push_cast
    constructor <;> linarith

theorem roundHalfEven_intCast (n : Int) : roundHalfEven (n : ℚ) = n := by
  have hfl : Rat.floor (n : ℚ) = ⌊(n : ℚ)⌋ := rfl
  unfold roundHalfEven
  simp only [hfl, Int.floor_intCast, sub_self]
  norm_num

theorem roundHalfEven_mono {m m2 : ℚ} (h : m ≤ m2) : roundHalfEven m ≤ roundHalfEven m2 := by
  have hfl : Rat.floor m = ⌊m⌋ := rfl
  have hfl2 : Rat.floor m2 = ⌊m2⌋ := rfl
  have hf : ⌊m⌋ ≤ ⌊m2⌋ := Int.floor_le_floor h
  rcases lt_or_eq_of_le hf with hlt | heq
  · rcases roundHalfEven_cases m with ⟨h1, _⟩ | ⟨h1, _⟩ <;>
      rcases roundHalfEven_cases m2 with ⟨h2, _⟩ | ⟨h2, _⟩ <;> rw [h1, h2] <;> omega
  · unfold roundHalfEven
    simp only [hfl, hfl2, ← heq]
    have hr : m - (⌊m⌋ : ℚ) ≤ m2 - (⌊m⌋ : ℚ) := by linarith
    split_ifs <;> first | omega | (exfalso; linarith)

theorem roundHalfEven_neg (m : ℚ) : roundHalfEven (-m) = -roundHalfEven m := by
  have hfl : Rat.floor m = ⌊m⌋ := rfl
  have hfl2 : Rat.floor (-m) = ⌊-m⌋ := rfl
  have h0 : (⌊m⌋ : ℚ) ≤ m := Int.floor_le m
  have h1 : m < (⌊m⌋ : ℚ) + 1 := Int.lt_floor_add_one m
  by_cases hint : m = (⌊m⌋ : ℚ)
  · rw [hint, ← Int.cast_neg, roundHalfEven_intCast, roundHalfEven_intCast]
  · have hlt : (⌊m⌋ : ℚ) < m := lt_of_le_of_ne h0 (Ne.symm hint)
    have hfn : ⌊-m⌋ = -⌊m⌋ - 1 := by
      rw [Int.floor_eq_iff]
      push_cast
      constructor <;> linarith
    unfold roundHalfEven
    simp only [hfl, hfl2, hfn]
    push_cast
    split_ifs <;> first | omega | (exfalso; linarith)

theorem two_zpow_pos (k : Int) : (0 : ℚ) < (2 : ℚ) ^ k := zpow_pos (by norm_num) k

theorem two_zpow_mono {a b : Int} (h : a ≤ b) : (2 : ℚ) ^ a ≤ (2 : ℚ) ^ b :=
  zpow_le_zpow_right₀ (by norm_num) h

theorem two_zpow_lt {a b : Int} (h : (2 : ℚ) ^ a < (2 : ℚ) ^ b) : a < b := by
  by_contra hc
  exact absurd (two_zpow_mono (not_lt.1 hc)) (not_le.2 h)

theorem f32Round_zero : f32Round 0 = 0 := by
  unfold f32Round
  simp

theorem f32Round_eq (x : ℚ) (hx : x ≠ 0) :
    f32Round x =
      (roundHalfEven (x / (2 : ℚ) ^ (f32Exponent x - 23)) : ℚ) * (2 : ℚ) ^ (f32Exponent x - 23) := by
  unfold f32Round
  rw [if_neg hx]

theorem f32Exponent_neg (x : ℚ) : f32Exponent (-x) = f32Exponent x := by
  unfold f32Exponent
  simp only [Rat.neg_num, Int.natAbs_neg, Rat.neg_den, abs_neg]

theorem f32Round_neg (x : ℚ) : f32Round (-x) = -f32Round x := by
  by_cases hx : x = 0
  · rw [hx, neg_zero, f32Round_zero, neg_zero]
  · rw [f32Round_eq _ (neg_ne_zero.2 hx), f32Round_eq _ hx, f32Exponent_neg, neg_div,
      roundHalfEven_neg]
    push_cast
    ring

theorem f32Round_nonneg {x : ℚ} (h : 0 ≤ x) : 0 ≤ f32Round x := by
  by_cases hx : x = 0
  · rw [hx, f32Round_zero]
  · rw [f32Round_eq _ hx]
    have hm : (0 : ℚ) ≤ x / (2 : ℚ) ^ (f32Exponent x - 23) :=
      div_nonneg h (le_of_lt (two_zpow_pos _))
    have := roundHalfEven_mono hm
    rw [← Int.cast_zero, roundHalfEven_intCast] at this
    exact mul_nonneg (by exact_mod_cast this) (le_of_lt (two_zpow_pos _))

theorem f32Round_nonpos {x : ℚ} (h : x ≤ 0) : f32Round x ≤ 0 := by
  have := f32Round_nonneg (neg_nonneg.2 h)
  rw [f32Round_neg] at this
  linarith

/-- Rounding moves a value by at most half a unit in the last place. -/
theorem f32Round_error (x : ℚ) (hx : x ≠ 0) :
    |f32Round x - x| ≤ (2 : ℚ) ^ (f32Exponent x - 24) := by
  have hu := two_zpow_pos (f32Exponent x - 23)
  rw [f32Round_eq _ hx]
  have he := roundHalfEven_error (x / (2 : ℚ) ^ (f32Exponent x - 23))
  have hsplit : (2 : ℚ) ^ (f32Exponent x - 24) = 1 / 2 * (2 : ℚ) ^ (f32Exponent x - 23) := by
    have : f32Exponent x - 23 = (f32Exponent x - 24) + 1 := by ring
    rw [this, zpow_add_one₀ (by norm_num : (2 : ℚ) ≠ 0)]
    ring
  have hfac : (roundHalfEven (x / (2 : ℚ) ^ (f32Exponent x - 23)) : ℚ) *
      (2 : ℚ) ^ (f32Exponent x - 23) - x =
      ((roundHalfEven (x / (2 : ℚ) ^ (f32Exponent x - 23)) : ℚ) -
        x / (2 : ℚ) ^ (f32Exponent x - 23)) * (2 : ℚ) ^ (f32Exponent x - 23) := by
    field_simp
  rw [hfac, abs_mul, abs_of_pos hu, hsplit]
  exact mul_le_mul_of_nonneg_right he (le_of_lt hu)

/-- The error of rounding a value below `2 ^ (E + 1)` in magnitude. -/
theorem f32Round_error_of_lt (x : ℚ) (E : Int) (hE : -126 ≤ E) (hx : |x| < (2 : ℚ) ^ (E + 1)) :
    |f32Round x - x| ≤ (2 : ℚ) ^ (E - 24) := by
  by_cases h0 : x = 0
  · rw [h0, f32Round_zero, sub_zero, abs_zero]
    exact le_of_lt (two_zpow_pos _)
  · obtain ⟨_, _, hlow⟩ := f32Exponent_spec x h0
    have hle : f32Exponent x ≤ E := by
      rcases hlow with hl | hl
      · have := two_zpow_lt (lt_of_le_of_lt hl hx)
        omega
      · omega
    exact le_trans (f32Round_error x h0) (two_zpow_mono (by omega))

/-- The relative error of rounding a value of the normal range. -/
theorem f32Round_rel_error (x : ℚ) (hx : (2 : ℚ) ^ (-126 : Int) ≤ |x|) :
    |f32Round x - x| ≤ |x| * (2 : ℚ) ^ (-24 : Int) := by
  have h0 : x ≠ 0 := by
    intro h
    rw [h, abs_zero] at hx
    exact absurd hx (not_le.2 (two_zpow_pos _))
  obtain ⟨_, _, hlow⟩ := f32Exponent_spec x h0
  have hl : (2 : ℚ) ^ f32Exponent x ≤ |x| := by
    rcases hlow with hl | hl
    · exact hl
    · rw [hl]; exact hx
  refine le_trans (f32Round_error x h0) ?_
  have : (2 : ℚ) ^ (f32Exponent x - 24) = (2 : ℚ) ^ f32Exponent x * (2 : ℚ) ^ (-24 : Int) := by
    rw [← zpow_add₀ (by norm_num : (2 : ℚ) ≠ 0)]
    congr 1
  rw [this]
  exact mul_le_mul_of_nonneg_right hl (le_of_lt (two_zpow_pos _))

theorem f32Round_of_int_mul_pow (m : Int) (k : Int) (hm : |m| < 2 ^ 24) (hk : -149 ≤ k) :
    f32Round ((m : ℚ) * (2 : ℚ) ^ k) = (m : ℚ) * (2 : ℚ) ^ k := by
  by_cases h0 : (m : ℚ) * (2 : ℚ) ^ k = 0
  · rw [h0, f32Round_zero]
  · obtain ⟨_, _, hlow⟩ := f32Exponent_spec _ h0
    have habs : |(m : ℚ) * (2 : ℚ) ^ k| < (2 : ℚ) ^ (k + 24) := by
      rw [abs_mul, abs_of_pos (two_zpow_pos k)]
      have hm2 : |(m : ℚ)| < (2 : ℚ) ^ (24 : Int) := by
        have : ((|m| : Int) : ℚ) < ((2 ^ 24 : Int) : ℚ) := by exact_mod_cast hm
        rw [Int.cast_abs] at this
        norm_num at this ⊢
        exact this
      have : |(m : ℚ)| * (2 : ℚ) ^ k < (2 : ℚ) ^ (24 : Int) * (2 : ℚ) ^ k :=
        mul_lt_mul_of_pos_right hm2 (two_zpow_pos k)
      rw [← zpow_add₀ (by norm_num : (2 : ℚ) ≠ 0)] at this
      rw [add_comm]
      exact this
    have hle : f32Exponent ((m : ℚ) * (2 : ℚ) ^ k) - 23 ≤ k := by
      rcases hlow with hl | hl
      · have := two_zpow_lt (lt_of_le_of_lt hl habs)
        omega
      · omega
    rw [f32Round_eq _ h0]
    generalize f32Exponent ((m : ℚ) * (2 : ℚ) ^ k) = e at hle
    obtain ⟨j, hj⟩ : ∃ j : ℕ, k = (e - 23) + (j : Int) := ⟨(k - (e - 23)).toNat, by omega⟩
    have hu := two_zpow_pos (e - 23)
    have hpow : (2 : ℚ) ^ k = (2 : ℚ) ^ (e - 23) * (2 : ℚ) ^ j := by
      rw [hj, zpow_add₀ (by norm_num : (2 : ℚ) ≠ 0), zpow_natCast]
    have hdiv : (m : ℚ) * (2 : ℚ) ^ k / (2 : ℚ) ^ (e - 23) = ((m * 2 ^ j : Int) : ℚ) := by
      rw [hpow]
      push_cast
      field_simp
      ring
    rw [hdiv, roundHalfEven_intCast, hpow]
    push_cast
    ring

theorem f32Round_two_zpow (k : Int) (hk : -149 ≤ k) : f32Round ((2 : ℚ) ^ k) = (2 : ℚ) ^ k := by
  have := f32Round_of_int_mul_pow 1 k (by norm_num) hk
  simpa using this

theorem f32Round_mono_pos {x y : ℚ} (hx : 0 < x) (hxy : x ≤ y) : f32Round x ≤ f32Round y := by
  have hy : 0 < y := lt_of_lt_of_le hx hxy
  have hx0 : x ≠ 0 := ne_of_gt hx
  have hy0 : y ≠ 0 := ne_of_gt hy
  obtain ⟨hx126, hxu, hxl⟩ := f32Exponent_spec x hx0
  obtain ⟨hy126, hyu, hyl⟩ := f32Exponent_spec y hy0
  rw [abs_of_pos hx] at hxu hxl
  rw [abs_of_pos hy] at hyu hyl
  have hle : f32Exponent x ≤ f32Exponent y := by
    rcases hxl with hl | hl
    · have := two_zpow_lt (lt_of_le_of_lt (le_trans hl hxy) hyu)
      omega
    · omega
  rcases lt_or_eq_of_le hle with hlt | heq
  · -- different binades: a power of two lies between the two roundings
    have hux := two_zpow_pos (f32Exponent x - 23)
    have huy := two_zpow_pos (f32Exponent y - 23)
    have hup : f32Round x ≤ (2 : ℚ) ^ (f32Exponent x + 1) := by
      rw [f32Round_eq _ hx0]
      have hm : x / (2 : ℚ) ^ (f32Exponent x - 23) ≤ ((2 ^ 24 : Int) : ℚ) := by
        rw [div_le_iff₀ hux]
        have : ((2 ^ 24 : Int) : ℚ) * (2 : ℚ) ^ (f32Exponent x - 23) =
            (2 : ℚ) ^ (f32Exponent x + 1) := by
          have h24 : ((2 ^ 24 : Int) : ℚ) = (2 : ℚ) ^ (24 : Int) := by norm_num
          rw [h24, ← zpow_add₀ (by norm_num : (2 : ℚ) ≠ 0)]
          congr 1
          ring
        rw [this]
        exact le_of_lt hxu
      have := roundHalfEven_mono hm
      rw [roundHalfEven_intCast] at this
      have h2 : (roundHalfEven (x / (2 : ℚ) ^ (f32Exponent x - 23)) : ℚ) ≤ ((2 ^ 24 : Int) : ℚ) := by
        exact_mod_cast this
      calc (roundHalfEven (x / (2 : ℚ) ^ (f32Exponent x - 23)) : ℚ) * (2 : ℚ) ^ (f32Exponent x - 23)
          ≤ ((2 ^ 24 : Int) : ℚ) * (2 : ℚ) ^ (f32Exponent x - 23) :=
            mul_le_mul_of_nonneg_right h2 (le_of_lt hux)
        _ = (2 : ℚ) ^ (f32Exponent x + 1) := by
          have h24 : ((2 ^ 24 : Int) : ℚ) = (2 : ℚ) ^ (24 : Int) := by norm_num
          rw [h24, ← zpow_add₀ (by norm_num : (2 : ℚ) ≠ 0)]
          congr 1
          ring
    have hyl2 : (2 : ℚ) ^ f32Exponent y ≤ y := by
      rcases hyl with hl | hl
      · exact hl
      · omega
    have hlow : (2 : ℚ) ^ f32Exponent y ≤ f32Round y := by
      rw [f32Round_eq _ hy0]
      have hm : ((2 ^ 23 : Int) : ℚ) ≤ y / (2 : ℚ) ^ (f32Exponent y - 23) := by
        rw [le_div_iff₀ huy]
        have : ((2 ^ 23 : Int) : ℚ) * (2 : ℚ) ^ (f32Exponent y - 23) =
            (2 : ℚ) ^ f32Exponent y := by
          have h23 : ((2 ^ 23 : Int) : ℚ) = (2 : ℚ) ^ (23 : Int) := by norm_num
          rw [h23, ← zpow_add₀ (by norm_num : (2 : ℚ) ≠ 0)]
          congr 1
          ring
        rw [this]
        exact hyl2
      have := roundHalfEven_mono hm
      rw [roundHalfEven_intCast] at this
      have h2 : ((2 ^ 23 : Int) : ℚ) ≤ (roundHalfEven (y / (2 : ℚ) ^ (f32Exponent y - 23)) : ℚ) := by
        exact_mod_cast this
      calc (2 : ℚ) ^ f32Exponent y = ((2 ^ 23 : Int) : ℚ) * (2 : ℚ) ^ (f32Exponent y - 23) := by
            have h23 : ((2 ^ 23 : Int) : ℚ) = (2 : ℚ) ^ (23 : Int) := by norm_num
            rw [h23, ← zpow_add₀ (by norm_num : (2 : ℚ) ≠ 0)]
            congr 1
            ring
        _ ≤ _ := mul_le_mul_of_nonneg_right h2 (le_of_lt huy)
    exact le_trans hup (le_trans (two_zpow_mono (by omega)) hlow)
  · rw [f32Round_eq _ hx0, f32Round_eq _ hy0, heq]
    have hu := two_zpow_pos (f32Exponent y - 23)
    have hm : x / (2 : ℚ) ^ (f32Exponent y - 23) ≤ y / (2 : ℚ) ^ (f32Exponent y - 23) :=
      div_le_div_of_nonneg_right hxy (le_of_lt hu)
    have := roundHalfEven_mono hm
    exact mul_le_mul_of_nonneg_right (by exact_mod_cast this) (le_of_lt hu)

/-- Rounding to binary32 is monotone. -/
theorem f32Round_mono {x y : ℚ} (hxy : x ≤ y) : f32Round x ≤ f32Round y := by
  rcases lt_trichotomy 0 x with hx | hx | hx
  · exact f32Round_mono_pos hx hxy
  · rw [← hx, f32Round_zero]
    exact f32Round_nonneg (by rw [hx]; exact hxy)
  · rcases le_or_lt 0 y with hy | hy
    · exact le_trans (f32Round_nonpos (le_of_lt hx)) (f32Round_nonneg hy)
    · have := f32Round_mono_pos (neg_pos.2 hy) (neg_le_neg hxy)
      rw [f32Round_neg, f32Round_neg] at this
      linarith

/-- Rounding is idempotent: the result of a rounding is a binary32 number. -/
theorem isF32_f32Round (x : ℚ) : IsF32 (f32Round x) := by
  unfold IsF32
  by_cases h0 : x = 0
  · rw [h0, f32Round_zero, f32Round_zero]
  · obtain ⟨h126, hu, _⟩ := f32Exponent_spec x h0
    have hux := two_zpow_pos (f32Exponent x - 23)
    set r := roundHalfEven (x / (2 : ℚ) ^ (f32Exponent x - 23)) with hr
    have hbound : |r| ≤ 2 ^ 24 := by
      have hm : |x / (2 : ℚ) ^ (f32Exponent x - 23)| ≤ ((2 ^ 24 : Int) : ℚ) := by
        rw [abs_div, abs_of_pos hux, div_le_iff₀ hux]
        have : ((2 ^ 24 : Int) : ℚ) * (2 : ℚ) ^ (f32Exponent x - 23) =
            (2 : ℚ) ^ (f32Exponent x + 1) := by
          have h24 : ((2 ^ 24 : Int) : ℚ) = (2 : ℚ) ^ (24 : Int) := by norm_num
          rw [h24, ← zpow_add₀ (by norm_num : (2 : ℚ) ≠ 0)]
          congr 1
          ring
        rw [this]
        exact le_of_lt hu
      rw [abs_le] at hm
      have h1 := roundHalfEven_mono hm.2
      have h2 := roundHalfEven_mono hm.1
      rw [roundHalfEven_intCast] at h1
      rw [← Int.cast_neg, roundHalfEven_intCast] at h2
      rw [abs_le]
      exact ⟨h2, h1⟩
    rw [f32Round_eq _ h0, ← hr]
    rcases lt_or_eq_of_le hbound with hlt | heq
    · exact f32Round_of_int_mul_pow r _ hlt (by omega)
    · -- the significand is 2 ^ 24: the value is a power of two
      have hr2 : (r : ℚ) = (2 : ℚ) ^ (24 : Int) ∨ (r : ℚ) = -(2 : ℚ) ^ (24 : Int) := by
        rcases abs_eq (by norm_num : (0 : Int) ≤ 2 ^ 24) |>.1 heq with h | h
        · left; rw [h]; norm_num
        · right; rw [h]; norm_num
      rcases hr2 with h | h
      · rw [h, ← zpow_add₀ (by norm_num : (2 : ℚ) ≠ 0)]
        exact f32Round_two_zpow _ (by omega)
      · rw [h, neg_mul, f32Round_neg, ← zpow_add₀ (by norm_num : (2 : ℚ) ≠ 0),
          f32Round_two_zpow _ (by omega)]

theorem f32Round_idem (x : ℚ) : f32Round (f32Round x) = f32Round x := isF32_f32Round x

/-- Rounding does not pass a binary32 number: bounds by such numbers survive it. -/
theorem f32Round_le_of_le {x b : ℚ} (hb : IsF32 b) (h : x ≤ b) : f32Round x ≤ b := by
  have := f32Round_mono h
  rwa [hb] at this

theorem f32Round_ge_of_ge {x b : ℚ} (hb : IsF32 b) (h : b ≤ x) : b ≤ f32Round x := by
  have := f32Round_mono h
  rwa [hb] at this

theorem f32Round_error_of_le (x : ℚ) (E : Int) (hE : -126 ≤ E)
    (hx : |x| ≤ (2 : ℚ) ^ (E + 1)) : |f32Round x - x| ≤ (2 : ℚ) ^ (E - 24) := by
  rcases lt_or_eq_of_le hx with h | h
  · exact f32Round_error_of_lt x E hE h
  · have hfix : f32Round x = x := by
      rcases (abs_eq (le_of_lt (two_zpow_pos (E + 1)))).1 h with h1 | h1
      · rw [h1]
        exact f32Round_two_zpow (E + 1) (by omega)
      · rw [h1, f32Round_neg, f32Round_two_zpow (E + 1) (by omega)]
    rw [hfix, sub_self, abs_zero]
    exact le_of_lt (two_zpow_pos _)

/-! ## Ray gun in binary32: the invariant, the lock, the time to overheat -/

theorem isF32_zero : IsF32 0 := f32Round_zero

theorem isF32_hundred : IsF32 100 := by decide!

theorem RayGun.inv32_new : NewRayGun.Inv32 := by
  refine ⟨le_refl _, by decide!, isF32_zero, rfl, rfl, ?_, ?_⟩
  · intro h; cases h
  · intro h
    exact absurd h (by decide!)

theorem RayGun.inv32_Update (r : RayGun) (deltaTime : ℚ) (player : Player) (h : r.Inv32)
    (hdt : 0 ≤ deltaTime) : (r.Update32 deltaTime player).Inv32 := by
  obtain ⟨h0, h100, hf, hr, hc, hov, hfull⟩ := h
  unfold RayGun.Update32
  by_cases hA : r.Active = true
  · have hno : r.IsOverheated = false := by
      cases hO : r.IsOverheated with
      | false => rfl
      | true => exact absurd hA (by simp [(hov hO).1])
    simp only [hA, if_true]
    split_ifs with hge
    · exact ⟨by norm_num, le_refl _, isF32_hundred, hr, hc, fun _ => ⟨rfl, by norm_num⟩,
        fun _ => rfl⟩
    · simp only [ge_iff_le, not_le] at hge
      refine ⟨?_, le_of_lt hge, isF32_f32Round _, hr, hc, ?_, ?_⟩
      · show 0 ≤ f32Round (r.HeatLevel + f32Round (r.HeatRate * deltaTime))
        apply f32Round_nonneg
        have : 0 ≤ f32Round (r.HeatRate * deltaTime) :=
          f32Round_nonneg (by rw [hr]; positivity)
        linarith
      · intro hO
        have : r.IsOverheated = true := hO
        rw [hno] at this
        cases this
      · intro hEq
        exact absurd hEq (ne_of_lt hge)
  · have hA2 : r.Active = false := by simpa using hA
    simp only [hA2, Bool.false_eq_true, if_false]
    have hx : 0 ≤ f32Round (r.CooldownRate * deltaTime) :=
      f32Round_nonneg (by rw [hc]; positivity)
    have hle : f32Round (r.HeatLevel - f32Round (r.CooldownRate * deltaTime)) ≤ r.HeatLevel :=
      f32Round_le_of_le hf (by linarith)
    split_ifs with hle0
    · exact ⟨le_refl _, by norm_num, isF32_zero, hr, hc, fun hO => (by cases hO),
        fun hEq => absurd hEq (by norm_num)⟩
    · simp only [not_le] at hle0
      refine ⟨le_of_lt hle0, le_trans hle h100, isF32_f32Round _, hr, hc,
        fun _ => ⟨hA2, hle0⟩, ?_⟩
      intro hEq
      have h1 : f32Round (r.HeatLevel - f32Round (r.CooldownRate * deltaTime)) = 100 := hEq
      exact hfull (le_antisymm h100 (by rw [← h1]; exact hle))

theorem RayGun.inv32_call (r : RayGun) (c : RayGunCall) (h : r.Inv32) (hc : c.timeOk) :
    (r.call32 c).Inv32 := by
  cases c with
  | OnActivate player =>
    obtain ⟨h0, h100, hf, hr, hcr, hov, hfull⟩ := h
    unfold RayGun.call32 RayGun.OnActivate
    cases hO : r.IsOverheated with
    | false =>
      refine ⟨h0, h100, hf, hr, hcr, ?_, ?_⟩
      · intro h2
        simp [hO] at h2
      · intro h2
        have := hfull (by simpa [hO] using h2)
        rw [hO] at this
        cases this
    | true =>
      simp only [Bool.not_true, Bool.false_eq_true, if_false]
      exact ⟨h0, h100, hf, hr, hcr, hov, hfull⟩
  | OnDeactivate player =>
    obtain ⟨h0, h100, hf, hr, hcr, hov, hfull⟩ := h
    exact ⟨h0, h100, hf, hr, hcr, fun hO => ⟨rfl, (hov hO).2⟩, hfull⟩
  | Update deltaTime player => exact RayGun.inv32_Update r deltaTime player h hc
  | Draw Sqrt player mouseWorld =>
    obtain ⟨h0, h100, hf, hr, hcr, hov, hfull⟩ := h
    unfold RayGun.call32 RayGun.Draw32
    simp only []
    split_ifs
    · exact ⟨h0, h100, hf, hr, hcr, hov, hfull⟩
    · exact ⟨h0, h100, hf, hr, hcr, hov, hfull⟩
    · exact ⟨h0, h100, hf, hr, hcr, hov, hfull⟩

theorem RayGun.inv32_run (calls : List RayGunCall) (r : RayGun) (h : r.Inv32)
    (hc : ∀ c ∈ calls, c.timeOk) : (r.run32 calls).Inv32 := by
  induction calls generalizing r with
  | nil => exact h
  | cons c cs ih =>
    have hstep : (r.call32 c).Inv32 := RayGun.inv32_call r c h (hc c (List.mem_cons_self c cs))
    exact ih (r.call32 c) hstep (fun d hd => hc d (List.mem_cons_of_mem c hd))

theorem RayGun.overheated_call32 (r : RayGun) (c : RayGunCall) (h : r.Inv32)
    (hO : r.IsOverheated = true) :
    (r.call32 c).Active = false ∧
      ((r.call32 c).IsOverheated = true ∨ (r.call32 c).HeatLevel = 0) := by
  have hA : r.Active = false := (h.2.2.2.2.2.1 hO).1
  cases c with
  | OnActivate player => simp [RayGun.call32, RayGun.OnActivate, hO, hA]
  | OnDeactivate player => simp [RayGun.call32, RayGun.OnDeactivate, hO]
  | Update deltaTime player =>
    unfold RayGun.call32 RayGun.Update32
    simp only [hA, Bool.false_eq_true, if_false]
    split_ifs with hle
    · simp [hA]
    · simp [hA, hO]
  | Draw Sqrt player mouseWorld => simp [RayGun.call32, RayGun.Draw32, hO, hA]

theorem RayGun.locked_while_hot32 (calls : List RayGunCall) (r : RayGun) (h : r.Inv32)
    (hlock : r.Active = false) (hO : r.IsOverheated = true ∨ r.HeatLevel = 0)
    (hc : ∀ c ∈ calls, c.timeOk) (n : ℕ)
    (hhot : ∀ m < n, (r.run32 (calls.take m)).HeatLevel ≠ 0) :
    (r.run32 (calls.take n)).Active = false := by
  induction calls generalizing r n with
  | nil => simpa [RayGun.run32] using hlock
  | cons c cs ih =>
    cases n with
    | zero => simpa [RayGun.run32] using hlock
    | succ k =>
      have h0 : r.HeatLevel ≠ 0 := by simpa [RayGun.run32] using hhot 0 (Nat.succ_pos k)
      have hO1 : r.IsOverheated = true := hO.resolve_right h0
      have hstep := RayGun.overheated_call32 r c h hO1
      have hinv := RayGun.inv32_call r c h (hc c (List.mem_cons_self c cs))
      have := ih (r.call32 c) hinv hstep.1 hstep.2
        (fun d hd => hc d (List.mem_cons_of_mem c hd)) k
        (fun m hm => by
          have := hhot (m + 1) (Nat.succ_lt_succ hm)
          simpa [RayGun.run32] using this)
      simpa [RayGun.run32] using this

theorem RayGun.run32_append (r : RayGun) (xs ys : List RayGunCall) :
    r.run32 (xs ++ ys) = (r.run32 xs).run32 ys := by
  simp [RayGun.run32, List.foldl_append]

theorem RayGun.inactive_no_hit32 (r : RayGun) (player : Player) (bounds : Rectangle)
    (h : r.Active = false) : r.CheckRayCollision32 player bounds = false := by
  simp [RayGun.CheckRayCollision32, h]

/-- One frame of held fire on a gun that is not overheated: the heat is the
rounded sum, and the gun overheats when that reaches 100. -/
theorem RayGun.hold32_step (r : RayGun) (player : Player) (dt : ℚ)
    (hO : r.IsOverheated = false) :
    (f32Round (r.HeatLevel + f32Round (r.HeatRate * dt)) < 100 →
        (r.OnActivate player).Update32 dt player =
          { r with Active := true
                   HeatLevel := f32Round (r.HeatLevel + f32Round (r.HeatRate * dt)) }) ∧
      (100 ≤ f32Round (r.HeatLevel + f32Round (r.HeatRate * dt)) →
        (r.OnActivate player).Update32 dt player =
          { r with Active := false, HeatLevel := 100, IsOverheated := true }) := by
  constructor
  · intro h
    have h2 : ¬ (f32Round (r.HeatLevel + f32Round (r.HeatRate * dt)) ≥ 100) := not_le.2 h
    simp [RayGun.OnActivate, RayGun.Update32, hO, h2]
  · intro h
    have h2 : f32Round (r.HeatLevel + f32Round (r.HeatRate * dt)) ≥ 100 := h
    simp [RayGun.OnActivate, RayGun.Update32, hO, h2]

/-- The rounding error of one frame of heating, for a frame time of at most
1/8 s and a heat below 100: at most `2 ^ (-17)`. -/
theorem heat_step_error (h dt : ℚ) (h0 : 0 ≤ h) (h100 : h ≤ 100) (hdt0 : 0 ≤ dt)
    (hdt : dt ≤ 1 / 8) :
    |f32Round (h + f32Round (40 * dt)) - (h + 40 * dt)| ≤ (2 : ℚ) ^ (-17 : Int) := by
  have e1 : |f32Round (40 * dt) - 40 * dt| ≤ (2 : ℚ) ^ (-22 : Int) := by
    have := f32Round_error_of_lt (40 * dt) 2 (by norm_num)
      (by rw [abs_of_nonneg (by positivity)]; norm_num; linarith)
    norm_num at this ⊢
    exact this
  have hx0 : 0 ≤ f32Round (40 * dt) := f32Round_nonneg (by positivity)
  have hx5 : f32Round (40 * dt) ≤ 6 := by
    have := (abs_le.1 e1).2
    norm_num at this
    linarith
  have e2 : |f32Round (h + f32Round (40 * dt)) - (h + f32Round (40 * dt))| ≤
      (2 : ℚ) ^ (-18 : Int) := by
    have := f32Round_error_of_lt (h + f32Round (40 * dt)) 6 (by norm_num)
      (by rw [abs_of_nonneg (by linarith)]; norm_num; linarith)
    norm_num at this ⊢
    exact this
  have e1' := abs_le.1 e1
  have e2' := abs_le.1 e2
  rw [abs_le]
  norm_num at e1' e2' ⊢
  constructor <;> linarith

/-- Held fire from a gun that is not overheated, frame times of at most 1/8 s:
while `40 * t` plus the rounding allowance stays below 100 the gun does not
overheat and its heat is `40 * t` up to `2 ^ (-17)` per frame. -/
theorem RayGun.hold32_heats (player : Player) (dts : List ℚ) (r : RayGun)
    (hO : r.IsOverheated = false) (hr : r.HeatRate = 40) (h0 : 0 ≤ r.HeatLevel)
    (hdt : ∀ dt ∈ dts, 0 ≤ dt ∧ dt ≤ 1 / 8)
    (hsum : r.HeatLevel + 40 * dts.sum + dts.length * (2 : ℚ) ^ (-17 : Int) < 100) :
    |(r.run32 (holdCalls player dts)).HeatLevel - (r.HeatLevel + 40 * dts.sum)| ≤
        dts.length * (2 : ℚ) ^ (-17 : Int) ∧
      (r.run32 (holdCalls player dts)).IsOverheated = false ∧
      (r.run32 (holdCalls player dts)).HeatRate = 40 ∧
      0 ≤ (r.run32 (holdCalls player dts)).HeatLevel ∧
      (r.run32 (holdCalls player dts)).HeatLevel < 100 := by
  induction dts generalizing r with
  | nil =>
    simp only [holdCalls, RayGun.run32, List.foldl_nil, List.sum_nil, List.length_nil,
      Nat.cast_zero, zero_mul, mul_zero, add_zero, sub_self, abs_zero, le_refl, true_and]
    simp only [List.sum_nil, List.length_nil, Nat.cast_zero, zero_mul, mul_zero, add_zero] at hsum
    exact ⟨hO, hr, h0, hsum⟩
  | cons d ds ih =>
    have hd := hdt d (List.mem_cons_self d ds)
    have hds : ∀ dt ∈ ds, 0 ≤ dt ∧ dt ≤ 1 / 8 := fun dt h => hdt dt (List.mem_cons_of_mem d h)
    have hs : 0 ≤ ds.sum := List.sum_nonneg (fun x hx => (hds x hx).1)
    have hn : (0 : ℚ) ≤ (ds.length : ℚ) * (2 : ℚ) ^ (-17 : Int) := by positivity
    simp only [List.sum_cons, List.length_cons, Nat.cast_add, Nat.cast_one] at hsum
    have hε : (0 : ℚ) < (2 : ℚ) ^ (-17 : Int) := two_zpow_pos _
    have hlt100 : r.HeatLevel ≤ 100 := by linarith [hd.1]
    have herr := heat_step_error r.HeatLevel d h0 hlt100 hd.1 hd.2
    have herr2 := abs_le.1 herr
    have hlt : f32Round (r.HeatLevel + f32Round (r.HeatRate * d)) < 100 := by
      rw [hr]
      linarith [herr2.2]
    have hstep := (RayGun.hold32_step r player d hO).1 hlt
    have hnn : 0 ≤ f32Round (r.HeatLevel + f32Round (r.HeatRate * d)) := by
      apply f32Round_nonneg
      have : 0 ≤ f32Round (r.HeatRate * d) := f32Round_nonneg (by rw [hr]; linarith [hd.1])
      linarith
    have key := ih ({ r with Active := true
                             HeatLevel := f32Round (r.HeatLevel + f32Round (r.HeatRate * d)) })
      hO hr hnn hds
      (by
        show f32Round (r.HeatLevel + f32Round (r.HeatRate * d)) + 40 * ds.sum +
          (ds.length : ℚ) * (2 : ℚ) ^ (-17 : Int) < 100
        rw [hr]
        linarith [herr2.2])
    have hrun : r.run32 (holdCalls player (d :: ds)) =
        ({ r with Active := true
                  HeatLevel := f32Round (r.HeatLevel + f32Round (r.HeatRate * d)) } :
          RayGun).run32 (holdCalls player ds) := by
      simp only [holdCalls, RayGun.run32, List.foldl_cons, RayGun.call32, hstep]
    rw [hrun]
    refine ⟨?_, key.2.1, key.2.2.1, key.2.2.2.1, key.2.2.2.2⟩
    have k1 := abs_le.1 key.1
    simp only [List.sum_cons, List.length_cons, Nat.cast_add, Nat.cast_one]
    have hk : ({ r with Active := true
                        HeatLevel := f32Round (r.HeatLevel + f32Round (r.HeatRate * d)) } :
        RayGun).HeatLevel = f32Round (r.HeatLevel + f32Round (40 * d)) := by
      rw [hr]
    rw [hk] at k1
    rw [abs_le]
    constructor <;> linarith [k1.1, k1.2, herr2.1, herr2.2]

/-- Held fire: when `40 * t` minus the rounding allowance has reached 100 with
the last frame, and had not come near 100 before it, that frame overheats the
gun. -/
theorem RayGun.hold32_overheats (player : Player) (dts : List ℚ) (dt : ℚ) (r : RayGun)
    (hO : r.IsOverheated = false) (hr : r.HeatRate = 40) (h0 : 0 ≤ r.HeatLevel)
    (hdts : ∀ d ∈ dts, 0 ≤ d ∧ d ≤ 1 / 8) (hdt : 0 ≤ dt ∧ dt ≤ 1 / 8)
    (hsum : r.HeatLevel + 40 * dts.sum + dts.length * (2 : ℚ) ^ (-17 : Int) < 100)
    (hcross : 100 + (dts.length + 1) * (2 : ℚ) ^ (-17 : Int) ≤
      r.HeatLevel + 40 * (dts.sum + dt)) :
    (r.run32 (holdCalls player (dts ++ [dt]))).IsOverheated = true ∧
      (r.run32 (holdCalls player (dts ++ [dt]))).HeatLevel = 100 ∧
      (r.run32 (holdCalls player (dts ++ [dt]))).Active = false := by
  obtain ⟨hh, hO2, hr2, h02, h1002⟩ := RayGun.hold32_heats player dts r hO hr h0 hdts hsum
  have hh2 := abs_le.1 hh
  have herr := abs_le.1
    (heat_step_error (r.run32 (holdCalls player dts)).HeatLevel dt h02 (le_of_lt h1002) hdt.1
      hdt.2)
  have hge : 100 ≤ f32Round ((r.run32 (holdCalls player dts)).HeatLevel +
      f32Round ((r.run32 (holdCalls player dts)).HeatRate * dt)) := by
    rw [hr2]
    linarith [hh2.1, herr.1]
  have hstep := (RayGun.hold32_step (r.run32 (holdCalls player dts)) player dt hO2).2 hge
  have hrun : r.run32 (holdCalls player (dts ++ [dt])) =
      ((r.run32 (holdCalls player dts)).OnActivate player).Update32 dt player := by
    rw [holdCalls_append, RayGun.run32_append]
    rfl
  rw [hrun, hstep]
  exact ⟨rfl, rfl, rfl⟩

/-- Held fire, whatever the frame times: as long as the rounded heat sum stays
below 100 after every frame, the heat is that sum and the gun is not
overheated. -/
theorem RayGun.hold32_sum (player : Player) (dts : List ℚ) (r : RayGun)
    (hO : r.IsOverheated = false)
    (hlow : ∀ k, k < dts.length →
      heatSum32 r.HeatRate r.HeatLevel (dts.take (k + 1)) < 100) :
    (r.run32 (holdCalls player dts)).HeatLevel = heatSum32 r.HeatRate r.HeatLevel dts ∧
      (r.run32 (holdCalls player dts)).IsOverheated = false ∧
      (r.run32 (holdCalls player dts)).HeatRate = r.HeatRate := by
  induction dts generalizing r with
  | nil => exact ⟨rfl, hO, rfl⟩
  | cons d ds ih =>
    have h1 : f32Round (r.HeatLevel + f32Round (r.HeatRate * d)) < 100 := by
      have := hlow 0 (by simp)
      simpa [heatSum32] using this
    have hstep := (RayGun.hold32_step r player d hO).1 h1
    have hrun : r.run32 (holdCalls player (d :: ds)) =
        ({ r with Active := true
                  HeatLevel := f32Round (r.HeatLevel + f32Round (r.HeatRate * d)) } :
          RayGun).run32 (holdCalls player ds) := by
      simp only [holdCalls, RayGun.run32, List.foldl_cons, RayGun.call32, hstep]
    have key := ih ({ r with Active := true
                             HeatLevel := f32Round (r.HeatLevel + f32Round (r.HeatRate * d)) })
      hO
      (fun k hk => by
        have := hlow (k + 1) (by simp; omega)
        simpa [heatSum32] using this)
    rw [hrun]
    exact ⟨by rw [key.1]; rfl, key.2.1, key.2.2⟩

/-- C2 as stated fails in binary32: at 60 frames per second the fire button is
held for 150 frames, which total more than 2.5 s, and the gun is not
overheated: its heat is below 100 and the beam is still on.  It overheats
with the 151st frame. -/
theorem rayGun_overheats_late :
    5 / 2 ≤ (List.replicate 150 frame60).sum ∧
      (NewRayGun.run32 (holdCalls playerAtOrigin (List.replicate 150 frame60))).IsOverheated =
        false ∧
      (NewRayGun.run32 (holdCalls playerAtOrigin (List.replicate 150 frame60))).HeatLevel <
        100 ∧
      (NewRayGun.run32 (holdCalls playerAtOrigin (List.replicate 150 frame60))).IsActive =
        true ∧
      (NewRayGun.run32 (holdCalls playerAtOrigin (List.replicate 151 frame60))).IsOverheated =
        true := by
  refine ⟨by decide!, by decide!, by decide!, by decide!, by decide!⟩

/-- C2 amended, in binary32: (1) once an `Update` call of a reachable ray gun has
left the heat at 100, `IsActive()` is false, and the hit test is false for
every target, after that call and after every later call up to and including
the first call that brings the heat back to 0; (2) in every reachable state an
overheated gun is inactive with positive heat; (3) holding the fire button
from `NewRayGun`, as long as the heat sum, rounded after every frame, stays
below 100 the heat is that sum and the gun is not overheated; (4) for frames of
at most 1/8 s the heat after `n` frames is `40 * t` up to `n * 2^(-17)`, the
gun is not overheated while `40 * t + n * 2^(-17) < 100`, and (5) the frame
with which `40 * t` reaches `100 + n * 2^(-17)` leaves it overheated at heat
100 and inactive; (6) an overheated reachable gun hits no target and the
resolver applies no damage with it. -/
theorem rayGun_overheat_lock :
    (∀ (pre : List RayGunCall) (deltaTime : ℚ) (player : Player) (calls : List RayGunCall)
        (n : ℕ), (∀ c ∈ pre, c.timeOk) → 0 ≤ deltaTime → (∀ c ∈ calls, c.timeOk) →
        ((NewRayGun.run32 pre).Update32 deltaTime player).HeatLevel = 100 →
        (∀ m < n,
          (((NewRayGun.run32 pre).Update32 deltaTime player).run32
            (calls.take m)).HeatLevel ≠ 0) →
        (((NewRayGun.run32 pre).Update32 deltaTime player).run32 (calls.take n)).IsActive =
            false ∧
          ∀ (p : Player) (bounds : Rectangle),
            (((NewRayGun.run32 pre).Update32 deltaTime player).run32
              (calls.take n)).CheckRayCollision32 p bounds = false) ∧
    (∀ calls : List RayGunCall, (∀ c ∈ calls, c.timeOk) →
        (NewRayGun.run32 calls).IsOverheated = true →
        (NewRayGun.run32 calls).Active = false ∧ 0 < (NewRayGun.run32 calls).HeatLevel) ∧
    (∀ (player : Player) (dts : List ℚ),
        (∀ k, k < dts.length → heatSum32 40 0 (dts.take (k + 1)) < 100) →
        (NewRayGun.run32 (holdCalls player dts)).HeatLevel = heatSum32 40 0 dts ∧
          (NewRayGun.run32 (holdCalls player dts)).IsOverheated = false) ∧
    (∀ (player : Player) (dts : List ℚ), (∀ dt ∈ dts, 0 ≤ dt ∧ dt ≤ 1 / 8) →
        40 * dts.sum + dts.length * (2 : ℚ) ^ (-17 : Int) < 100 →
        |(NewRayGun.run32 (holdCalls player dts)).HeatLevel - 40 * dts.sum| ≤
            dts.length * (2 : ℚ) ^ (-17 : Int) ∧
          (NewRayGun.run32 (holdCalls player dts)).IsOverheated = false) ∧
    (∀ (player : Player) (dts : List ℚ) (dt : ℚ), (∀ d ∈ dts, 0 ≤ d ∧ d ≤ 1 / 8) →
        0 ≤ dt → dt ≤ 1 / 8 →
        40 * dts.sum + dts.length * (2 : ℚ) ^ (-17 : Int) < 100 →
        100 + (dts.length + 1) * (2 : ℚ) ^ (-17 : Int) ≤ 40 * (dts.sum + dt) →
        (NewRayGun.run32 (holdCalls player (dts ++ [dt]))).IsOverheated = true ∧
          (NewRayGun.run32 (holdCalls player (dts ++ [dt]))).HeatLevel = 100 ∧
          (NewRayGun.run32 (holdCalls player (dts ++ [dt]))).IsActive = false) ∧
    (∀ calls : List RayGunCall, (∀ c ∈ calls, c.timeOk) →
        (NewRayGun.run32 calls).IsOverheated = true →
        ∀ (g : Game) (p : Player) (enemy : Enemy),
          (NewRayGun.run32 calls).CheckRayCollision32 p enemy.GetBounds32 = false ∧
            g.weaponDamage32 p (Weapon.rayGun (NewRayGun.run32 calls)) enemy = (g, enemy)) := by
  refine ⟨?_, ?_, ?_, ?_, ?_, ?_⟩
  · intro pre deltaTime player calls n hpre hdt hcalls h100 hhot
    have hinv : ((NewRayGun.run32 pre).Update32 deltaTime player).Inv32 :=
      RayGun.inv32_Update _ _ _ (RayGun.inv32_run pre NewRayGun RayGun.inv32_new hpre) hdt
    have hO := hinv.2.2.2.2.2.2 h100
    have hA := (hinv.2.2.2.2.2.1 hO).1
    have hlock := RayGun.locked_while_hot32 calls _ hinv hA (Or.inl hO) hcalls n hhot
    exact ⟨hlock, fun p bounds => RayGun.inactive_no_hit32 _ p bounds hlock⟩
  · intro calls hcalls hO
    exact (RayGun.inv32_run calls NewRayGun RayGun.inv32_new hcalls).2.2.2.2.2.1 hO
  · intro player dts hlow
    have := RayGun.hold32_sum player dts NewRayGun rfl hlow
    exact ⟨this.1, this.2.1⟩
  · intro player dts hdts hsum
    have := RayGun.hold32_heats player dts NewRayGun rfl rfl (le_refl _) hdts
      (by show (0 : ℚ) + 40 * dts.sum + _ < 100; linarith)
    refine ⟨?_, this.2.1⟩
    have h1 := this.1
    have e : (NewRayGun.HeatLevel + 40 * dts.sum) = 40 * dts.sum := by
      show (0 : ℚ) + 40 * dts.sum = 40 * dts.sum
      ring
    rw [e] at h1
    exact h1
  · intro player dts dt hdts hdt0 hdt1 hsum hcross
    exact RayGun.hold32_overheats player dts dt NewRayGun rfl rfl (le_refl _) hdts ⟨hdt0, hdt1⟩
      (by show (0 : ℚ) + 40 * dts.sum + _ < 100; linarith)
      (by show _ ≤ (0 : ℚ) + 40 * (dts.sum + dt); linarith)
  · intro calls hcalls hO g p enemy
    have hA := ((RayGun.inv32_run calls NewRayGun RayGun.inv32_new hcalls).2.2.2.2.2.1 hO).1
    exact ⟨RayGun.inactive_no_hit32 _ p _ hA, by simp [Game.weaponDamage32, hA]⟩

/-- Witness of C2 amended: frames of 15/128 s; after 21 frames (2.46 s) the gun
is not overheated, the 22nd frame (2.58 s) overheats it. -/
theorem rayGun_overheat_lock_witness :
    (NewRayGun.run32 (holdCalls playerAtOrigin (List.replicate 21 (15 / 128)))).IsOverheated =
        false ∧
      (NewRayGun.run32 (holdCalls playerAtOrigin
        (List.replicate 21 (15 / 128) ++ [15 / 128]))).IsOverheated = true ∧
      (NewRayGun.run32 (holdCalls playerAtOrigin
        (List.replicate 21 (15 / 128) ++ [15 / 128]))).HeatLevel = 100 ∧
      (NewRayGun.run32 (holdCalls playerAtOrigin
        (List.replicate 21 (15 / 128) ++ [15 / 128]))).IsActive = false :=
  ⟨(rayGun_overheat_lock.2.2.2.1 playerAtOrigin (List.replicate 21 (15 / 128))
      (by decide!) (by decide!)).2,
    rayGun_overheat_lock.2.2.2.2.1 playerAtOrigin (List.replicate 21 (15 / 128)) (15 / 128)
      (by decide!) (by decide!) (by decide!) (by decide!) (by decide!)⟩

/-! ## Ray gun in binary32: the sampled points of the beam -/

theorem RayGun.sampleLoop32_step (r : RayGun) (playerCenter : Vector2) (bounds : Rectangle)
    (fuel : Nat) (t : ℚ) (h : t ≤ 1) :
    RayGun.sampleLoop32 r playerCenter bounds (fuel + 1) t =
      if CheckCollisionPointRec32
          { X := f32Round (playerCenter.X + f32Round (r.rayDirection.X * t))
            Y := f32Round (playerCenter.Y + f32Round (r.rayDirection.Y * t)) } bounds = true then
        some true
      else RayGun.sampleLoop32 r playerCenter bounds fuel (f32Round (t + 13421773 / 134217728)) := by
  simp only [RayGun.sampleLoop32, h, if_true, f32_tenth]

theorem RayGun.sampleLoop32_stop (r : RayGun) (playerCenter : Vector2) (bounds : Rectangle)
    (fuel : Nat) (t : ℚ) (h : ¬ t ≤ 1) :
    RayGun.sampleLoop32 r playerCenter bounds (fuel + 1) t = some false := by
  simp only [RayGun.sampleLoop32, h, if_false]

/-- The sampling loop in binary32 ends by its own test after ten iterations,
as `RayGun.sampleLoop` does: it tests the points at the ten counter values of
`raySampleTs` and never reaches the bound of 16 iterations. -/
theorem RayGun.sampleLoop32_eq (r : RayGun) (playerCenter : Vector2) (bounds : Rectangle) :
    RayGun.sampleLoop32 r playerCenter bounds 16 0 =
      some (raySampleTs.any fun t =>
        CheckCollisionPointRec32
          { X := f32Round (playerCenter.X + f32Round (r.rayDirection.X * t))
            Y := f32Round (playerCenter.Y + f32Round (r.rayDirection.Y * t)) } bounds) := by
  rw [RayGun.sampleLoop32_step r playerCenter bounds 15 0 (by norm_num), f32_step1,
    RayGun.sampleLoop32_step r playerCenter bounds 14 _ (by norm_num), f32_step2,
    RayGun.sampleLoop32_step r playerCenter bounds 13 _ (by norm_num), f32_step3,
    RayGun.sampleLoop32_step r playerCenter bounds 12 _ (by norm_num), f32_step4,
    RayGun.sampleLoop32_step r playerCenter bounds 11 _ (by norm_num), f32_step5,
    RayGun.sampleLoop32_step r playerCenter bounds 10 _ (by norm_num), f32_step6,
    RayGun.sampleLoop32_step r playerCenter bounds 9 _ (by norm_num), f32_step7,
    RayGun.sampleLoop32_step r playerCenter bounds 8 _ (by norm_num), f32_step8,
    RayGun.sampleLoop32_step r playerCenter bounds 7 _ (by norm_num), f32_step9,
    RayGun.sampleLoop32_step r playerCenter bounds 6 _ (by norm_num), f32_step10,
    RayGun.sampleLoop32_stop r playerCenter bounds 5 _ (by norm_num)]
  simp only [ite_some_or, raySampleTs, List.any_cons, List.any_nil]

/-! ## Pistol in binary32: the pool of bullets -/

theorem isF32_half : IsF32 (1 / 2) := by decide!

theorem Pistol.Update32_Bullets (p : Pistol) (dt : ℚ) (player : Player) :
    (p.Update32 dt player).Bullets = p.Bullets.filterMap (Bullet.flight32 dt) := by
  have hb : (if p.CooldownTimer > 0 then
      ({ p with CooldownTimer := f32Round (p.CooldownTimer - dt) } : Pistol) else p).Bullets =
      p.Bullets := by
    split_ifs <;> rfl
  unfold Pistol.Update32
  simp only [hb]
  have := List.foldl_keep_eq_filterMap (fun b : Bullet => b.step32 dt)
    (fun b : Bullet => b.LifeTimer > 0) p.Bullets []
  simp only [List.nil_append] at this
  exact this

theorem Pistol.Update32_CooldownTimer (p : Pistol) (dt : ℚ) (player : Player) :
    (p.Update32 dt player).CooldownTimer =
      if p.CooldownTimer > 0 then f32Round (p.CooldownTimer - dt) else p.CooldownTimer := by
  unfold Pistol.Update32
  simp only []
  split_ifs <;> rfl

theorem Pistol.Update32_ShootCooldown (p : Pistol) (dt : ℚ) (player : Player) :
    (p.Update32 dt player).ShootCooldown = p.ShootCooldown := by
  unfold Pistol.Update32
  simp only []
  split_ifs <;> rfl

theorem Pistol.OnActivate32_fire (p : Pistol) (Sqrt : ℚ → ℚ) (player : Player)
    (mouseWorld : Vector2) (h : p.CooldownTimer ≤ 0) :
    p.OnActivate32 Sqrt player mouseWorld =
      { p with
        Bullets := p.Bullets ++
          [{ Position := player.center32
             Direction := Pistol.aimDirection32 Sqrt player mouseWorld
             Speed := 240
             LifeTimer := 1 / 2 }]
        CooldownTimer := p.ShootCooldown } := by
  unfold Pistol.OnActivate32
  rw [if_pos h]

theorem Pistol.OnActivate32_wait (p : Pistol) (Sqrt : ℚ → ℚ) (player : Player)
    (mouseWorld : Vector2) (h : 0 < p.CooldownTimer) :
    p.OnActivate32 Sqrt player mouseWorld = p := by
  unfold Pistol.OnActivate32
  rw [if_neg (not_le.2 h)]

/-- What holds of the lifetime of a bullet of the pool. -/
theorem Bullet.step32_life (b : Bullet) (dt : ℚ) (hdt : 0 ≤ dt)
    (h : 0 < b.LifeTimer ∧ b.LifeTimer ≤ 1 / 2 ∧ IsF32 b.LifeTimer)
    (hpos : 0 < (b.step32 dt).LifeTimer) :
    (b.step32 dt).LifeTimer ≤ b.LifeTimer ∧ (b.step32 dt).LifeTimer ≤ 1 / 2 ∧
      IsF32 (b.step32 dt).LifeTimer ∧
      ((2 : ℚ) ^ (-26 : Int) < dt → (b.step32 dt).LifeTimer < b.LifeTimer) := by
  have hL : (b.step32 dt).LifeTimer = f32Round (b.LifeTimer - dt) := rfl
  rw [hL] at hpos ⊢
  have hle : f32Round (b.LifeTimer - dt) ≤ b.LifeTimer := f32Round_le_of_le h.2.2 (by linarith)
  refine ⟨hle, le_trans hle h.2.1, isF32_f32Round _, ?_⟩
  intro hbig
  have hx0 : 0 ≤ b.LifeTimer - dt := by
    by_contra hneg
    have := f32Round_nonpos (le_of_lt (not_le.1 hneg))
    linarith
  have herr := f32Round_error_of_lt (b.LifeTimer - dt) (-2) (by norm_num)
    (by
      rw [abs_of_nonneg hx0]
      have : (2 : ℚ) ^ (-26 : Int) > 0 := two_zpow_pos _
      norm_num
      linarith [h.2.1])
  have herr2 := (abs_le.1 herr).2
  norm_num at herr2 hbig
  linarith

theorem Pistol.live32_call (p : Pistol) (c : PistolCall) (hc : c.timeOk)
    (h : ∀ b ∈ p.Bullets, 0 < b.LifeTimer ∧ b.LifeTimer ≤ 1 / 2 ∧ IsF32 b.LifeTimer) :
    ∀ b ∈ (p.call32 c).Bullets, 0 < b.LifeTimer ∧ b.LifeTimer ≤ 1 / 2 ∧ IsF32 b.LifeTimer := by
  cases c with
  | OnActivate Sqrt player mouseWorld =>
    intro b hb
    by_cases hcd : p.CooldownTimer ≤ 0
    · have hfire := Pistol.OnActivate32_fire p Sqrt player mouseWorld hcd
      simp only [Pistol.call32, hfire, List.mem_append, List.mem_singleton] at hb
      rcases hb with hb | rfl
      · exact h b hb
      · exact ⟨by norm_num, le_refl _, isF32_half⟩
    · rw [show p.call32 (PistolCall.OnActivate Sqrt player mouseWorld) = p from
        Pistol.OnActivate32_wait p Sqrt player mouseWorld (not_le.1 hcd)] at hb
      exact h b hb
  | OnDeactivate player => exact h
  | Update deltaTime player =>
    intro b1 hb1
    have hdt : 0 ≤ deltaTime := hc
    simp only [Pistol.call32, Pistol.Update32_Bullets, List.mem_filterMap] at hb1
    obtain ⟨b, hb, hfl⟩ := hb1
    unfold Bullet.flight32 at hfl
    split_ifs at hfl with hpos
    cases hfl
    have := Bullet.step32_life b deltaTime hdt (h b hb) hpos
    exact ⟨hpos, this.2.1, this.2.2.1⟩

theorem Pistol.live32_run (calls : List PistolCall) (p : Pistol)
    (hc : ∀ c ∈ calls, c.timeOk)
    (h : ∀ b ∈ p.Bullets, 0 < b.LifeTimer ∧ b.LifeTimer ≤ 1 / 2 ∧ IsF32 b.LifeTimer) :
    ∀ b ∈ (p.run32 calls).Bullets, 0 < b.LifeTimer ∧ b.LifeTimer ≤ 1 / 2 ∧ IsF32 b.LifeTimer := by
  induction calls generalizing p with
  | nil => exact h
  | cons c cs ih =>
    exact ih (p.call32 c) (fun d hd => hc d (List.mem_cons_of_mem c hd))
      (Pistol.live32_call p c (hc c (List.mem_cons_self c cs)) h)

theorem Pistol.positive32_call (p : Pistol) (c : PistolCall)
    (h : ∀ b ∈ p.Bullets, 0 < b.LifeTimer) : ∀ b ∈ (p.call32 c).Bullets, 0 < b.LifeTimer := by
  cases c with
  | OnActivate Sqrt player mouseWorld =>
    intro b hb
    by_cases hcd : p.CooldownTimer ≤ 0
    · have hfire := Pistol.OnActivate32_fire p Sqrt player mouseWorld hcd
      simp only [Pistol.call32, hfire, List.mem_append, List.mem_singleton] at hb
      rcases hb with hb | rfl
      · exact h b hb
      · norm_num
    · rw [show p.call32 (PistolCall.OnActivate Sqrt player mouseWorld) = p from
        Pistol.OnActivate32_wait p Sqrt player mouseWorld (not_le.1 hcd)] at hb
      exact h b hb
  | OnDeactivate player => exact h
  | Update deltaTime player =>
    intro b1 hb1
    simp only [Pistol.call32, Pistol.Update32_Bullets, List.mem_filterMap] at hb1
    obtain ⟨b, _, hfl⟩ := hb1
    unfold Bullet.flight32 at hfl
    split_ifs at hfl with hpos
    cases hfl
    exact hpos

theorem Pistol.positive32_run (calls : List PistolCall) (p : Pistol)
    (h : ∀ b ∈ p.Bullets, 0 < b.LifeTimer) :
    ∀ b ∈ (p.run32 calls).Bullets, 0 < b.LifeTimer := by
  induction calls generalizing p with
  | nil => exact h
  | cons c cs ih => exact ih (p.call32 c) (Pistol.positive32_call p c h)

theorem Pistol.CheckBulletCollision32_iff (p : Pistol) (bounds : Rectangle) :
    p.CheckBulletCollision32 bounds = true ↔
      ∃ b ∈ p.Bullets, CheckCollisionRecs32 b.box32 bounds = true := by
  simp [Pistol.CheckBulletCollision32, Bullet.box32, List.any_eq_true]

/-- C19 as stated fails in binary32: a bullet just spawned has lifetime 0.5; an
`Update` with the positive frame time `2^-30` s leaves it in the pool with
lifetime 0.5, not a smaller one, because `0.5 − 2^-30` rounds to 0.5. -/
theorem bullet_lifetime_stalls :
    pistolAfterShot32.Bullets.map Bullet.LifeTimer = [1 / 2] ∧
      (0 : ℚ) < 1 / 2 ^ 30 ∧
      (pistolAfterShot32.Update32 (1 / 2 ^ 30) playerAtOrigin).Bullets.map Bullet.LifeTimer =
        [1 / 2] := by
  refine ⟨by decide!, by norm_num, by decide!⟩

/-- C19 amended, in binary32: in every state reachable from `NewPistol` by
`OnActivate`, `OnDeactivate` and `Update` calls every bullet of the pool has a
positive lifetime (at most 0.5 when no frame time is negative).  One
`Update(dt)` maps the pool to the bullets whose rounded lifetime stays
positive, each moved and aged, in order.  In a reachable state, with `dt ≥ 0`,
every bullet of the new pool is an old one with a lifetime that is not larger
and still positive, and strictly smaller when `dt > 2^-26` s; a bullet whose
lifetime would be 0 or less is not in the new pool, and the hit test after the
`Update` sees only bullets whose lifetime stayed positive. -/
theorem pistol_pool_live :
    (∀ calls : List PistolCall, ∀ b ∈ (NewPistol32.run32 calls).Bullets, 0 < b.LifeTimer) ∧
      (∀ calls : List PistolCall, (∀ c ∈ calls, c.timeOk) →
        ∀ b ∈ (NewPistol32.run32 calls).Bullets, b.LifeTimer ≤ 1 / 2) ∧
      (∀ (p : Pistol) (dt : ℚ) (player : Player),
        (p.Update32 dt player).Bullets = p.Bullets.filterMap (Bullet.flight32 dt)) ∧
      (∀ (calls : List PistolCall) (dt : ℚ) (player : Player), (∀ c ∈ calls, c.timeOk) →
        0 ≤ dt →
        ∀ b1 ∈ ((NewPistol32.run32 calls).Update32 dt player).Bullets,
          ∃ b ∈ (NewPistol32.run32 calls).Bullets,
            b1 = b.step32 dt ∧ b1.LifeTimer ≤ b.LifeTimer ∧ 0 < b1.LifeTimer ∧
              ((2 : ℚ) ^ (-26 : Int) < dt → b1.LifeTimer < b.LifeTimer)) ∧
      (∀ (p : Pistol) (dt : ℚ) (player : Player),
        ∀ b ∈ p.Bullets, (b.step32 dt).LifeTimer ≤ 0 → Bullet.flight32 dt b = none) ∧
      (∀ (p : Pistol) (dt : ℚ) (player : Player) (bounds : Rectangle),
        (p.Update32 dt player).CheckBulletCollision32 bounds = true →
          ∃ b ∈ p.Bullets, 0 < (b.step32 dt).LifeTimer ∧
            CheckCollisionRecs32 (b.step32 dt).box32 bounds = true) := by
  refine ⟨?_, ?_, ?_, ?_, ?_, ?_⟩
  · intro calls
    exact Pistol.positive32_run calls NewPistol32 (by simp [NewPistol32])
  · intro calls hc b hb
    exact (Pistol.live32_run calls NewPistol32 hc (by simp [NewPistol32]) b hb).2.1
  · intro p dt player
    exact Pistol.Update32_Bullets p dt player
  · intro calls dt player hc hdt b1 hb1
    rw [Pistol.Update32_Bullets, List.mem_filterMap] at hb1
    obtain ⟨b, hb, hfl⟩ := hb1
    unfold Bullet.flight32 at hfl
    split_ifs at hfl with hpos
    cases hfl
    have hlive := Pistol.live32_run calls NewPistol32 hc (by simp [NewPistol32]) b hb
    have := Bullet.step32_life b dt hdt hlive hpos
    exact ⟨b, hb, rfl, this.1, hpos, this.2.2.2⟩
  · intro p dt player b _ hle
    unfold Bullet.flight32
    rw [if_neg (not_lt.2 hle)]
  · intro p dt player bounds hhit
    rw [Pistol.CheckBulletCollision32_iff] at hhit
    obtain ⟨b1, hb1, hcol⟩ := hhit
    rw [Pistol.Update32_Bullets, List.mem_filterMap] at hb1
    obtain ⟨b, hb, hfl⟩ := hb1
    unfold Bullet.flight32 at hfl
    split_ifs at hfl with hpos
    cases hfl
    exact ⟨b, hb, hpos, hcol⟩

/-! ## Cooldown clocks in binary32 -/

/-- One frame of a cooldown clock `if c > 0 { c -= dt }` in binary32, for an
interval `C` of at most `2 ^ (E + 1)`: the clock stays a binary32 number of at most
`C`; while it is positive it is `C` less the elapsed time up to `2 ^ (E - 24)`
per frame; and when it has run out, the elapsed time has reached `C` up to that
allowance. -/
theorem cooldown_step32 (E : Int) (hE : -126 ≤ E) (C t c dt : ℚ) (n : ℕ) (hdt : 0 ≤ dt)
    (hCB : C ≤ (2 : ℚ) ^ (E + 1)) (hf : IsF32 c) (hcC : c ≤ C)
    (h1 : 0 < c → |c - (C - t)| ≤ n * (2 : ℚ) ^ (E - 24))
    (h2 : c ≤ 0 → C ≤ t + n * (2 : ℚ) ^ (E - 24)) :
    IsF32 (if c > 0 then f32Round (c - dt) else c) ∧
      (if c > 0 then f32Round (c - dt) else c) ≤ C ∧
      (0 < (if c > 0 then f32Round (c - dt) else c) →
        |(if c > 0 then f32Round (c - dt) else c) - (C - (t + dt))| ≤
          ((n + 1 : ℕ) : ℚ) * (2 : ℚ) ^ (E - 24)) ∧
      ((if c > 0 then f32Round (c - dt) else c) ≤ 0 →
        C ≤ (t + dt) + ((n + 1 : ℕ) : ℚ) * (2 : ℚ) ^ (E - 24)) := by
  have hε : (0 : ℚ) < (2 : ℚ) ^ (E - 24) := two_zpow_pos _
  push_cast
  by_cases hc : c > 0
  · simp only [if_pos hc]
    have h1' := abs_le.1 (h1 hc)
    have hle : f32Round (c - dt) ≤ c := f32Round_le_of_le hf (by linarith)
    refine ⟨isF32_f32Round _, le_trans hle hcC, ?_, ?_⟩
    · intro hpos
      have hx0 : 0 ≤ c - dt := by
        by_contra hneg
        have := f32Round_nonpos (le_of_lt (not_le.1 hneg))
        linarith
      have herr := abs_le.1 (f32Round_error_of_le (c - dt) E hE
        (by rw [abs_of_nonneg hx0]; linarith))
      rw [abs_le]
      constructor <;> nlinarith [herr.1, herr.2, h1'.1, h1'.2]
    · intro hle0
      by_cases hx0 : 0 ≤ c - dt
      · have herr := abs_le.1 (f32Round_error_of_le (c - dt) E hE
          (by rw [abs_of_nonneg hx0]; linarith))
        nlinarith [herr.1, herr.2, h1'.1, h1'.2]
      · nlinarith [not_le.1 hx0, h1'.1, h1'.2]
  · simp only [if_neg hc]
    have hc0 : c ≤ 0 := not_lt.1 hc
    refine ⟨hf, hcC, fun hpos => absurd hpos hc, fun _ => ?_⟩
    have := h2 hc0
    nlinarith

/-! ## Pistol in binary32: the fire cooldown -/

theorem Pistol.run32_calls_append (p : Pistol) (xs ys : List PistolCall) :
    p.run32 (xs ++ ys) = (p.run32 xs).run32 ys := by
  simp [Pistol.run32, List.foldl_append]

/-- The fire cooldown along a sequence of calls in binary32, `T` the time and
`n` the number of `Update` calls since the shot that set the clock to
`ShootCooldown` (below 1/4 s): as long as fire attempts are made only while
`T + n * 2^-27` is below `ShootCooldown`, the clock is positive while
`T + n * 2^-27 < ShootCooldown` and has run out once
`ShootCooldown + n * 2^-27 ≤ T`. -/
theorem Pistol.cooldown_run32 (calls : List PistolCall) (p : Pistol) (T : ℚ) (n : ℕ)
    (hC : p.ShootCooldown < 1 / 4) (hf : IsF32 p.CooldownTimer)
    (hcC : p.CooldownTimer ≤ p.ShootCooldown)
    (h1 : 0 < p.CooldownTimer →
      |p.CooldownTimer - (p.ShootCooldown - T)| ≤ n * (2 : ℚ) ^ (-27 : Int))
    (h2 : p.CooldownTimer ≤ 0 → p.ShootCooldown ≤ T + n * (2 : ℚ) ^ (-27 : Int))
    (hdt : ∀ x ∈ calls, x.timeOk)
    (hearly : ∀ (pre : List PistolCall) (x : PistolCall) (post : List PistolCall),
      calls = pre ++ x :: post → x.isAttempt →
      T + PistolCall.elapsed pre + ((n + PistolCall.updates pre : ℕ) : ℚ) * (2 : ℚ) ^ (-27 : Int) <
        p.ShootCooldown) :
    (p.run32 calls).ShootCooldown = p.ShootCooldown ∧
      (0 < (p.run32 calls).CooldownTimer →
        |(p.run32 calls).CooldownTimer - (p.ShootCooldown - (T + PistolCall.elapsed calls))| ≤
          ((n + PistolCall.updates calls : ℕ) : ℚ) * (2 : ℚ) ^ (-27 : Int)) ∧
      ((p.run32 calls).CooldownTimer ≤ 0 →
        p.ShootCooldown ≤ T + PistolCall.elapsed calls +
          ((n + PistolCall.updates calls : ℕ) : ℚ) * (2 : ℚ) ^ (-27 : Int)) := by
  induction calls generalizing p T n with
  | nil =>
    simp only [PistolCall.elapsed, PistolCall.updates, Pistol.run32, List.foldl_nil, add_zero]
    exact ⟨trivial, h1, h2⟩
  | cons x xs ih =>
    have hx : x.timeOk := hdt x (List.mem_cons_self x xs)
    have hxs : ∀ y ∈ xs, y.timeOk := fun y hy => hdt y (List.mem_cons_of_mem x hy)
    cases x with
    | OnActivate Sqrt player mouseWorld =>
      have hT := hearly [] (PistolCall.OnActivate Sqrt player mouseWorld) xs rfl trivial
      simp only [PistolCall.elapsed, PistolCall.updates, add_zero] at hT
      have hpos : 0 < p.CooldownTimer := by
        by_contra hneg
        have := h2 (not_lt.1 hneg)
        linarith
      have hstep : p.call32 (PistolCall.OnActivate Sqrt player mouseWorld) = p :=
        Pistol.OnActivate32_wait p Sqrt player mouseWorld hpos
      have := ih p T n hC hf hcC h1 h2 hxs (fun pre y post hsplit hy => by
        have := hearly (PistolCall.OnActivate Sqrt player mouseWorld :: pre) y post
          (by rw [hsplit]; rfl) hy
        simpa [PistolCall.elapsed, PistolCall.updates] using this)
      simpa [PistolCall.elapsed, PistolCall.updates, Pistol.run32, hstep] using this
    | OnDeactivate player =>
      have hstep : p.call32 (PistolCall.OnDeactivate player) = p := rfl
      have := ih p T n hC hf hcC h1 h2 hxs (fun pre y post hsplit hy => by
        have := hearly (PistolCall.OnDeactivate player :: pre) y post
          (by rw [hsplit]; rfl) hy
        simpa [PistolCall.elapsed, PistolCall.updates] using this)
      simpa [PistolCall.elapsed, PistolCall.updates, Pistol.run32, hstep] using this
    | Update deltaTime player =>
      have hd : 0 ≤ deltaTime := hx
      have hstep := cooldown_step32 (-3) (by norm_num) p.ShootCooldown T p.CooldownTimer
        deltaTime n hd (by norm_num; linarith) hf hcC
        (by norm_num at h1 ⊢; exact h1) (by norm_num at h2 ⊢; exact h2)
      rw [← Pistol.Update32_CooldownTimer p deltaTime player] at hstep
      have hS := Pistol.Update32_ShootCooldown p deltaTime player
      have := ih (p.Update32 deltaTime player) (T + deltaTime) (n + 1)
        (by rw [hS]; exact hC) hstep.1 (by rw [hS]; exact hstep.2.1)
        (by
          rw [hS]
          intro hpos
          have := hstep.2.2.1 hpos
          norm_num at this ⊢
          exact this)
        (by
          rw [hS]
          intro hle
          have := hstep.2.2.2 hle
          norm_num at this ⊢
          exact this)
        hxs
        (fun pre y post hsplit hy => by
          have := hearly (PistolCall.Update deltaTime player :: pre) y post
            (by rw [hsplit]; rfl) hy
          simp only [PistolCall.elapsed, PistolCall.updates] at this
          rw [hS]
          have e : n + 1 + PistolCall.updates pre = n + (PistolCall.updates pre + 1) := by omega
          rw [e]
          linarith)
      rw [hS] at this
      have e : n + 1 + PistolCall.updates xs = n + (PistolCall.updates xs + 1) := by omega
      rw [e] at this
      simp only [PistolCall.elapsed, PistolCall.updates, Pistol.run32, List.foldl_cons,
        Pistol.call32]
      simp only [Pistol.run32] at this
      rw [← add_assoc]
      exact this

/-- C16 as stated fails in binary32.  With frames of `float32(0.05)`: shot,
two frames, a refused attempt, a third frame; the `Update` time since the shot
is then at least 0.15 s, and the attempt is refused: the clock is still
positive and the pool keeps its one bullet.  At 60 frames per second, nine
frames after a shot the `Update` time has reached `ShootCooldown`, and the
attempt is refused as well. -/
theorem pistol_refuses_at_cooldown :
    3 / 20 ≤ PistolCall.elapsed
        [PistolCall.Update (f32Round (1 / 20)) playerAtOrigin,
          PistolCall.Update (f32Round (1 / 20)) playerAtOrigin,
          PistolCall.OnActivate (fun _ => 5) playerAtOrigin ⟨3, 4⟩,
          PistolCall.Update (f32Round (1 / 20)) playerAtOrigin] ∧
      0 < (pistolAfterShot32.run32
        [PistolCall.Update (f32Round (1 / 20)) playerAtOrigin,
          PistolCall.Update (f32Round (1 / 20)) playerAtOrigin,
          PistolCall.OnActivate (fun _ => 5) playerAtOrigin ⟨3, 4⟩,
          PistolCall.Update (f32Round (1 / 20)) playerAtOrigin]).CooldownTimer ∧
      ((pistolAfterShot32.run32
        [PistolCall.Update (f32Round (1 / 20)) playerAtOrigin,
          PistolCall.Update (f32Round (1 / 20)) playerAtOrigin,
          PistolCall.OnActivate (fun _ => 5) playerAtOrigin ⟨3, 4⟩,
          PistolCall.Update (f32Round (1 / 20)) playerAtOrigin]).OnActivate32 (fun _ => 5)
        playerAtOrigin ⟨3, 4⟩).Bullets.length = 1 ∧
      pistolAfterShot32.ShootCooldown ≤
        PistolCall.elapsed (Pistol.updateCalls playerAtOrigin (List.replicate 9 frame60)) ∧
      ((pistolAfterShot32.run32
          (Pistol.updateCalls playerAtOrigin (List.replicate 9 frame60))).OnActivate32
        (fun _ => 5) playerAtOrigin ⟨3, 4⟩).Bullets.length = 1 := by
  refine ⟨by decide!, by decide!, by decide!, by decide!, by decide!⟩

/-- C16 amended, in binary32: after a successful shot (`OnActivate` with
`CooldownTimer ≤ 0`) of a pistol whose `ShootCooldown` is a `float32` below
0.25 s, let calls follow with `Update` times that are not negative and fire
attempts only while `t + n * 2^-27` is below `ShootCooldown`, where `t` is the
`Update` time and `n` the number of `Update` calls since the shot.  Then an
`OnActivate` issued while `t + n * 2^-27 < ShootCooldown` changes nothing, and
one issued once `t ≥ ShootCooldown + n * 2^-27` appends exactly one bullet; in
between the rounded clock decides: the attempt changes nothing while the clock
is positive and appends one bullet otherwise. -/
theorem pistol_fire_cooldown (q : Pistol) (Sqrt0 : ℚ → ℚ) (player0 : Player)
    (mouse0 : Vector2) (calls : List PistolCall) (Sqrt : ℚ → ℚ) (player : Player)
    (mouseWorld : Vector2) (hq : q.CooldownTimer ≤ 0) (hCf : IsF32 q.ShootCooldown)
    (hC : q.ShootCooldown < 1 / 4) (hdt : ∀ x ∈ calls, x.timeOk)
    (hearly : ∀ (pre : List PistolCall) (x : PistolCall) (post : List PistolCall),
      calls = pre ++ x :: post → x.isAttempt →
      PistolCall.elapsed pre + (PistolCall.updates pre : ℚ) * (2 : ℚ) ^ (-27 : Int) <
        q.ShootCooldown) :
    (PistolCall.elapsed calls + (PistolCall.updates calls : ℚ) * (2 : ℚ) ^ (-27 : Int) <
          q.ShootCooldown →
        ((q.OnActivate32 Sqrt0 player0 mouse0).run32 calls).OnActivate32 Sqrt player mouseWorld =
          (q.OnActivate32 Sqrt0 player0 mouse0).run32 calls) ∧
      (q.ShootCooldown + (PistolCall.updates calls : ℚ) * (2 : ℚ) ^ (-27 : Int) ≤
          PistolCall.elapsed calls →
        ∃ b : Bullet,
          (((q.OnActivate32 Sqrt0 player0 mouse0).run32 calls).OnActivate32 Sqrt player
            mouseWorld).Bullets =
            ((q.OnActivate32 Sqrt0 player0 mouse0).run32 calls).Bullets ++ [b]) ∧
      (0 < ((q.OnActivate32 Sqrt0 player0 mouse0).run32 calls).CooldownTimer →
        ((q.OnActivate32 Sqrt0 player0 mouse0).run32 calls).OnActivate32 Sqrt player mouseWorld =
          (q.OnActivate32 Sqrt0 player0 mouse0).run32 calls) ∧
      (((q.OnActivate32 Sqrt0 player0 mouse0).run32 calls).CooldownTimer ≤ 0 →
        ∃ b : Bullet,
          (((q.OnActivate32 Sqrt0 player0 mouse0).run32 calls).OnActivate32 Sqrt player
            mouseWorld).Bullets =
            ((q.OnActivate32 Sqrt0 player0 mouse0).run32 calls).Bullets ++ [b]) := by
  have hshot : (q.OnActivate32 Sqrt0 player0 mouse0).CooldownTimer = q.ShootCooldown := by
    rw [Pistol.OnActivate32_fire q Sqrt0 player0 mouse0 hq]
  have hshotC : (q.OnActivate32 Sqrt0 player0 mouse0).ShootCooldown = q.ShootCooldown := by
    rw [Pistol.OnActivate32_fire q Sqrt0 player0 mouse0 hq]
  have key := Pistol.cooldown_run32 calls (q.OnActivate32 Sqrt0 player0 mouse0) 0 0
    (by rw [hshotC]; exact hC) (by rw [hshot]; exact hCf) (by rw [hshot, hshotC])
    (by
      intro _
      rw [hshot, hshotC]
      simp)
    (by
      intro h
      rw [hshot] at h
      rw [hshotC]
      simpa using h)
    hdt
    (fun pre x post hsplit hx => by
      have := hearly pre x post hsplit hx
      rw [hshotC]
      simpa using this)
  rw [hshotC] at key
  simp only [zero_add] at key
  have hwait : 0 < ((q.OnActivate32 Sqrt0 player0 mouse0).run32 calls).CooldownTimer →
      ((q.OnActivate32 Sqrt0 player0 mouse0).run32 calls).OnActivate32 Sqrt player mouseWorld =
        (q.OnActivate32 Sqrt0 player0 mouse0).run32 calls :=
    fun h => Pistol.OnActivate32_wait _ Sqrt player mouseWorld h
  have hfire : ((q.OnActivate32 Sqrt0 player0 mouse0).run32 calls).CooldownTimer ≤ 0 →
      ∃ b : Bullet,
        (((q.OnActivate32 Sqrt0 player0 mouse0).run32 calls).OnActivate32 Sqrt player
          mouseWorld).Bullets =
          ((q.OnActivate32 Sqrt0 player0 mouse0).run32 calls).Bullets ++ [b] :=
    fun h => ⟨_, by rw [Pistol.OnActivate32_fire _ Sqrt player mouseWorld h]⟩
  refine ⟨?_, ?_, hwait, hfire⟩
  · intro hlt
    apply hwait
    by_contra hneg
    have := key.2.2 (not_lt.1 hneg)
    linarith
  · intro hge
    apply hfire
    by_contra hpos
    have h1 := abs_le.1 (key.2.1 (not_le.1 hpos))
    have hε : (0 : ℚ) ≤ (PistolCall.updates calls : ℚ) * (2 : ℚ) ^ (-27 : Int) := by positivity
    linarith [h1.2, not_le.1 hpos]

/-- Witness of C16 amended: the pistol of the game, frames of `float32(0.05)`.
The attempt after two frames (0.1 s) changes nothing; after two more frames
(0.2 s) an attempt appends a bullet. -/
theorem pistol_fire_cooldown_witness :
    (pistolAfterShot32.run32
        [PistolCall.Update (f32Round (1 / 20)) playerAtOrigin,
          PistolCall.Update (f32Round (1 / 20)) playerAtOrigin]).OnActivate32 (fun _ => 5)
        playerAtOrigin ⟨3, 4⟩ =
      pistolAfterShot32.run32
        [PistolCall.Update (f32Round (1 / 20)) playerAtOrigin,
          PistolCall.Update (f32Round (1 / 20)) playerAtOrigin] ∧
      ∃ b : Bullet,
        ((pistolAfterShot32.run32
          [PistolCall.Update (f32Round (1 / 20)) playerAtOrigin,
            PistolCall.Update (f32Round (1 / 20)) playerAtOrigin,
            PistolCall.OnActivate (fun _ => 5) playerAtOrigin ⟨3, 4⟩,
            PistolCall.Update (f32Round (1 / 20)) playerAtOrigin,
            PistolCall.Update (f32Round (1 / 20)) playerAtOrigin]).OnActivate32 (fun _ => 5)
          playerAtOrigin ⟨3, 4⟩).Bullets =
        (pistolAfterShot32.run32
          [PistolCall.Update (f32Round (1 / 20)) playerAtOrigin,
            PistolCall.Update (f32Round (1 / 20)) playerAtOrigin,
            PistolCall.OnActivate (fun _ => 5) playerAtOrigin ⟨3, 4⟩,
            PistolCall.Update (f32Round (1 / 20)) playerAtOrigin,
            PistolCall.Update (f32Round (1 / 20)) playerAtOrigin]).Bullets ++ [b] :=
  ⟨(pistol_fire_cooldown NewPistol32 (fun _ => 5) playerAtOrigin ⟨3, 4⟩
      [PistolCall.Update (f32Round (1 / 20)) playerAtOrigin,
        PistolCall.Update (f32Round (1 / 20)) playerAtOrigin]
      (fun _ => 5) playerAtOrigin ⟨3, 4⟩ (by decide!) (by decide!) (by decide!)
      (by
        intro x hx
        simp only [List.mem_cons, List.mem_singleton, List.not_mem_nil, or_false] at hx
        rcases hx with rfl | rfl <;> exact f32Round_nonneg (by norm_num))
      (by
        intro pre x post hsplit hx
        rcases pre with _ | ⟨a, _ | ⟨b, pre⟩⟩
        · simp only [List.nil_append, List.cons.injEq] at hsplit
          obtain ⟨rfl, _⟩ := hsplit
          exact absurd hx (by simp [PistolCall.isAttempt])
        · simp only [List.cons_append, List.nil_append, List.cons.injEq] at hsplit
          obtain ⟨_, rfl, _⟩ := hsplit
          exact absurd hx (by simp [PistolCall.isAttempt])
        · simp at hsplit)).1
      (by decide!),
    (pistol_fire_cooldown NewPistol32 (fun _ => 5) playerAtOrigin ⟨3, 4⟩
      [PistolCall.Update (f32Round (1 / 20)) playerAtOrigin,
        PistolCall.Update (f32Round (1 / 20)) playerAtOrigin,
        PistolCall.OnActivate (fun _ => 5) playerAtOrigin ⟨3, 4⟩,
        PistolCall.Update (f32Round (1 / 20)) playerAtOrigin,
        PistolCall.Update (f32Round (1 / 20)) playerAtOrigin]
      (fun _ => 5) playerAtOrigin ⟨3, 4⟩ (by decide!) (by decide!) (by decide!)
      (by
        intro x hx
        simp only [List.mem_cons, List.mem_singleton, List.not_mem_nil, or_false] at hx
        rcases hx with rfl | rfl | rfl | rfl | rfl <;>
          first
          | exact f32Round_nonneg (by norm_num)
          | exact trivial)
      (by
        intro pre x post hsplit hx
        rcases pre with _ | ⟨a, _ | ⟨b, _ | ⟨c, _ | ⟨d, _ | ⟨e, pre⟩⟩⟩⟩⟩
        · simp only [List.nil_append, List.cons.injEq] at hsplit
          obtain ⟨rfl, _⟩ := hsplit
          exact absurd hx (by simp [PistolCall.isAttempt])
        · simp only [List.cons_append, List.nil_append, List.cons.injEq] at hsplit
          obtain ⟨_, rfl, _⟩ := hsplit
          exact absurd hx (by simp [PistolCall.isAttempt])
        · simp only [List.cons_append, List.nil_append, List.cons.injEq] at hsplit
          obtain ⟨rfl, rfl, _, _⟩ := hsplit
          decide!
        · simp only [List.cons_append, List.nil_append, List.cons.injEq] at hsplit
          obtain ⟨_, _, _, rfl, _⟩ := hsplit
          exact absurd hx (by simp [PistolCall.isAttempt])
        · simp only [List.cons_append, List.nil_append, List.cons.injEq] at hsplit
          obtain ⟨_, _, _, _, rfl, _⟩ := hsplit
          exact absurd hx (by simp [PistolCall.isAttempt])
        · simp at hsplit)).2.1 (by decide!)⟩

/-! ## Pistol in binary32: a spawned bullet in flight -/

theorem Bullet.flights32_none (dts : List ℚ) :
    dts.foldl (fun (ob : Option Bullet) dt => ob.bind (Bullet.flight32 dt)) none = none := by
  induction dts with
  | nil => rfl
  | cons dt dts ih => simpa [List.foldl_cons] using ih

theorem Bullet.flights32_cons (dt : ℚ) (dts : List ℚ) (b : Bullet) :
    Bullet.flights32 (dt :: dts) b = (Bullet.flight32 dt b).bind (Bullet.flights32 dts) := by
  unfold Bullet.flights32
  rw [List.foldl_cons]
  cases h : Bullet.flight32 dt b with
  | none =>
    simp only [Option.some_bind, h, Option.none_bind]
    exact Bullet.flights32_none dts
  | some b1 => simp only [Option.some_bind, h]

theorem Bullet.flights32_append (dts dts2 : List ℚ) (b : Bullet) :
    Bullet.flights32 (dts ++ dts2) b = (Bullet.flights32 dts b).bind (Bullet.flights32 dts2) := by
  induction dts generalizing b with
  | nil => rfl
  | cons dt dts ih =>
    rw [List.cons_append, Bullet.flights32_cons, Bullet.flights32_cons]
    cases h : Bullet.flight32 dt b with
    | none => rfl
    | some b1 => simp only [Option.some_bind, ih]

theorem Pistol.run32_updateCalls_Bullets (player : Player) (dts : List ℚ) (p : Pistol) :
    (p.run32 (Pistol.updateCalls player dts)).Bullets =
      p.Bullets.filterMap (Bullet.flights32 dts) := by
  induction dts generalizing p with
  | nil =>
    show p.Bullets = p.Bullets.filterMap (fun b => some b)
    rw [List.filterMap_some]
  | cons dt dts ih =>
    have hrun : p.run32 (Pistol.updateCalls player (dt :: dts)) =
        (p.Update32 dt player).run32 (Pistol.updateCalls player dts) := rfl
    rw [hrun, ih, Pistol.Update32_Bullets, List.filterMap_filterMap]
    congr 1
    funext b
    rw [Bullet.flights32_cons]

/-- One frame of a coordinate of a bullet in binary32, `u` the exact product of
direction and speed: the error against `x0 + u * t` grows by at most `2^-12`. -/
theorem coord_step32 (x0 u X t dt : ℚ) (n : ℕ) (hx0 : |x0| ≤ 2048) (hu : |u| ≤ 256)
    (h0 : 0 ≤ t) (hdt : 0 ≤ dt) (ht : t + dt ≤ 1) (hn : n + 1 ≤ 4096)
    (hX : |X - (x0 + u * t)| ≤ n * (2 : ℚ) ^ (-12 : Int)) :
    |f32Round (X + f32Round (f32Round u * dt)) - (x0 + u * (t + dt))| ≤
      ((n + 1 : ℕ) : ℚ) * (2 : ℚ) ^ (-12 : Int) := by
  have hnq : (n : ℚ) + 1 ≤ 4096 := by exact_mod_cast hn
  have hn0 : (0 : ℚ) ≤ (n : ℚ) := Nat.cast_nonneg n
  have hε : (2 : ℚ) ^ (-12 : Int) = 1 / 4096 := by norm_num
  have hx0' := abs_le.1 hx0
  have hu' := abs_le.1 hu
  have hv := abs_le.1 (f32Round_error_of_le u 7 (by norm_num) (by norm_num; exact hu))
  have hvb1 : f32Round u ≤ 256 := f32Round_le_of_le (by decide!) hu'.2
  have hvb2 : -256 ≤ f32Round u := f32Round_ge_of_ge (by decide!) hu'.1
  have hdt1 : dt ≤ 1 := by linarith
  have ht1 : t ≤ 1 := by linarith
  have hvd1 : f32Round u * dt ≤ 256 := by
    have := mul_le_mul_of_nonneg_right hvb1 hdt
    linarith
  have hvd2 : -256 ≤ f32Round u * dt := by
    have := mul_le_mul_of_nonneg_right hvb2 hdt
    linarith
  have hw := abs_le.1 (f32Round_error_of_le (f32Round u * dt) 7 (by norm_num)
    (by norm_num; exact abs_le.2 ⟨hvd2, hvd1⟩))
  have hwb1 : f32Round (f32Round u * dt) ≤ 256 := f32Round_le_of_le (by decide!) hvd1
  have hwb2 : -256 ≤ f32Round (f32Round u * dt) := f32Round_ge_of_ge (by decide!) hvd2
  have hut1 : u * t ≤ 256 := by
    have := mul_le_mul_of_nonneg_right hu'.2 h0
    linarith
  have hut2 : -256 ≤ u * t := by
    have := mul_le_mul_of_nonneg_right hu'.1 h0
    linarith
  have hX' := abs_le.1 hX
  rw [hε] at hX'
  have hv7 : (2 : ℚ) ^ ((7 : Int) - 24) = 1 / 131072 := by norm_num
  rw [hv7] at hv hw
  have hy := abs_le.1 (f32Round_error_of_lt (X + f32Round (f32Round u * dt)) 11 (by norm_num)
    (by
      have h12 : (2 : ℚ) ^ ((11 : Int) + 1) = 4096 := by norm_num
      rw [h12, abs_lt]
      constructor <;> linarith [hX'.1, hX'.2]))
  have hv11 : (2 : ℚ) ^ ((11 : Int) - 24) = 1 / 8192 := by norm_num
  rw [hv11] at hy
  have he1 : (f32Round u - u) * dt ≤ 1 / 131072 := by
    have := mul_le_mul_of_nonneg_right hv.2 hdt
    linarith
  have he2 : -(1 / 131072) ≤ (f32Round u - u) * dt := by
    have := mul_le_mul_of_nonneg_right hv.1 hdt
    linarith
  rw [abs_le, hε]
  push_cast
  constructor <;> linarith [hX'.1, hX'.2, hy.1, hy.2, hw.1, hw.2]

/-- One frame of a bullet on course, in binary32: if the bullet is still in the
pool it is on course one frame and `dt` later; and it is still in the pool
when `t + dt + (n + 1) * 2^-26` is below 0.5. -/
theorem Bullet.onCourse_step (p0 d : Vector2) (S : ℚ) (n : ℕ) (t dt : ℚ) (b : Bullet)
    (h : Bullet.OnCourse p0 d S n t b) (h0 : 0 ≤ t) (hdt : 0 ≤ dt) :
    (∀ b1, Bullet.flight32 dt b = some b1 → Bullet.OnCourse p0 d S (n + 1) (t + dt) b1) ∧
      (t + dt + ((n + 1 : ℕ) : ℚ) * (2 : ℚ) ^ (-26 : Int) < 1 / 2 →
        ∃ b1, Bullet.flight32 dt b = some b1) := by
  obtain ⟨hD, hS, hF, hpos, hle, herr, hX, hY⟩ := h
  have hstep := cooldown_step32 (-2) (by norm_num) (1 / 2) t b.LifeTimer dt n hdt
    (by norm_num) hF hle (fun _ => by norm_num at herr ⊢; exact herr)
    (fun hneg => absurd hpos (not_lt.2 hneg))
  simp only [if_pos hpos] at hstep
  obtain ⟨hF1, hle1, herr1, hdead1⟩ := hstep
  have hlife : (b.step32 dt).LifeTimer = f32Round (b.LifeTimer - dt) := rfl
  constructor
  · intro b1 hb1
    unfold Bullet.flight32 at hb1
    split_ifs at hb1 with halive
    cases hb1
    rw [hlife] at halive
    have herr2 := herr1 halive
    have ht1 : t + dt ≤ 1 ∨ 4096 < n + 1 := by
      by_cases hn : n + 1 ≤ 4096
      · left
        have hnq : ((n + 1 : ℕ) : ℚ) ≤ 4096 := by exact_mod_cast hn
        have := abs_le.1 herr2
        norm_num at this
        push_cast at hnq
        nlinarith [this.1, this.2]
      · right
        omega
    refine ⟨hD, hS, hF1, halive, hle1, ?_, ?_, ?_⟩
    · norm_num at herr2 ⊢
      exact herr2
    · intro hp hv hn
      rcases ht1 with ht1 | ht1
      · have := coord_step32 p0.X (d.X * S) b.Position.X t dt n hp hv h0 hdt ht1 hn
          (hX hp hv (by omega))
        show |f32Round (b.Position.X + f32Round (f32Round (b.Direction.X * b.Speed) * dt)) -
          (p0.X + d.X * S * (t + dt))| ≤ ((n + 1 : ℕ) : ℚ) * (2 : ℚ) ^ (-12 : Int)
        rw [hD, hS]
        exact this
      · omega
    · intro hp hv hn
      rcases ht1 with ht1 | ht1
      · have := coord_step32 p0.Y (d.Y * S) b.Position.Y t dt n hp hv h0 hdt ht1 hn
          (hY hp hv (by omega))
        show |f32Round (b.Position.Y + f32Round (f32Round (b.Direction.Y * b.Speed) * dt)) -
          (p0.Y + d.Y * S * (t + dt))| ≤ ((n + 1 : ℕ) : ℚ) * (2 : ℚ) ^ (-12 : Int)
        rw [hD, hS]
        exact this
      · omega
  · intro hlt
    have halive : (b.step32 dt).LifeTimer > 0 := by
      rw [hlife]
      by_contra hneg
      have := hdead1 (not_lt.1 hneg)
      norm_num at this hlt
      linarith
    exact ⟨b.step32 dt, by unfold Bullet.flight32; rw [if_pos halive]⟩

/-- A bullet on course over consecutive frames, in binary32. -/
theorem Bullet.onCourse_flights (p0 d : Vector2) (S : ℚ) (dts : List ℚ) (n : ℕ) (t : ℚ)
    (b : Bullet) (h : Bullet.OnCourse p0 d S n t b) (h0 : 0 ≤ t) (hdt : ∀ dt ∈ dts, 0 ≤ dt) :
    (∀ b1, Bullet.flights32 dts b = some b1 →
        Bullet.OnCourse p0 d S (n + dts.length) (t + dts.sum) b1) ∧
      (t + dts.sum + ((n + dts.length : ℕ) : ℚ) * (2 : ℚ) ^ (-26 : Int) < 1 / 2 →
        ∃ b1, Bullet.flights32 dts b = some b1) := by
  induction dts generalizing b n t with
  | nil =>
    simp only [List.length_nil, List.sum_nil, add_zero]
    exact ⟨fun b1 hb1 => by cases hb1; exact h, fun _ => ⟨b, rfl⟩⟩
  | cons dt dts ih =>
    have hd : 0 ≤ dt := hdt dt (List.mem_cons_self dt dts)
    have hds : ∀ x ∈ dts, 0 ≤ x := fun x hx => hdt x (List.mem_cons_of_mem dt hx)
    have hsum : 0 ≤ dts.sum := List.sum_nonneg hds
    obtain ⟨hs1, hs2⟩ := Bullet.onCourse_step p0 d S n t dt b h h0 hd
    have hlen : n + (dt :: dts).length = n + 1 + dts.length := by
      simp only [List.length_cons]; omega
    have hsm : t + (dt :: dts).sum = t + dt + dts.sum := by
      simp only [List.sum_cons]; ring
    rw [hlen, hsm, Bullet.flights32_cons]
    constructor
    · intro b1 hb1
      cases hfl : Bullet.flight32 dt b with
      | none => rw [hfl] at hb1; cases hb1
      | some b2 =>
        rw [hfl] at hb1
        exact (ih (n + 1) (t + dt) b2 (hs1 b2 hfl) (by linarith) hds).1 b1 hb1
    · intro hlt
      have hε : (0 : ℚ) < (2 : ℚ) ^ (-26 : Int) := two_zpow_pos _
      have hlq : (0 : ℚ) ≤ (dts.length : ℚ) := Nat.cast_nonneg _
      push_cast at hlt
      obtain ⟨b2, hfl⟩ := hs2 (by push_cast; nlinarith)
      rw [hfl]
      exact (ih (n + 1) (t + dt) b2 (hs1 b2 hfl) (by linarith) hds).2 (by push_cast; linarith)

theorem Bullet.onCourse_spawned (p0 d : Vector2) (S : ℚ) :
    Bullet.OnCourse p0 d S 0 0 (Bullet.spawned p0 d S) := by
  refine ⟨rfl, rfl, isF32_half, ?_, ?_, ?_, ?_, ?_⟩
  · show (0 : ℚ) < 1 / 2
    norm_num
  · exact le_refl _
  · show |(1 / 2 : ℚ) - (1 / 2 - 0)| ≤ _
    norm_num
  · intro _ _ _
    show |p0.X - (p0.X + d.X * S * 0)| ≤ _
    norm_num
  · intro _ _ _
    show |p0.Y - (p0.Y + d.Y * S * 0)| ≤ _
    norm_num

/-- C17 as stated fails in binary32.  The pistol of the game fires from the
origin towards (3, 4); one `Update` of `float32(0.1)` puts the bullet at an x
that is not `0 + d.X * 240 * dt`, and after five such updates, 0.5 s and more
in total, the bullet is still in the pool, with lifetime `2^-26`. -/
theorem bullet_outlives_half_second :
    pistolAfterShot32.Bullets =
        [Bullet.spawned ⟨0, 0⟩ ⟨f32Round (3 / 5), f32Round (4 / 5)⟩ 240] ∧
      (1 / 2 : ℚ) ≤ (List.replicate 5 (f32Round (1 / 10))).sum ∧
      ((pistolAfterShot32.run32
          (Pistol.updateCalls playerAtOrigin (List.replicate 5 (f32Round (1 / 10))))).Bullets.map
        Bullet.LifeTimer) = [(2 : ℚ) ^ (-26 : Int)] ∧
      ((pistolAfterShot32.run32
          (Pistol.updateCalls playerAtOrigin [f32Round (1 / 10)])).Bullets.map
        fun b => decide (b.Position.X = 0 + f32Round (3 / 5) * 240 * f32Round (1 / 10))) =
        [false] := by
  refine ⟨by decide!, by decide!, by decide!, by decide!⟩

/-- C17 amended, in binary32: for a bullet spawned at `p0` with direction `d`
and speed `S` (lifetime 0.5) in the pool, and `n` `Update` calls with times
`dt ≥ 0` that add up to `t`.  The pool after the calls is the old pool with
each bullet flown frame by frame in `float32`.  If `t + n * 2^-26 < 0.5` the
bullet is still in the pool, with its direction and speed, a lifetime within
`n * 2^-26` of `0.5 - t` and, for `|p0| ≤ 2048`, `|d * S| ≤ 256` per
coordinate and `n ≤ 4096`, a position within `n * 2^-12` of `p0 + d*S*t` in
each coordinate.  If `t ≥ 0.5 + n * 2^-26` it is gone (alone in the pool it
leaves the pool empty), and a bullet once gone does not come back with later
calls.  As this holds for every sequence of calls, the bullet is dropped no
earlier than the first call with `t + n * 2^-26 ≥ 0.5` and no later than the
first call with `t ≥ 0.5 + n * 2^-26`. -/
theorem bullet_flight (p : Pistol) (player : Player) (dts : List ℚ) (p0 d : Vector2) (S : ℚ)
    (hdt : ∀ dt ∈ dts, 0 ≤ dt) (hmem : Bullet.spawned p0 d S ∈ p.Bullets) :
    (p.run32 (Pistol.updateCalls player dts)).Bullets =
        p.Bullets.filterMap (Bullet.flights32 dts) ∧
      (dts.sum + (dts.length : ℚ) * (2 : ℚ) ^ (-26 : Int) < 1 / 2 →
        ∃ b ∈ (p.run32 (Pistol.updateCalls player dts)).Bullets,
          Bullet.flights32 dts (Bullet.spawned p0 d S) = some b ∧
            b.Direction = d ∧ b.Speed = S ∧ 0 < b.LifeTimer ∧
            |b.LifeTimer - (1 / 2 - dts.sum)| ≤ (dts.length : ℚ) * (2 : ℚ) ^ (-26 : Int) ∧
            (|p0.X| ≤ 2048 → |d.X * S| ≤ 256 → dts.length ≤ 4096 →
              |b.Position.X - (p0.X + d.X * S * dts.sum)| ≤
                (dts.length : ℚ) * (2 : ℚ) ^ (-12 : Int)) ∧
            (|p0.Y| ≤ 2048 → |d.Y * S| ≤ 256 → dts.length ≤ 4096 →
              |b.Position.Y - (p0.Y + d.Y * S * dts.sum)| ≤
                (dts.length : ℚ) * (2 : ℚ) ^ (-12 : Int))) ∧
      (1 / 2 + (dts.length : ℚ) * (2 : ℚ) ^ (-26 : Int) ≤ dts.sum →
        Bullet.flights32 dts (Bullet.spawned p0 d S) = none) ∧
      (1 / 2 + (dts.length : ℚ) * (2 : ℚ) ^ (-26 : Int) ≤ dts.sum →
        p.Bullets = [Bullet.spawned p0 d S] →
        (p.run32 (Pistol.updateCalls player dts)).Bullets = []) ∧
      (Bullet.flights32 dts (Bullet.spawned p0 d S) = none →
        ∀ dts2 : List ℚ, Bullet.flights32 (dts ++ dts2) (Bullet.spawned p0 d S) = none) := by
  have hpool := Pistol.run32_updateCalls_Bullets player dts p
  have hc := Bullet.onCourse_flights p0 d S dts 0 0 (Bullet.spawned p0 d S)
    (Bullet.onCourse_spawned p0 d S) (le_refl _) hdt
  simp only [zero_add] at hc
  have hgone : 1 / 2 + (dts.length : ℚ) * (2 : ℚ) ^ (-26 : Int) ≤ dts.sum →
      Bullet.flights32 dts (Bullet.spawned p0 d S) = none := by
    intro hge
    cases hfl : Bullet.flights32 dts (Bullet.spawned p0 d S) with
    | none => rfl
    | some b1 =>
      obtain ⟨_, _, _, hpos, _, herr, _, _⟩ := hc.1 b1 hfl
      have := abs_le.1 herr
      linarith [this.2]
  refine ⟨hpool, ?_, hgone, ?_, ?_⟩
  · intro hlt
    obtain ⟨b1, hfl⟩ := hc.2 hlt
    obtain ⟨hD, hS, _, hpos, _, herr, hX, hY⟩ := hc.1 b1 hfl
    refine ⟨b1, ?_, hfl, hD, hS, hpos, herr, hX, hY⟩
    rw [hpool, List.mem_filterMap]
    exact ⟨_, hmem, hfl⟩
  · intro hge hone
    rw [hpool, hone, List.filterMap_cons, hgone hge, List.filterMap_nil]
  · intro hnone dts2
    rw [Bullet.flights32_append, hnone]
    rfl

/-- Witness of C17 amended: the pistol of the game after a shot from the
origin towards (3, 4), frames of `float32(0.1)` and `float32(0.2)`: the bullet
is in the pool, within the stated distance of `p0 + d * 240 * t`. -/
theorem bullet_flight_witness :
    ∃ b ∈ (pistolAfterShot32.run32
        (Pistol.updateCalls playerAtOrigin [f32Round (1 / 10), f32Round (1 / 5)])).Bullets,
      Bullet.flights32 [f32Round (1 / 10), f32Round (1 / 5)]
          (Bullet.spawned ⟨0, 0⟩ ⟨f32Round (3 / 5), f32Round (4 / 5)⟩ 240) = some b ∧
        b.Direction = ⟨f32Round (3 / 5), f32Round (4 / 5)⟩ ∧ b.Speed = 240 ∧ 0 < b.LifeTimer ∧
        |b.LifeTimer - (1 / 2 - [f32Round (1 / 10), f32Round (1 / 5)].sum)| ≤
          ([f32Round (1 / 10), f32Round (1 / 5)].length : ℚ) * (2 : ℚ) ^ (-26 : Int) ∧
        (|(0 : ℚ)| ≤ 2048 → |f32Round (3 / 5) * 240| ≤ 256 →
          [f32Round (1 / 10), f32Round (1 / 5)].length ≤ 4096 →
          |b.Position.X - (0 + f32Round (3 / 5) * 240 *
              [f32Round (1 / 10), f32Round (1 / 5)].sum)| ≤
            ([f32Round (1 / 10), f32Round (1 / 5)].length : ℚ) * (2 : ℚ) ^ (-12 : Int)) ∧
        (|(0 : ℚ)| ≤ 2048 → |f32Round (4 / 5) * 240| ≤ 256 →
          [f32Round (1 / 10), f32Round (1 / 5)].length ≤ 4096 →
          |b.Position.Y - (0 + f32Round (4 / 5) * 240 *
              [f32Round (1 / 10), f32Round (1 / 5)].sum)| ≤
            ([f32Round (1 / 10), f32Round (1 / 5)].length : ℚ) * (2 : ℚ) ^ (-12 : Int)) :=
  (bullet_flight pistolAfterShot32 playerAtOrigin [f32Round (1 / 10), f32Round (1 / 5)] ⟨0, 0⟩
    ⟨f32Round (3 / 5), f32Round (4 / 5)⟩ 240
    (by
      intro dt hdt
      simp only [List.mem_cons, List.mem_singleton, List.not_mem_nil, or_false] at hdt
      rcases hdt with rfl | rfl <;> exact f32Round_nonneg (by norm_num))
    (by decide!)).2.1 (by decide!)

/-! ## Normalising a vector in binary32 -/

theorem f32Round_rel (x : ℚ) (h : x = 0 ∨ (2 : ℚ) ^ (-126 : Int) ≤ |x|) :
    |f32Round x - x| ≤ |x| * (2 : ℚ) ^ (-24 : Int) := by
  rcases h with h | h
  · rw [h, f32Round_zero]
    simp
  · exact f32Round_rel_error x h

theorem f32Round_rel_nonneg (x : ℚ) (h0 : 0 ≤ x) (h : x = 0 ∨ (2 : ℚ) ^ (-126 : Int) ≤ x) :
    x * (1 - (2 : ℚ) ^ (-24 : Int)) ≤ f32Round x ∧
      f32Round x ≤ x * (1 + (2 : ℚ) ^ (-24 : Int)) := by
  have := abs_le.1 (f32Round_rel x (by rwa [abs_of_nonneg h0]))
  rw [abs_of_nonneg h0] at this
  constructor <;> linarith [this.1, this.2]

theorem sq_bounds_of_rel (x y u : ℚ) (hu0 : 0 ≤ u) (hu1 : u ≤ 1) (h : |x - y| ≤ |y| * u) :
    y * y * ((1 - u) * (1 - u)) ≤ x * x ∧ x * x ≤ y * y * ((1 + u) * (1 + u)) := by
  have h1 : |x| ≤ |y| * (1 + u) := by
    have := abs_sub_abs_le_abs_sub x y
    linarith
  have h2 : |y| * (1 - u) ≤ |x| := by
    have := abs_sub_abs_le_abs_sub y x
    rw [abs_sub_comm y x] at this
    linarith
  have hx : x * x = |x| * |x| := (abs_mul_abs_self x).symm
  have hy : y * y = |y| * |y| := (abs_mul_abs_self y).symm
  rw [hx, hy]
  constructor
  · have := mul_le_mul h2 h2 (mul_nonneg (abs_nonneg y) (by linarith)) (abs_nonneg x)
    linarith
  · have := mul_le_mul h1 h1 (abs_nonneg x) (mul_nonneg (abs_nonneg y) (by linarith))
    linarith

theorem sq_range32 (a : ℚ)
    (ha : a = 0 ∨ ((2 : ℚ) ^ (-60 : Int) ≤ |a| ∧ |a| ≤ (2 : ℚ) ^ (60 : Int))) :
    0 ≤ a * a ∧ (a * a = 0 ∨ (2 : ℚ) ^ (-126 : Int) ≤ a * a) ∧
      (a ≠ 0 → (2 : ℚ) ^ (-120 : Int) ≤ a * a) ∧ a * a ≤ (2 : ℚ) ^ (120 : Int) := by
  have hsq : a * a = |a| * |a| := (abs_mul_abs_self a).symm
  have hnn : 0 ≤ a * a := mul_self_nonneg a
  rcases ha with ha | ⟨hlo, hhi⟩
  · rw [ha]
    refine ⟨by norm_num, Or.inl (by norm_num), fun h => absurd rfl h, ?_⟩
    norm_num
  · have hpos : (0 : ℚ) < (2 : ℚ) ^ (-60 : Int) := two_zpow_pos _
    have h1 : (2 : ℚ) ^ (-60 : Int) * (2 : ℚ) ^ (-60 : Int) ≤ |a| * |a| :=
      mul_le_mul hlo hlo (le_of_lt hpos) (abs_nonneg a)
    have h2 : |a| * |a| ≤ (2 : ℚ) ^ (60 : Int) * (2 : ℚ) ^ (60 : Int) :=
      mul_le_mul hhi hhi (abs_nonneg a) (le_of_lt (two_zpow_pos _))
    have e1 : (2 : ℚ) ^ (-60 : Int) * (2 : ℚ) ^ (-60 : Int) = (2 : ℚ) ^ (-120 : Int) := by
      rw [← zpow_add₀ (by norm_num : (2 : ℚ) ≠ 0)]
      norm_num
    have e2 : (2 : ℚ) ^ (60 : Int) * (2 : ℚ) ^ (60 : Int) = (2 : ℚ) ^ (120 : Int) := by
      rw [← zpow_add₀ (by norm_num : (2 : ℚ) ≠ 0)]
      norm_num
    rw [e1] at h1
    rw [e2] at h2
    have e3 : (2 : ℚ) ^ (-126 : Int) ≤ (2 : ℚ) ^ (-120 : Int) := two_zpow_mono (by norm_num)
    rw [hsq]
    exact ⟨by rw [← hsq]; exact hnn, Or.inr (le_trans e3 h1), fun _ => h1, h2⟩

theorem unit_const_hi :
    (1 + (2 : ℚ) ^ (-24 : Int)) * (1 + (2 : ℚ) ^ (-24 : Int)) ≤
      (1 + (2 : ℚ) ^ (-21 : Int)) *
        ((1 - (2 : ℚ) ^ (-24 : Int)) * (1 - (2 : ℚ) ^ (-24 : Int)) * (1 - (2 : ℚ) ^ (-50 : Int)) *
          ((1 - (2 : ℚ) ^ (-24 : Int)) * (1 - (2 : ℚ) ^ (-24 : Int)))) := by
  norm_num

theorem unit_const_lo :
    (1 - (2 : ℚ) ^ (-21 : Int)) *
        ((1 + (2 : ℚ) ^ (-24 : Int)) * (1 + (2 : ℚ) ^ (-24 : Int)) * (1 + (2 : ℚ) ^ (-50 : Int)) *
          ((1 + (2 : ℚ) ^ (-24 : Int)) * (1 + (2 : ℚ) ^ (-24 : Int)))) ≤
      (1 - (2 : ℚ) ^ (-24 : Int)) * (1 - (2 : ℚ) ^ (-24 : Int)) := by
  norm_num

theorem unit_const_len_lo :
    1 - (2 : ℚ) ^ (-21 : Int) ≤
      (1 - (2 : ℚ) ^ (-24 : Int)) * (1 - (2 : ℚ) ^ (-24 : Int)) * (1 - (2 : ℚ) ^ (-50 : Int)) *
        ((1 - (2 : ℚ) ^ (-24 : Int)) * (1 - (2 : ℚ) ^ (-24 : Int))) := by
  norm_num

theorem unit_const_len_hi :
    (1 + (2 : ℚ) ^ (-24 : Int)) * (1 + (2 : ℚ) ^ (-24 : Int)) * (1 + (2 : ℚ) ^ (-50 : Int)) *
        ((1 + (2 : ℚ) ^ (-24 : Int)) * (1 + (2 : ℚ) ^ (-24 : Int))) ≤
      1 + (2 : ℚ) ^ (-21 : Int) := by
  norm_num

theorem ray_const_hi :
    (1 + (2 : ℚ) ^ (-21 : Int)) *
        ((1 + (2 : ℚ) ^ (-24 : Int)) * (1 + (2 : ℚ) ^ (-24 : Int))) ≤
      1 + (2 : ℚ) ^ (-20 : Int) := by
  norm_num

theorem ray_const_lo :
    1 - (2 : ℚ) ^ (-20 : Int) ≤
      (1 - (2 : ℚ) ^ (-21 : Int)) *
        ((1 - (2 : ℚ) ^ (-24 : Int)) * (1 - (2 : ℚ) ^ (-24 : Int))) := by
  norm_num

theorem ray_const_dir :
    (1 + (2 : ℚ) ^ (-24 : Int)) * (2 : ℚ) ^ (-24 : Int) + (2 : ℚ) ^ (-24 : Int) ≤
      (2 : ℚ) ^ (-22 : Int) := by
  norm_num

/-- Normalising a vector `(a, b)` in binary32 with a square root `r` whose
square is within the relative error `2^-50` of the rounded sum of squares: the
rounded length is positive and at most `2^63`, its square is the sum of
squares up to the relative error `2^-21`, each component of the result times
the length is the component of the vector up to the relative error `2^-24`,
and the squared length of the result is within `2^-21` of 1.  The components are zero or
between `2^-60` and `2^60` in absolute value, not both zero. -/
theorem unit32 (a b r : ℚ)
    (ha : a = 0 ∨ ((2 : ℚ) ^ (-60 : Int) ≤ |a| ∧ |a| ≤ (2 : ℚ) ^ (60 : Int)))
    (hb : b = 0 ∨ ((2 : ℚ) ^ (-60 : Int) ≤ |b| ∧ |b| ≤ (2 : ℚ) ^ (60 : Int)))
    (hne : a ≠ 0 ∨ b ≠ 0) (hr0 : 0 ≤ r)
    (hr : |r * r - f32Round (f32Round (a * a) + f32Round (b * b))| ≤
      f32Round (f32Round (a * a) + f32Round (b * b)) * (2 : ℚ) ^ (-50 : Int)) :
    0 < f32Round r ∧ f32Round r ≤ (2 : ℚ) ^ (63 : Int) ∧
      (a * a + b * b) * (1 - (2 : ℚ) ^ (-21 : Int)) ≤ f32Round r * f32Round r ∧
      f32Round r * f32Round r ≤ (a * a + b * b) * (1 + (2 : ℚ) ^ (-21 : Int)) ∧
      |f32Round (a / f32Round r) * f32Round r - a| ≤ |a| * (2 : ℚ) ^ (-24 : Int) ∧
      |f32Round (b / f32Round r) * f32Round r - b| ≤ |b| * (2 : ℚ) ^ (-24 : Int) ∧
      |f32Round (a / f32Round r) * f32Round (a / f32Round r) +
          f32Round (b / f32Round r) * f32Round (b / f32Round r) - 1| ≤
        (2 : ℚ) ^ (-21 : Int) := by
  obtain ⟨ha0, haR, haL, haU⟩ := sq_range32 a ha
  obtain ⟨hb0, hbR, hbL, hbU⟩ := sq_range32 b hb
  have hu0 : (0 : ℚ) < (2 : ℚ) ^ (-24 : Int) := two_zpow_pos _
  have hu1 : (2 : ℚ) ^ (-24 : Int) ≤ 1 / 4 := by norm_num
  have hη0 : (0 : ℚ) < (2 : ℚ) ^ (-50 : Int) := two_zpow_pos _
  have hη1 : (2 : ℚ) ^ (-50 : Int) ≤ 1 / 4 := by norm_num
  have h120 : (0 : ℚ) < (2 : ℚ) ^ (-120 : Int) := two_zpow_pos _
  generalize hu : (2 : ℚ) ^ (-24 : Int) = u at *
  generalize hη : (2 : ℚ) ^ (-50 : Int) = η at *
  have hA : 0 ≤ 1 - u := by linarith
  -- the sum of squares
  have hNlo : (2 : ℚ) ^ (-120 : Int) ≤ a * a + b * b := by
    rcases hne with h | h
    · exact le_trans (haL h) (le_add_of_nonneg_right hb0)
    · exact le_trans (hbL h) (le_add_of_nonneg_left ha0)
  have hNpos : 0 < a * a + b * b := lt_of_lt_of_le h120 hNlo
  obtain ⟨hP1, hP2⟩ := f32Round_rel_nonneg (a * a) ha0 haR
  obtain ⟨hQ1, hQ2⟩ := f32Round_rel_nonneg (b * b) hb0 hbR
  rw [hu] at hP1 hP2 hQ1 hQ2
  have hPQ1 : (a * a + b * b) * (1 - u) ≤ f32Round (a * a) + f32Round (b * b) := by linarith
  have hPQ2 : f32Round (a * a) + f32Round (b * b) ≤ (a * a + b * b) * (1 + u) := by linarith
  have hPQlo : (2 : ℚ) ^ (-121 : Int) ≤ f32Round (a * a) + f32Round (b * b) := by
    have e : (2 : ℚ) ^ (-121 : Int) = (2 : ℚ) ^ (-120 : Int) * (1 / 2) := by
      rw [show (-121 : Int) = -120 + -1 by norm_num, zpow_add₀ (by norm_num : (2 : ℚ) ≠ 0)]
      norm_num
    have : (2 : ℚ) ^ (-120 : Int) * (1 / 2) ≤ (a * a + b * b) * (1 - u) :=
      mul_le_mul hNlo (by linarith) (by norm_num) (le_of_lt hNpos)
    rw [e]
    exact le_trans this hPQ1
  have hPQ0 : 0 ≤ f32Round (a * a) + f32Round (b * b) :=
    le_trans (le_of_lt (two_zpow_pos _)) hPQlo
  obtain ⟨hs1, hs2⟩ := f32Round_rel_nonneg (f32Round (a * a) + f32Round (b * b)) hPQ0
    (Or.inr (le_trans (two_zpow_mono (by norm_num)) hPQlo))
  rw [hu] at hs1 hs2
  generalize f32Round (f32Round (a * a) + f32Round (b * b)) = s at *
  generalize f32Round (a * a) + f32Round (b * b) = PQ at *
  have hslo : (a * a + b * b) * ((1 - u) * (1 - u)) ≤ s := by
    have := mul_le_mul_of_nonneg_right hPQ1 hA
    linarith
  have hshi : s ≤ (a * a + b * b) * ((1 + u) * (1 + u)) := by
    have := mul_le_mul_of_nonneg_right hPQ2 (by linarith : 0 ≤ 1 + u)
    linarith
  have hs122 : (2 : ℚ) ^ (-122 : Int) ≤ s := by
    have e : (2 : ℚ) ^ (-122 : Int) = (2 : ℚ) ^ (-121 : Int) * (1 / 2) := by
      rw [show (-122 : Int) = -121 + -1 by norm_num, zpow_add₀ (by norm_num : (2 : ℚ) ≠ 0)]
      norm_num
    have : (2 : ℚ) ^ (-121 : Int) * (1 / 2) ≤ PQ * (1 - u) :=
      mul_le_mul hPQlo (by linarith) (by norm_num) hPQ0
    rw [e]
    exact le_trans this hs1
  have hspos : 0 < s := lt_of_lt_of_le (two_zpow_pos _) hs122
  -- the square root
  have hr' := abs_le.1 hr
  have hrr1 : s * (1 - η) ≤ r * r := by linarith [hr'.1]
  have hrr2 : r * r ≤ s * (1 + η) := by linarith [hr'.2]
  have hrr123 : (2 : ℚ) ^ (-123 : Int) ≤ r * r := by
    have e : (2 : ℚ) ^ (-123 : Int) = (2 : ℚ) ^ (-122 : Int) * (1 / 2) := by
      rw [show (-123 : Int) = -122 + -1 by norm_num, zpow_add₀ (by norm_num : (2 : ℚ) ≠ 0)]
      norm_num
    have : (2 : ℚ) ^ (-122 : Int) * (1 / 2) ≤ s * (1 - η) :=
      mul_le_mul hs122 (by linarith) (by norm_num) (le_of_lt hspos)
    rw [e]
    exact le_trans this hrr1
  have hrlo : (2 : ℚ) ^ (-62 : Int) ≤ r := by
    by_contra hlt
    have hlt' := not_le.1 hlt
    have : r * r < (2 : ℚ) ^ (-62 : Int) * (2 : ℚ) ^ (-62 : Int) :=
      mul_lt_mul'' hlt' hlt' hr0 hr0
    have e : (2 : ℚ) ^ (-62 : Int) * (2 : ℚ) ^ (-62 : Int) = (2 : ℚ) ^ (-124 : Int) := by
      rw [← zpow_add₀ (by norm_num : (2 : ℚ) ≠ 0)]
      norm_num
    have e2 : (2 : ℚ) ^ (-124 : Int) ≤ (2 : ℚ) ^ (-123 : Int) := two_zpow_mono (by norm_num)
    rw [e] at this
    exact absurd (lt_of_lt_of_le this e2) (not_lt.2 hrr123)
  have hrpos : 0 < r := lt_of_lt_of_le (two_zpow_pos _) hrlo
  have hs122u : s ≤ (2 : ℚ) ^ (122 : Int) := by
    have e : (2 : ℚ) ^ (122 : Int) = ((2 : ℚ) ^ (120 : Int) + (2 : ℚ) ^ (120 : Int)) * 2 := by
      rw [show (122 : Int) = 120 + 2 by norm_num, zpow_add₀ (by norm_num : (2 : ℚ) ≠ 0)]
      norm_num
    have h1 : (1 + u) * (1 + u) ≤ 2 := by nlinarith
    have : (a * a + b * b) * ((1 + u) * (1 + u)) ≤
        ((2 : ℚ) ^ (120 : Int) + (2 : ℚ) ^ (120 : Int)) * 2 :=
      mul_le_mul (add_le_add haU hbU) h1
        (mul_nonneg (by linarith) (by linarith)) (by positivity)
    rw [e]
    exact le_trans hshi this
  have hrhi : r ≤ (2 : ℚ) ^ (62 : Int) := by
    by_contra hgt
    have hgt' := not_le.1 hgt
    have h62 : (0 : ℚ) ≤ (2 : ℚ) ^ (62 : Int) := le_of_lt (two_zpow_pos _)
    have : (2 : ℚ) ^ (62 : Int) * (2 : ℚ) ^ (62 : Int) < r * r :=
      mul_lt_mul'' hgt' hgt' h62 h62
    have e : (2 : ℚ) ^ (62 : Int) * (2 : ℚ) ^ (62 : Int) = (2 : ℚ) ^ (124 : Int) := by
      rw [← zpow_add₀ (by norm_num : (2 : ℚ) ≠ 0)]
      norm_num
    have e2 : (2 : ℚ) ^ (124 : Int) = (2 : ℚ) ^ (122 : Int) * 4 := by
      rw [show (124 : Int) = 122 + 2 by norm_num, zpow_add₀ (by norm_num : (2 : ℚ) ≠ 0)]
      norm_num
    have h3 : s * (1 + η) ≤ (2 : ℚ) ^ (122 : Int) * 4 :=
      mul_le_mul hs122u (by linarith) (by linarith) (le_of_lt (two_zpow_pos _))
    rw [e, e2] at this
    exact absurd (lt_of_lt_of_le this (le_trans hrr2 h3)) (lt_irrefl _)
  -- the rounded length
  have hLrel := f32Round_rel r (Or.inr (by
    rw [abs_of_pos hrpos]
    exact le_trans (two_zpow_mono (by norm_num)) hrlo))
  rw [hu, abs_of_pos hrpos] at hLrel
  have hLrel' := abs_le.1 hLrel
  have hL1 : r * (1 - u) ≤ f32Round r := by linarith [hLrel'.1]
  have hL2 : f32Round r ≤ r * (1 + u) := by linarith [hLrel'.2]
  have hLpos : 0 < f32Round r := lt_of_lt_of_le (mul_pos hrpos (by linarith)) hL1
  have hLL := sq_bounds_of_rel (f32Round r) r u (le_of_lt hu0) (by linarith)
    (by rw [abs_of_pos hrpos]; exact hLrel)
  generalize f32Round r = L at *
  have hLhi : L ≤ (2 : ℚ) ^ (63 : Int) := by
    have e : (2 : ℚ) ^ (63 : Int) = (2 : ℚ) ^ (62 : Int) * 2 := by
      rw [show (63 : Int) = 62 + 1 by norm_num, zpow_add₀ (by norm_num : (2 : ℚ) ≠ 0)]
      norm_num
    have : r * (1 + u) ≤ (2 : ℚ) ^ (62 : Int) * 2 :=
      mul_le_mul hrhi (by linarith) (by linarith) (le_of_lt (two_zpow_pos _))
    rw [e]
    exact le_trans hL2 this
  -- the components
  have hcomp : ∀ c : ℚ, (c = 0 ∨ ((2 : ℚ) ^ (-60 : Int) ≤ |c| ∧ |c| ≤ (2 : ℚ) ^ (60 : Int))) →
      |f32Round (c / L) * L - c| ≤ |c| * u := by
    intro c hc
    have hrange : c / L = 0 ∨ (2 : ℚ) ^ (-126 : Int) ≤ |c / L| := by
      rcases hc with hc | ⟨hlo, _⟩
      · left
        rw [hc, zero_div]
      · right
        rw [abs_div, abs_of_pos hLpos, le_div_iff₀ hLpos]
        have e : (2 : ℚ) ^ (-126 : Int) * (2 : ℚ) ^ (63 : Int) = (2 : ℚ) ^ (-63 : Int) := by
          rw [← zpow_add₀ (by norm_num : (2 : ℚ) ≠ 0)]
          norm_num
        have h1 : (2 : ℚ) ^ (-126 : Int) * L ≤ (2 : ℚ) ^ (-126 : Int) * (2 : ℚ) ^ (63 : Int) :=
          mul_le_mul_of_nonneg_left hLhi (le_of_lt (two_zpow_pos _))
        have h2 : (2 : ℚ) ^ (-63 : Int) ≤ (2 : ℚ) ^ (-60 : Int) := two_zpow_mono (by norm_num)
        rw [e] at h1
        exact le_trans h1 (le_trans h2 hlo)
    have hrel := f32Round_rel (c / L) hrange
    rw [hu] at hrel
    have e1 : f32Round (c / L) * L - c = (f32Round (c / L) - c / L) * L := by
      field_simp
    have e2 : |c| * u = |c / L| * u * L := by
      rw [abs_div, abs_of_pos hLpos]
      field_simp
    rw [e1, e2, abs_mul, abs_of_pos hLpos]
    exact mul_le_mul_of_nonneg_right hrel (le_of_lt hLpos)
  have hX := hcomp a ha
  have hY := hcomp b hb
  -- the square of the length from below and above
  have hLLlo : (a * a + b * b) *
      ((1 - u) * (1 - u) * (1 - η) * ((1 - u) * (1 - u))) ≤ L * L := by
    have h1 := mul_le_mul_of_nonneg_right hslo (by linarith : 0 ≤ 1 - η)
    have h2 := mul_le_mul_of_nonneg_right (le_trans h1 hrr1) (mul_nonneg hA hA)
    linarith [hLL.1]
  have hLLhi : L * L ≤ (a * a + b * b) *
      ((1 + u) * (1 + u) * (1 + η) * ((1 + u) * (1 + u))) := by
    have h1 := mul_le_mul_of_nonneg_right hshi (by linarith : 0 ≤ 1 + η)
    have h2 := mul_le_mul_of_nonneg_right (le_trans hrr2 h1)
      (mul_nonneg (by linarith : 0 ≤ 1 + u) (by linarith : 0 ≤ 1 + u))
    linarith [hLL.2]
  have hchi := unit_const_hi
  have hclo := unit_const_lo
  have hlenlo := unit_const_len_lo
  have hlenhi := unit_const_len_hi
  rw [hu, hη] at hchi hclo hlenlo hlenhi
  have hε0 : (0 : ℚ) < (2 : ℚ) ^ (-21 : Int) := two_zpow_pos _
  have hε1 : (2 : ℚ) ^ (-21 : Int) ≤ 1 := by norm_num
  generalize (2 : ℚ) ^ (-21 : Int) = ε at *
  refine ⟨hLpos, hLhi, ?_, ?_, hX, hY, ?_⟩
  · exact le_trans (mul_le_mul_of_nonneg_left hlenlo (le_of_lt hNpos)) hLLlo
  · exact le_trans hLLhi (mul_le_mul_of_nonneg_left hlenhi (le_of_lt hNpos))
  obtain ⟨hX1, hX2⟩ := sq_bounds_of_rel _ a u (le_of_lt hu0) (by linarith) hX
  obtain ⟨hY1, hY2⟩ := sq_bounds_of_rel _ b u (le_of_lt hu0) (by linarith) hY
  generalize f32Round (a / L) = X at *
  generalize f32Round (b / L) = Y at *
  have hTL1 : (a * a + b * b) * ((1 - u) * (1 - u)) ≤ (X * X + Y * Y) * (L * L) := by linarith
  have hTL2 : (X * X + Y * Y) * (L * L) ≤ (a * a + b * b) * ((1 + u) * (1 + u)) := by linarith
  have hLLpos : 0 < L * L := mul_pos hLpos hLpos
  rw [abs_le]
  constructor
  · have h1 := mul_le_mul_of_nonneg_left hclo (le_of_lt hNpos)
    have h2 := mul_le_mul_of_nonneg_left hLLhi (by linarith : 0 ≤ 1 - ε)
    have h3 : (1 - ε) * (L * L) ≤ (X * X + Y * Y) * (L * L) := by linarith
    have := le_of_mul_le_mul_right h3 hLLpos
    linarith
  · have h1 := mul_le_mul_of_nonneg_left hchi (le_of_lt hNpos)
    have h2 := mul_le_mul_of_nonneg_left hLLlo (by linarith : 0 ≤ 1 + ε)
    have h3 : (X * X + Y * Y) * (L * L) ≤ (1 + ε) * (L * L) := by linarith
    have := le_of_mul_le_mul_right h3 hLLpos
    linarith

/-- Scaling a normalised vector `(X, Y)` by a ray length `R` in binary32: the
squared length of the result is `R * R` up to the relative error `2^-20`, and
each component of the result times the length `L` is the component of the
vector times `R` up to the relative error `2^-22`. -/
theorem ray32 (a b L X Y R : ℚ) (hL : 0 < L) (hLhi : L ≤ (2 : ℚ) ^ (63 : Int))
    (hR : R = L ∨ 1 ≤ R) (hR0 : 0 < R)
    (ha : a = 0 ∨ (2 : ℚ) ^ (-60 : Int) ≤ |a|) (hb : b = 0 ∨ (2 : ℚ) ^ (-60 : Int) ≤ |b|)
    (hX : |X * L - a| ≤ |a| * (2 : ℚ) ^ (-24 : Int))
    (hY : |Y * L - b| ≤ |b| * (2 : ℚ) ^ (-24 : Int))
    (hT : |X * X + Y * Y - 1| ≤ (2 : ℚ) ^ (-21 : Int)) :
    |f32Round (X * R) * f32Round (X * R) + f32Round (Y * R) * f32Round (Y * R) - R * R| ≤
        R * R * (2 : ℚ) ^ (-20 : Int) ∧
      |f32Round (X * R) * L - a * R| ≤ |a| * R * (2 : ℚ) ^ (-22 : Int) ∧
      |f32Round (Y * R) * L - b * R| ≤ |b| * R * (2 : ℚ) ^ (-22 : Int) := by
  have hu0 : (0 : ℚ) < (2 : ℚ) ^ (-24 : Int) := two_zpow_pos _
  have hu1 : (2 : ℚ) ^ (-24 : Int) ≤ 1 / 4 := by norm_num
  have hchi := ray_const_hi
  have hclo := ray_const_lo
  have hcdir := ray_const_dir
  have hrel : ∀ x : ℚ, (x = 0 ∨ (2 : ℚ) ^ (-126 : Int) ≤ |x|) →
      |f32Round x - x| ≤ |x| * (2 : ℚ) ^ (-24 : Int) := f32Round_rel
  have hδ0 : (0 : ℚ) < (2 : ℚ) ^ (-22 : Int) := two_zpow_pos _
  generalize (2 : ℚ) ^ (-24 : Int) = u at *
  generalize (2 : ℚ) ^ (-22 : Int) = δ at *
  have hrange : ∀ c Z : ℚ, (c = 0 ∨ (2 : ℚ) ^ (-60 : Int) ≤ |c|) →
      |Z * L - c| ≤ |c| * u →
      Z * R = 0 ∨ (2 : ℚ) ^ (-126 : Int) ≤ |Z * R| := by
    intro c Z hc hZ
    rcases hc with hc | hc
    · left
      rw [hc, abs_zero, zero_mul, sub_zero] at hZ
      have hZL : Z * L = 0 := abs_eq_zero.1 (le_antisymm hZ (abs_nonneg _))
      rcases mul_eq_zero.1 hZL with h | h
      · rw [h, zero_mul]
      · exact absurd h (ne_of_gt hL)
    · right
      have h1 : |c| - |Z * L| ≤ |c| * u := by
        have := abs_sub_abs_le_abs_sub c (Z * L)
        rw [abs_sub_comm c (Z * L)] at this
        linarith
      have h2 : |c| * (1 / 2) ≤ |Z * L| := by
        have : |c| * u ≤ |c| * (1 / 4) :=
          mul_le_mul_of_nonneg_left hu1 (abs_nonneg c)
        linarith [abs_nonneg c]
      have e61 : (2 : ℚ) ^ (-61 : Int) = (2 : ℚ) ^ (-60 : Int) * (1 / 2) := by
        rw [show (-61 : Int) = -60 + -1 by norm_num, zpow_add₀ (by norm_num : (2 : ℚ) ≠ 0)]
        norm_num
      have h3 : (2 : ℚ) ^ (-61 : Int) ≤ |Z| * L := by
        rw [e61]
        have := mul_le_mul_of_nonneg_right hc (by norm_num : (0 : ℚ) ≤ 1 / 2)
        rw [abs_mul, abs_of_pos hL] at h2
        exact le_trans this h2
      rw [abs_mul, abs_of_pos hR0]
      rcases hR with hR | hR
      · rw [hR]
        exact le_trans (two_zpow_mono (by norm_num)) h3
      · have h4 : (2 : ℚ) ^ (-126 : Int) ≤ |Z| := by
          by_contra hlt
          have hlt' := not_le.1 hlt
          have h5 : |Z| * L ≤ (2 : ℚ) ^ (-126 : Int) * (2 : ℚ) ^ (63 : Int) :=
            mul_le_mul (le_of_lt hlt') hLhi (le_of_lt hL) (le_of_lt (two_zpow_pos _))
          have e : (2 : ℚ) ^ (-126 : Int) * (2 : ℚ) ^ (63 : Int) = (2 : ℚ) ^ (-63 : Int) := by
            rw [← zpow_add₀ (by norm_num : (2 : ℚ) ≠ 0)]
            norm_num
          rw [e] at h5
          have h6 : (2 : ℚ) ^ (-63 : Int) < (2 : ℚ) ^ (-61 : Int) :=
            zpow_lt_zpow_right₀ (by norm_num) (by norm_num)
          exact absurd (lt_of_le_of_lt (le_trans h3 h5) h6) (lt_irrefl _)
        have : |Z| * 1 ≤ |Z| * R := mul_le_mul_of_nonneg_left hR (abs_nonneg Z)
        rw [mul_one] at this
        exact le_trans h4 this
  have hVX := hrel (X * R) (hrange a X ha hX)
  have hVY := hrel (Y * R) (hrange b Y hb hY)
  have hdir : ∀ c Z : ℚ, |Z * L - c| ≤ |c| * u →
      |f32Round (Z * R) - Z * R| ≤ |Z * R| * u →
      |f32Round (Z * R) * L - c * R| ≤ |c| * R * δ := by
    intro c Z hZ hV
    have e : f32Round (Z * R) * L - c * R = (f32Round (Z * R) - Z * R) * L + (Z * L - c) * R := by
      ring
    have h1 : |(f32Round (Z * R) - Z * R) * L| ≤ |Z * R| * u * L := by
      rw [abs_mul, abs_of_pos hL]
      exact mul_le_mul_of_nonneg_right hV (le_of_lt hL)
    have h2 : |(Z * L - c) * R| ≤ |c| * u * R := by
      rw [abs_mul, abs_of_pos hR0]
      exact mul_le_mul_of_nonneg_right hZ (le_of_lt hR0)
    have h3 : |Z * L| ≤ |c| * (1 + u) := by
      have := abs_sub_abs_le_abs_sub (Z * L) c
      linarith
    have h4 : |Z * R| * L = |Z * L| * R := by
      rw [abs_mul, abs_mul, abs_of_pos hL, abs_of_pos hR0]
      ring
    have h5 : |Z * R| * u * L ≤
        |c| * (1 + u) * R * u := by
      have e5 : |Z * R| * u * L = |Z * L| * (R * u) := by
        calc |Z * R| * u * L = |Z * R| * L * u := by ring
          _ = |Z * L| * R * u := by rw [h4]
          _ = |Z * L| * (R * u) := by ring
      rw [e5]
      have := mul_le_mul_of_nonneg_right h3
        (mul_nonneg (le_of_lt hR0) (le_of_lt hu0) : 0 ≤ R * u)
      calc |Z * L| * (R * u) ≤
            |c| * (1 + u) * (R * u) := this
        _ = |c| * (1 + u) * R * u := by ring
    have h6 : |c| * (1 + u) * R * u +
        |c| * u * R ≤ |c| * R * δ := by
      have := mul_le_mul_of_nonneg_left hcdir
        (mul_nonneg (abs_nonneg c) (le_of_lt hR0) : 0 ≤ |c| * R)
      calc |c| * (1 + u) * R * u +
            |c| * u * R =
            |c| * R * ((1 + u) * u +
              u) := by ring
        _ ≤ |c| * R * δ := this
    rw [e]
    exact le_trans (abs_add _ _) (le_trans (add_le_add h1 h2) (le_trans (add_le_add_right h5 _) h6))
  refine ⟨?_, hdir a X hX hVX, hdir b Y hY hVY⟩
  obtain ⟨hX1, hX2⟩ := sq_bounds_of_rel _ (X * R) u (le_of_lt hu0) (by linarith) hVX
  obtain ⟨hY1, hY2⟩ := sq_bounds_of_rel _ (Y * R) u (le_of_lt hu0) (by linarith) hVY
  generalize f32Round (X * R) = VX at *
  generalize f32Round (Y * R) = VY at *
  have hε0 : (0 : ℚ) < (2 : ℚ) ^ (-21 : Int) := two_zpow_pos _
  have hε1 : (2 : ℚ) ^ (-21 : Int) ≤ 1 := by norm_num
  generalize (2 : ℚ) ^ (-21 : Int) = ε at *
  generalize (2 : ℚ) ^ (-20 : Int) = ζ at *
  have hT' := abs_le.1 hT
  have hRR : 0 < R * R := mul_pos hR0 hR0
  have hA2 : 0 ≤ (1 - u) * (1 - u) := mul_nonneg (by linarith) (by linarith)
  have hB2 : 0 ≤ (1 + u) * (1 + u) := mul_nonneg (by linarith) (by linarith)
  have hS1 : (X * X + Y * Y) * (R * R) * ((1 - u) * (1 - u)) ≤ VX * VX + VY * VY := by
    linarith
  have hS2 : VX * VX + VY * VY ≤ (X * X + Y * Y) * (R * R) * ((1 + u) * (1 + u)) := by
    linarith
  have hlo : (1 - ε) * (R * R) * ((1 - u) * (1 - u)) ≤
      (X * X + Y * Y) * (R * R) * ((1 - u) * (1 - u)) :=
    mul_le_mul_of_nonneg_right
      (mul_le_mul_of_nonneg_right (by linarith [hT'.1]) (le_of_lt hRR)) hA2
  have hhi : (X * X + Y * Y) * (R * R) * ((1 + u) * (1 + u)) ≤
      (1 + ε) * (R * R) * ((1 + u) * (1 + u)) :=
    mul_le_mul_of_nonneg_right
      (mul_le_mul_of_nonneg_right (by linarith [hT'.2]) (le_of_lt hRR)) hB2
  have hclo' := mul_le_mul_of_nonneg_left hclo (le_of_lt hRR)
  have hchi' := mul_le_mul_of_nonneg_left hchi (le_of_lt hRR)
  rw [abs_le]
  constructor <;> linarith

theorem le_of_abs_rel (S Q A ζ : ℚ) (hζ : 0 ≤ ζ) (h : |S - Q| ≤ Q * ζ) (hQ : Q ≤ A) :
    S ≤ A * (1 + ζ) := by
  have h1 := abs_le.1 h
  have h2 := mul_le_mul_of_nonneg_right hQ (by linarith : 0 ≤ 1 + ζ)
  linarith [h1.2]

/-! ## Pistol in binary32: the direction of a spawned bullet -/

theorem Pistol.aimDirection32_eq (Sqrt : ℚ → ℚ) (player : Player) (mouseWorld : Vector2) :
    Pistol.aimDirection32 Sqrt player mouseWorld =
      if aimLength32 Sqrt player mouseWorld > 0 then
        { X := f32Round ((aimDifference32 player mouseWorld).X /
            aimLength32 Sqrt player mouseWorld)
          Y := f32Round ((aimDifference32 player mouseWorld).Y /
            aimLength32 Sqrt player mouseWorld) }
      else aimDifference32 player mouseWorld := rfl

theorem aimLength32_zero (Sqrt : ℚ → ℚ) (player : Player) (mouseWorld : Vector2)
    (hS : SqrtAccurate Sqrt (aimSquare32 player mouseWorld))
    (hx : (aimDifference32 player mouseWorld).X = 0)
    (hy : (aimDifference32 player mouseWorld).Y = 0) :
    aimLength32 Sqrt player mouseWorld = 0 := by
  have hs : aimSquare32 player mouseWorld = 0 := by
    unfold aimSquare32
    rw [hx, hy]
    simp [f32Round_zero]
  obtain ⟨_, h2⟩ := hS
  rw [hs, zero_mul, sub_zero] at h2
  have h3 : Sqrt 0 * Sqrt 0 = 0 := abs_eq_zero.1 (le_antisymm h2 (abs_nonneg _))
  have h4 : Sqrt 0 = 0 := mul_self_eq_zero.1 h3
  unfold aimLength32
  rw [hs, h4, f32Round_zero]

/-- C20 as stated fails.  When the aim point is the player's centre the
difference vector is zero, its length 0 is not positive, the direction is not
divided and the spawned bullet carries the zero vector, whose length is not 1
(`Sqrt` is called on 0 only, and returns 0), in exact arithmetic and in
binary32 alike.  And in binary32 the direction towards (3, 4), at the distance
5 that `Sqrt` returns exactly, is `(float32(0.6), float32(0.8))`, whose squared
length is not 1. -/
theorem bullet_direction_zero :
    NewPistol.CooldownTimer ≤ 0 ∧
      (NewPistol.OnActivate (fun _ => 0) playerAtOrigin ⟨0, 0⟩).Bullets =
        [{ Position := ⟨0, 0⟩, Direction := ⟨0, 0⟩, Speed := 240, LifeTimer := 1 / 2 }] ∧
      ((0 : ℚ) - playerAtOrigin.center.X) * ((0 : ℚ) - playerAtOrigin.center.X) +
        ((0 : ℚ) - playerAtOrigin.center.Y) * ((0 : ℚ) - playerAtOrigin.center.Y) = 0 ∧
      (¬ ∀ b ∈ (NewPistol.OnActivate (fun _ => 0) playerAtOrigin ⟨0, 0⟩).Bullets,
        b.Direction.X * b.Direction.X + b.Direction.Y * b.Direction.Y = 1) ∧
      (NewPistol32.OnActivate32 (fun _ => 0) playerAtOrigin ⟨0, 0⟩).Bullets =
        [{ Position := ⟨0, 0⟩, Direction := ⟨0, 0⟩, Speed := 240, LifeTimer := 1 / 2 }] ∧
      SqrtAccurate (fun _ => 5) (aimSquare32 playerAtOrigin ⟨3, 4⟩) ∧
      (NewPistol32.OnActivate32 (fun _ => 5) playerAtOrigin ⟨3, 4⟩).Bullets =
        [{ Position := ⟨0, 0⟩, Direction := ⟨f32Round (3 / 5), f32Round (4 / 5)⟩, Speed := 240,
           LifeTimer := 1 / 2 }] ∧
      f32Round (3 / 5) * f32Round (3 / 5) + f32Round (4 / 5) * f32Round (4 / 5) ≠ 1 := by
  refine ⟨by decide!, by decide!, by decide!, ?_, by decide!, by decide!, by decide!,
    by decide!⟩
  intro h
  have := h { Position := ⟨0, 0⟩, Direction := ⟨0, 0⟩, Speed := 240, LifeTimer := 1 / 2 }
    (by decide!)
  norm_num at this

/-- C20 amended, in binary32: a bullet spawned by `OnActivate` (fired with
`CooldownTimer ≤ 0`, `Sqrt` accurate at the sum of squares) starts at the
player's centre.  When the difference vector from the centre to the aim point
is not zero (its components zero or between `2^-60` and `2^60` in absolute
value), the bullet carries that vector divided by its rounded length `L`,
component by component in `float32`: a vector whose squared length is within
`2^-21` of 1 and that points from the centre to the aim point, each component
times `L` being the component of the difference up to the relative error
`2^-24`; `L * L` is the sum of squares up to the relative error `2^-21`.
When the difference vector is zero the bullet carries the zero vector. -/
theorem bullet_unit_direction (p : Pistol) (Sqrt : ℚ → ℚ) (player : Player)
    (mouseWorld : Vector2) (hcd : p.CooldownTimer ≤ 0)
    (hS : SqrtAccurate Sqrt (aimSquare32 player mouseWorld)) :
    ∃ b : Bullet,
      (p.OnActivate32 Sqrt player mouseWorld).Bullets = p.Bullets ++ [b] ∧
        b.Position = player.center32 ∧
        (InRange32 (aimDifference32 player mouseWorld).X →
          InRange32 (aimDifference32 player mouseWorld).Y →
          ((aimDifference32 player mouseWorld).X ≠ 0 ∨
            (aimDifference32 player mouseWorld).Y ≠ 0) →
          0 < aimLength32 Sqrt player mouseWorld ∧
            b.Direction =
              { X := f32Round ((aimDifference32 player mouseWorld).X /
                  aimLength32 Sqrt player mouseWorld)
                Y := f32Round ((aimDifference32 player mouseWorld).Y /
                  aimLength32 Sqrt player mouseWorld) } ∧
            |b.Direction.X * b.Direction.X + b.Direction.Y * b.Direction.Y - 1| ≤
              (2 : ℚ) ^ (-21 : Int) ∧
            |b.Direction.X * aimLength32 Sqrt player mouseWorld -
                (aimDifference32 player mouseWorld).X| ≤
              |(aimDifference32 player mouseWorld).X| * (2 : ℚ) ^ (-24 : Int) ∧
            |b.Direction.Y * aimLength32 Sqrt player mouseWorld -
                (aimDifference32 player mouseWorld).Y| ≤
              |(aimDifference32 player mouseWorld).Y| * (2 : ℚ) ^ (-24 : Int) ∧
            ((aimDifference32 player mouseWorld).X * (aimDifference32 player mouseWorld).X +
                (aimDifference32 player mouseWorld).Y * (aimDifference32 player mouseWorld).Y) *
                (1 - (2 : ℚ) ^ (-21 : Int)) ≤
              aimLength32 Sqrt player mouseWorld * aimLength32 Sqrt player mouseWorld ∧
            aimLength32 Sqrt player mouseWorld * aimLength32 Sqrt player mouseWorld ≤
              ((aimDifference32 player mouseWorld).X * (aimDifference32 player mouseWorld).X +
                (aimDifference32 player mouseWorld).Y * (aimDifference32 player mouseWorld).Y) *
                (1 + (2 : ℚ) ^ (-21 : Int))) ∧
        ((aimDifference32 player mouseWorld).X = 0 →
          (aimDifference32 player mouseWorld).Y = 0 → b.Direction = ⟨0, 0⟩) := by
  refine ⟨Bullet.spawned player.center32 (Pistol.aimDirection32 Sqrt player mouseWorld) 240,
    ?_, rfl, ?_, ?_⟩
  · rw [Pistol.OnActivate32_fire p Sqrt player mouseWorld hcd]
    rfl
  · intro hx hy hne
    obtain ⟨hL, _, hN1, hN2, hX, hY, hT⟩ :=
      unit32 (aimDifference32 player mouseWorld).X (aimDifference32 player mouseWorld).Y
        (Sqrt (aimSquare32 player mouseWorld)) hx hy hne hS.1 hS.2
    have hdir : (Bullet.spawned player.center32
        (Pistol.aimDirection32 Sqrt player mouseWorld) 240).Direction =
        { X := f32Round ((aimDifference32 player mouseWorld).X /
            aimLength32 Sqrt player mouseWorld)
          Y := f32Round ((aimDifference32 player mouseWorld).Y /
            aimLength32 Sqrt player mouseWorld) } := by
      have hL' : aimLength32 Sqrt player mouseWorld > 0 := hL
      show Pistol.aimDirection32 Sqrt player mouseWorld = _
      rw [Pistol.aimDirection32_eq, if_pos hL']
    rw [hdir]
    exact ⟨hL, rfl, hT, hX, hY, hN1, hN2⟩
  · intro hx hy
    have hL := aimLength32_zero Sqrt player mouseWorld hS hx hy
    show Pistol.aimDirection32 Sqrt player mouseWorld = _
    rw [Pistol.aimDirection32_eq, if_neg (by rw [hL]; exact lt_irrefl 0)]
    show (⟨(aimDifference32 player mouseWorld).X, (aimDifference32 player mouseWorld).Y⟩ :
      Vector2) = _
    rw [hx, hy]

/-- Witness of C20 amended: the aim point (1, 1) seen from a player centred at
the origin, at the distance of the square root of 2, which is not rational;
`Sqrt` returns its binary64 value. -/
theorem bullet_unit_direction_witness :
    ∃ b : Bullet,
      (NewPistol32.OnActivate32 (fun _ => sqrtTwo64) playerAtOrigin ⟨1, 1⟩).Bullets =
          NewPistol32.Bullets ++ [b] ∧
        |b.Direction.X * b.Direction.X + b.Direction.Y * b.Direction.Y - 1| ≤
          (2 : ℚ) ^ (-21 : Int) := by
  obtain ⟨b, hb, _, hunit, _⟩ :=
    bullet_unit_direction NewPistol32 (fun _ => sqrtTwo64) playerAtOrigin ⟨1, 1⟩ (by decide!)
      (by decide!)
  exact ⟨b, hb, (hunit (by decide!) (by decide!) (by decide!)).2.2.1⟩

/-! ## Ray gun in binary32: the stored ray -/

theorem RayGun.Draw32_eq (r : RayGun) (Sqrt : ℚ → ℚ) (player : Player) (mouseWorld : Vector2) :
    r.Draw32 Sqrt player mouseWorld =
      if !r.Active then r
      else if aimLength32 Sqrt player mouseWorld > 0 then
        { r with rayDirection :=
            { X := f32Round (f32Round ((aimDifference32 player mouseWorld).X /
                aimLength32 Sqrt player mouseWorld) * r.rayLength32 Sqrt player mouseWorld)
              Y := f32Round (f32Round ((aimDifference32 player mouseWorld).Y /
                aimLength32 Sqrt player mouseWorld) * r.rayLength32 Sqrt player mouseWorld) } }
      else r := rfl

theorem RayGun.rayLength32_eq (r : RayGun) (Sqrt : ℚ → ℚ) (player : Player)
    (mouseWorld : Vector2) (hA : IsF32 r.AimLength) :
    r.rayLength32 Sqrt player mouseWorld = min (aimLength32 Sqrt player mouseWorld) r.AimLength := by
  unfold RayGun.rayLength32
  rw [Min_eq_min]
  rcases min_choice (aimLength32 Sqrt player mouseWorld) r.AimLength with h | h
  · rw [h]
    exact isF32_f32Round _
  · rw [h]
    exact hA

/-- C26 as stated fails in binary32: the active ray gun of a player centred at
the origin aims at (300, 400), at the distance 500 that `Sqrt` returns exactly.
The stored ray is `(float32(float32(0.6) * 100), float32(float32(0.8) * 100))`,
which is not `(60, 80)`, and its squared length exceeds the square of
`AimLength` (100). -/
theorem rayGun_ray_exceeds_aimLength :
    rayGunJustActivated.Active = true ∧ rayGunJustActivated.AimLength = 100 ∧
      SqrtAccurate (fun _ => 500) (aimSquare32 playerAtOrigin ⟨300, 400⟩) ∧
      aimLength32 (fun _ => 500) playerAtOrigin ⟨300, 400⟩ = 500 ∧
      (rayGunJustActivated.Draw32 (fun _ => 500) playerAtOrigin ⟨300, 400⟩).rayDirection ≠
        ⟨60, 80⟩ ∧
      rayGunJustActivated.AimLength * rayGunJustActivated.AimLength <
        (rayGunJustActivated.Draw32 (fun _ => 500) playerAtOrigin ⟨300, 400⟩).rayDirection.X *
            (rayGunJustActivated.Draw32 (fun _ => 500) playerAtOrigin
              ⟨300, 400⟩).rayDirection.X +
          (rayGunJustActivated.Draw32 (fun _ => 500) playerAtOrigin ⟨300, 400⟩).rayDirection.Y *
            (rayGunJustActivated.Draw32 (fun _ => 500) playerAtOrigin
              ⟨300, 400⟩).rayDirection.Y := by
  refine ⟨by decide!, by decide!, by decide!, by decide!, by decide!, by decide!⟩

/-- C26 amended, in binary32: while the beam is active and the difference
vector from the player's centre to the aim point is not zero (its components
zero or between `2^-60` and `2^60` in absolute value, `Sqrt` accurate at the
sum of squares, `AimLength` a `float32` of at least 1; it is 100 for every ray
gun of the game), `Draw` stores as ray vector the normalised direction times
the ray length `min(L, AimLength)`, each product rounded to `float32`, `L` the
rounded length of the difference vector.  The squared length of the stored
vector is the square of the ray length up to the relative error `2^-20`, so it
is at most `AimLength * AimLength * (1 + 2^-20)`; each component times `L` is
the component of the difference times the ray length up to the relative error
`2^-22`; and `L * L` is the sum of squares up to the relative error `2^-21`. -/
theorem rayGun_ray_vector (r : RayGun) (Sqrt : ℚ → ℚ) (player : Player)
    (mouseWorld : Vector2) (hact : r.Active = true)
    (hS : SqrtAccurate Sqrt (aimSquare32 player mouseWorld))
    (hx : InRange32 (aimDifference32 player mouseWorld).X)
    (hy : InRange32 (aimDifference32 player mouseWorld).Y)
    (hne : (aimDifference32 player mouseWorld).X ≠ 0 ∨ (aimDifference32 player mouseWorld).Y ≠ 0)
    (hA : IsF32 r.AimLength) (hA1 : 1 ≤ r.AimLength) :
    0 < aimLength32 Sqrt player mouseWorld ∧
      (r.Draw32 Sqrt player mouseWorld).rayDirection =
        { X := f32Round (f32Round ((aimDifference32 player mouseWorld).X /
            aimLength32 Sqrt player mouseWorld) * r.rayLength32 Sqrt player mouseWorld)
          Y := f32Round (f32Round ((aimDifference32 player mouseWorld).Y /
            aimLength32 Sqrt player mouseWorld) * r.rayLength32 Sqrt player mouseWorld) } ∧
      r.rayLength32 Sqrt player mouseWorld =
        min (aimLength32 Sqrt player mouseWorld) r.AimLength ∧
      0 < r.rayLength32 Sqrt player mouseWorld ∧
      r.rayLength32 Sqrt player mouseWorld ≤ r.AimLength ∧
      |(r.Draw32 Sqrt player mouseWorld).rayDirection.X *
            (r.Draw32 Sqrt player mouseWorld).rayDirection.X +
          (r.Draw32 Sqrt player mouseWorld).rayDirection.Y *
            (r.Draw32 Sqrt player mouseWorld).rayDirection.Y -
          r.rayLength32 Sqrt player mouseWorld * r.rayLength32 Sqrt player mouseWorld| ≤
        r.rayLength32 Sqrt player mouseWorld * r.rayLength32 Sqrt player mouseWorld *
          (2 : ℚ) ^ (-20 : Int) ∧
      (r.Draw32 Sqrt player mouseWorld).rayDirection.X *
            (r.Draw32 Sqrt player mouseWorld).rayDirection.X +
          (r.Draw32 Sqrt player mouseWorld).rayDirection.Y *
            (r.Draw32 Sqrt player mouseWorld).rayDirection.Y ≤
        r.AimLength * r.AimLength * (1 + (2 : ℚ) ^ (-20 : Int)) ∧
      |(r.Draw32 Sqrt player mouseWorld).rayDirection.X * aimLength32 Sqrt player mouseWorld -
          (aimDifference32 player mouseWorld).X * r.rayLength32 Sqrt player mouseWorld| ≤
        |(aimDifference32 player mouseWorld).X| * r.rayLength32 Sqrt player mouseWorld *
          (2 : ℚ) ^ (-22 : Int) ∧
      |(r.Draw32 Sqrt player mouseWorld).rayDirection.Y * aimLength32 Sqrt player mouseWorld -
          (aimDifference32 player mouseWorld).Y * r.rayLength32 Sqrt player mouseWorld| ≤
        |(aimDifference32 player mouseWorld).Y| * r.rayLength32 Sqrt player mouseWorld *
          (2 : ℚ) ^ (-22 : Int) ∧
      ((aimDifference32 player mouseWorld).X * (aimDifference32 player mouseWorld).X +
          (aimDifference32 player mouseWorld).Y * (aimDifference32 player mouseWorld).Y) *
          (1 - (2 : ℚ) ^ (-21 : Int)) ≤
        aimLength32 Sqrt player mouseWorld * aimLength32 Sqrt player mouseWorld ∧
      aimLength32 Sqrt player mouseWorld * aimLength32 Sqrt player mouseWorld ≤
        ((aimDifference32 player mouseWorld).X * (aimDifference32 player mouseWorld).X +
          (aimDifference32 player mouseWorld).Y * (aimDifference32 player mouseWorld).Y) *
          (1 + (2 : ℚ) ^ (-21 : Int)) ∧
      (r.Draw32 Sqrt player mouseWorld).AimLength = r.AimLength := by
  obtain ⟨hL, hLhi, hN1, hN2, hX, hY, hT⟩ :=
    unit32 (aimDifference32 player mouseWorld).X (aimDifference32 player mouseWorld).Y
      (Sqrt (aimSquare32 player mouseWorld)) hx hy hne hS.1 hS.2
  have hL' : 0 < aimLength32 Sqrt player mouseWorld := hL
  have hR := RayGun.rayLength32_eq r Sqrt player mouseWorld hA
  have hR0 : 0 < r.rayLength32 Sqrt player mouseWorld := by
    rw [hR]
    exact lt_min hL' (by linarith)
  have hRA : r.rayLength32 Sqrt player mouseWorld ≤ r.AimLength := by
    rw [hR]
    exact min_le_right _ _
  have hRcase : r.rayLength32 Sqrt player mouseWorld = aimLength32 Sqrt player mouseWorld ∨
      1 ≤ r.rayLength32 Sqrt player mouseWorld := by
    rw [hR]
    rcases min_choice (aimLength32 Sqrt player mouseWorld) r.AimLength with h | h
    · exact Or.inl h
    · right
      rw [h]
      exact hA1
  have hlo : ∀ c : ℚ, InRange32 c → c = 0 ∨ (2 : ℚ) ^ (-60 : Int) ≤ |c| := by
    intro c hc
    rcases hc with h | ⟨h, _⟩
    · exact Or.inl h
    · exact Or.inr h
  obtain ⟨hV, hVX, hVY⟩ := ray32 (aimDifference32 player mouseWorld).X
    (aimDifference32 player mouseWorld).Y (aimLength32 Sqrt player mouseWorld) _ _
    (r.rayLength32 Sqrt player mouseWorld) hL' hLhi hRcase hR0 (hlo _ hx) (hlo _ hy) hX hY hT
  have hdraw : r.Draw32 Sqrt player mouseWorld =
      { r with rayDirection :=
          { X := f32Round (f32Round ((aimDifference32 player mouseWorld).X /
              aimLength32 Sqrt player mouseWorld) * r.rayLength32 Sqrt player mouseWorld)
            Y := f32Round (f32Round ((aimDifference32 player mouseWorld).Y /
              aimLength32 Sqrt player mouseWorld) * r.rayLength32 Sqrt player mouseWorld) } } := by
    rw [RayGun.Draw32_eq, hact]
    simp only [Bool.not_true, Bool.false_eq_true, if_false, if_pos hL']
  have hbound : f32Round (f32Round ((aimDifference32 player mouseWorld).X /
          aimLength32 Sqrt player mouseWorld) * r.rayLength32 Sqrt player mouseWorld) *
        f32Round (f32Round ((aimDifference32 player mouseWorld).X /
          aimLength32 Sqrt player mouseWorld) * r.rayLength32 Sqrt player mouseWorld) +
      f32Round (f32Round ((aimDifference32 player mouseWorld).Y /
          aimLength32 Sqrt player mouseWorld) * r.rayLength32 Sqrt player mouseWorld) *
        f32Round (f32Round ((aimDifference32 player mouseWorld).Y /
          aimLength32 Sqrt player mouseWorld) * r.rayLength32 Sqrt player mouseWorld) ≤
      r.AimLength * r.AimLength * (1 + (2 : ℚ) ^ (-20 : Int)) := by
    have hRR : r.rayLength32 Sqrt player mouseWorld * r.rayLength32 Sqrt player mouseWorld ≤
        r.AimLength * r.AimLength := mul_le_mul hRA hRA (le_of_lt hR0) (by linarith)
    exact le_of_abs_rel _ _ _ _ (le_of_lt (two_zpow_pos _)) hV hRR
  rw [hdraw]
  exact ⟨hL', rfl, hR, hR0, hRA, hV, hbound, hVX, hVY, hN1, hN2, rfl⟩

/-- Witness of C26 amended: the active ray gun of a player centred at the
origin aims at (100, 100), at a distance that is not rational; `Sqrt` returns
the binary64 value of the square root of 20000.  The stored ray has a squared
length within `2^-20` of the square of the ray length, which is `AimLength`. -/
theorem rayGun_ray_vector_witness :
    rayGunJustActivated.rayLength32 (fun _ => sqrt20000) playerAtOrigin ⟨100, 100⟩ = 100 ∧
      |(rayGunJustActivated.Draw32 (fun _ => sqrt20000) playerAtOrigin
              ⟨100, 100⟩).rayDirection.X *
            (rayGunJustActivated.Draw32 (fun _ => sqrt20000) playerAtOrigin
              ⟨100, 100⟩).rayDirection.X +
          (rayGunJustActivated.Draw32 (fun _ => sqrt20000) playerAtOrigin
              ⟨100, 100⟩).rayDirection.Y *
            (rayGunJustActivated.Draw32 (fun _ => sqrt20000) playerAtOrigin
              ⟨100, 100⟩).rayDirection.Y -
          rayGunJustActivated.rayLength32 (fun _ => sqrt20000) playerAtOrigin ⟨100, 100⟩ *
            rayGunJustActivated.rayLength32 (fun _ => sqrt20000) playerAtOrigin ⟨100, 100⟩| ≤
        rayGunJustActivated.rayLength32 (fun _ => sqrt20000) playerAtOrigin ⟨100, 100⟩ *
            rayGunJustActivated.rayLength32 (fun _ => sqrt20000) playerAtOrigin ⟨100, 100⟩ *
          (2 : ℚ) ^ (-20 : Int) :=
  ⟨by decide!,
    (rayGun_ray_vector rayGunJustActivated (fun _ => sqrt20000) playerAtOrigin ⟨100, 100⟩
      (by decide!) (by decide!) (by decide!) (by decide!) (by decide!) (by decide!)
      (by decide!)).2.2.2.2.2.1⟩

/-! ## Combat resolver in binary32: when damage is applied -/

theorem Game.weaponDamage32_miss (g : Game) (player : Player) (w : Weapon) (enemy : Enemy)
    (h : ¬ (w.hitTest32 player enemy.GetBounds32 = true ∧ enemy.DamageCooldown ≤ 0)) :
    g.weaponDamage32 player w enemy = (g, enemy) := by
  cases w with
  | rayGun raygun =>
    simp only [Weapon.hitTest32] at h
    unfold Game.weaponDamage32
    simp only []
    split_ifs with h1 h2 h3
    · exact absurd ⟨h2, h3⟩ h
    · rfl
    · rfl
    · rfl
  | sword sword =>
    simp only [Weapon.hitTest32] at h
    unfold Game.weaponDamage32
    simp only []
    split_ifs with h2 h3
    · exact absurd ⟨h2, h3⟩ h
    · rfl
    · rfl
  | pistol pistol =>
    simp only [Weapon.hitTest32] at h
    unfold Game.weaponDamage32
    simp only []
    split_ifs with h2 h3
    · exact absurd ⟨h2, h3⟩ h
    · rfl
    · rfl

theorem Game.weaponDamage32_hit (g : Game) (player : Player) (w : Weapon) (enemy : Enemy)
    (hw : w.Reachable32) (hhit : w.hitTest32 player enemy.GetBounds32 = true)
    (hcd : enemy.DamageCooldown ≤ 0) :
    (g.weaponDamage32 player w enemy).2 =
        { enemy.TakeDamage32 w.damageAmount with DamageCooldown := w.cooldownInterval32 } ∧
      (g.weaponDamage32 player w enemy).1.particles.length = g.particles.length + 1 := by
  cases w with
  | rayGun raygun =>
    obtain ⟨calls, hcalls, rfl⟩ := hw
    have hinv := RayGun.inv32_run calls NewRayGun RayGun.inv32_new hcalls
    simp only [Weapon.hitTest32] at hhit
    have hA : (NewRayGun.run32 calls).Active = true := by
      by_contra hA
      have hA' : (NewRayGun.run32 calls).Active = false := by simpa using hA
      rw [RayGun.inactive_no_hit32 _ _ _ hA'] at hhit
      exact Bool.false_ne_true hhit
    have hO : (NewRayGun.run32 calls).IsOverheated = false := by
      cases hO : (NewRayGun.run32 calls).IsOverheated with
      | false => rfl
      | true => exact absurd hA (by simp [(hinv.2.2.2.2.2.1 hO).1])
    simp [Game.weaponDamage32, hA, hO, hhit, hcd, Weapon.damageAmount, Weapon.cooldownInterval32]
  | sword sword =>
    simp only [Weapon.hitTest32] at hhit
    simp [Game.weaponDamage32, hhit, hcd, Weapon.damageAmount, Weapon.cooldownInterval32]
  | pistol pistol =>
    simp only [Weapon.hitTest32] at hhit
    simp [Game.weaponDamage32, hhit, hcd, Weapon.damageAmount, Weapon.cooldownInterval32]

theorem Game.damageApplied32_iff (g : Game) (player : Player) (w : Weapon) (enemy : Enemy)
    (hw : w.Reachable32) :
    g.DamageApplied32 player w enemy ↔
      (w.hitTest32 player enemy.GetBounds32 = true ∧ enemy.DamageCooldown ≤ 0) := by
  constructor
  · intro happ
    by_contra hno
    exact happ (Game.weaponDamage32_miss g player w enemy hno)
  · intro hyes heq
    have hlen := (Game.weaponDamage32_hit g player w enemy hw hyes.1 hyes.2).2
    rw [heq] at hlen
    simp at hlen

theorem Enemy.Update32_DamageCooldown (e : Enemy) (Sqrt : ℚ → ℚ) (frameTime : ℚ)
    (player : Player) :
    (e.Update32 Sqrt frameTime player).DamageCooldown =
      if e.DamageCooldown > 0 then f32Round (e.DamageCooldown - frameTime)
      else e.DamageCooldown := by
  unfold Enemy.Update32 Enemy.fadeText32 Enemy.move32 Enemy.normalize32 Enemy.turn Enemy.aim32
    Enemy.coolDown32
  simp only []
  split_ifs <;> rfl

theorem Enemy.Update32_CurrentHealth (e : Enemy) (Sqrt : ℚ → ℚ) (frameTime : ℚ)
    (player : Player) : (e.Update32 Sqrt frameTime player).CurrentHealth = e.CurrentHealth := by
  unfold Enemy.Update32 Enemy.fadeText32 Enemy.move32 Enemy.normalize32 Enemy.turn Enemy.aim32
    Enemy.coolDown32
  simp only []
  split_ifs <;> rfl

theorem Enemy.TakeDamage32_CurrentHealth (e : Enemy) (damage : Int)
    (hlo : -2 ^ 31 ≤ e.CurrentHealth - damage) (hhi : e.CurrentHealth - damage < 2 ^ 31) :
    (e.TakeDamage32 damage).CurrentHealth = max 0 (e.CurrentHealth - damage) := by
  unfold Enemy.TakeDamage32
  simp only [wrapInt32_of_range hlo hhi]
  split_ifs with h
  · exact (max_eq_left (le_of_lt h)).symm
  · exact (max_eq_right (not_lt.1 h)).symm

theorem Game.beforeWeaponDamage32_enemy (g : Game) (Sqrt : ℚ → ℚ) (frameTime : ℚ)
    (player : Player) (enemy : Enemy) :
    (g.beforeWeaponDamage32 Sqrt frameTime player enemy).2.2 =
      enemy.Update32 Sqrt frameTime player := by
  unfold Game.beforeWeaponDamage32
  simp only []
  split_ifs <;> rfl

theorem Game.enemyLoopBody32_enemy (g : Game) (Sqrt : ℚ → ℚ) (t : TickInput) (enemy : Enemy) :
    (g.enemyLoopBody32 Sqrt t.frameTime t.player t.weapon enemy).2.2 =
      ((g.beforeWeaponDamage32 Sqrt t.frameTime t.player enemy).1.weaponDamage32
        (g.beforeWeaponDamage32 Sqrt t.frameTime t.player enemy).2.1 t.weapon
        (enemy.Update32 Sqrt t.frameTime t.player)).2 := by
  simp only [Game.enemyLoopBody32, Game.beforeWeaponDamage32_enemy]

theorem Game.tickApplies32_iff (g : Game) (Sqrt : ℚ → ℚ) (t : TickInput) (enemy : Enemy)
    (hw : t.weapon.Reachable32) :
    g.TickApplies32 Sqrt t enemy ↔
      (g.TickHits32 Sqrt t enemy ∧
        (enemy.Update32 Sqrt t.frameTime t.player).DamageCooldown ≤ 0) := by
  unfold Game.TickApplies32 Game.TickHits32
  rw [Game.damageApplied32_iff _ _ _ _ hw, Game.beforeWeaponDamage32_enemy]

/-! ## The cooldown clock of a target in binary32 -/

theorem countdown32_cons (c dt : ℚ) (dts : List ℚ) :
    countdown32 c (dt :: dts) =
      countdown32 (if c > 0 then f32Round (c - dt) else c) dts := rfl

theorem countdown32_append (c : ℚ) (xs ys : List ℚ) :
    countdown32 c (xs ++ ys) = countdown32 (countdown32 c xs) ys := by
  simp [countdown32, List.foldl_append]

theorem countdown32_of_nonpos (c : ℚ) (dts : List ℚ) (h : c ≤ 0) : countdown32 c dts = c := by
  induction dts with
  | nil => rfl
  | cons dt dts ih => rw [countdown32_cons, if_neg (not_lt.2 h), ih]

theorem countdown32_pos_prefix (c : ℚ) (xs ys : List ℚ) (h : 0 < countdown32 c (xs ++ ys)) :
    0 < countdown32 c xs := by
  by_contra hneg
  rw [countdown32_append, countdown32_of_nonpos _ ys (not_lt.1 hneg)] at h
  exact hneg h

/-- The cooldown clock of a target after the frames `dts`, in binary32, for an
interval `I` of at most 0.5 s, `T` the time and `n` the number of frames that
have passed before: the clock stays a binary32 number of at most `I`; while it
is positive it is `I` less the elapsed time up to `2^-26` per frame; and when
it has run out, the elapsed time has reached `I` up to that allowance. -/
theorem countdown32_bounds (I : ℚ) (hI : I ≤ 1 / 2) (dts : List ℚ)
    (hdt : ∀ dt ∈ dts, 0 ≤ dt) (c T : ℚ) (n : ℕ) (hf : IsF32 c) (hc : c ≤ I)
    (h1 : 0 < c → |c - (I - T)| ≤ n * (2 : ℚ) ^ (-26 : Int))
    (h2 : c ≤ 0 → I ≤ T + n * (2 : ℚ) ^ (-26 : Int)) :
    IsF32 (countdown32 c dts) ∧ countdown32 c dts ≤ I ∧
      (0 < countdown32 c dts →
        |countdown32 c dts - (I - (T + dts.sum))| ≤
          ((n + dts.length : ℕ) : ℚ) * (2 : ℚ) ^ (-26 : Int)) ∧
      (countdown32 c dts ≤ 0 →
        I ≤ T + dts.sum + ((n + dts.length : ℕ) : ℚ) * (2 : ℚ) ^ (-26 : Int)) := by
  induction dts generalizing c T n with
  | nil =>
    simp only [List.sum_nil, List.length_nil, add_zero]
    exact ⟨hf, hc, h1, h2⟩
  | cons dt dts ih =>
    have hd : 0 ≤ dt := hdt dt (List.mem_cons_self dt dts)
    have hds : ∀ x ∈ dts, 0 ≤ x := fun x hx => hdt x (List.mem_cons_of_mem dt hx)
    obtain ⟨s1, s2, s3, s4⟩ := cooldown_step32 (-2) (by norm_num) I T c dt n hd
      (by norm_num; linarith) hf hc
      (fun h => by have := h1 h; norm_num at this ⊢; exact this)
      (fun h => by have := h2 h; norm_num at this ⊢; exact this)
    have key := ih hds (if c > 0 then f32Round (c - dt) else c) (T + dt) (n + 1) s1 s2
      (fun h => by have := s3 h; norm_num at this ⊢; exact this)
      (fun h => by have := s4 h; norm_num at this ⊢; exact this)
    have hlen : n + (dt :: dts).length = n + 1 + dts.length := by
      simp only [List.length_cons]; omega
    have hsm : T + (dt :: dts).sum = T + dt + dts.sum := by
      simp only [List.sum_cons]; ring
    rw [countdown32_cons, hlen, hsm]
    exact key

theorem Weapon.cooldownInterval32_spec (w : Weapon) :
    IsF32 w.cooldownInterval32 ∧ 0 < w.cooldownInterval32 ∧ w.cooldownInterval32 ≤ 1 / 2 := by
  cases w <;> simp only [Weapon.cooldownInterval32] <;>
    exact ⟨by decide!, by decide!, by decide!⟩

/-- While the cooldown clock of an enemy stays positive over the frames, no
frame applies damage: the cooldown is the binary32 countdown and the health is
untouched. -/
theorem Game.enemyTicks32_cooling (Sqrt : ℚ → ℚ) (ticks : List TickInput) (g : Game)
    (enemy : Enemy)
    (hpos : 0 < countdown32 enemy.DamageCooldown (ticks.map TickInput.frameTime)) :
    (g.enemyTicks32 Sqrt enemy ticks).2.DamageCooldown =
        countdown32 enemy.DamageCooldown (ticks.map TickInput.frameTime) ∧
      (g.enemyTicks32 Sqrt enemy ticks).2.CurrentHealth = enemy.CurrentHealth := by
  induction ticks generalizing g enemy with
  | nil => exact ⟨rfl, rfl⟩
  | cons t ts ih =>
    simp only [List.map_cons] at hpos
    rw [countdown32_cons] at hpos
    have hcd : (enemy.Update32 Sqrt t.frameTime t.player).DamageCooldown =
        (if enemy.DamageCooldown > 0 then f32Round (enemy.DamageCooldown - t.frameTime)
          else enemy.DamageCooldown) := Enemy.Update32_DamageCooldown enemy Sqrt t.frameTime t.player
    have hstep : 0 < (enemy.Update32 Sqrt t.frameTime t.player).DamageCooldown := by
      rw [hcd]
      have := countdown32_pos_prefix _ [] (ts.map TickInput.frameTime) hpos
      exact this
    have hmiss := Game.weaponDamage32_miss
      (g.beforeWeaponDamage32 Sqrt t.frameTime t.player enemy).1
      (g.beforeWeaponDamage32 Sqrt t.frameTime t.player enemy).2.1 t.weapon
      (enemy.Update32 Sqrt t.frameTime t.player)
      (by intro h; exact absurd hstep (not_lt.2 h.2))
    have hbody : (g.enemyLoopBody32 Sqrt t.frameTime t.player t.weapon enemy).2.2 =
        enemy.Update32 Sqrt t.frameTime t.player := by
      rw [Game.enemyLoopBody32_enemy, hmiss]
    have key := ih (g.enemyLoopBody32 Sqrt t.frameTime t.player t.weapon enemy).1
      (g.enemyLoopBody32 Sqrt t.frameTime t.player t.weapon enemy).2.2
      (by rw [hbody, hcd]; exact hpos)
    simp only [Game.enemyTicks32, List.map_cons]
    rw [key.1, key.2, hbody, hcd, Enemy.Update32_CurrentHealth, countdown32_cons]
    exact ⟨rfl, rfl⟩

/-! ## Damage-cooldown gating over consecutive frames in binary32 -/

/-- C8 as stated fails in binary32.  At sixty frames per second a pistol hits
an enemy with cooldown 0 in every frame (its bullet rests on the enemy).  The
first frame applies damage and sets the cooldown to `float32(0.2)`.  After
twelve more frames the accumulated frame time has reached that interval, yet
the twelfth frame applies no damage: the clock of the target is still
positive.  The thirteenth frame does. -/
theorem cooldown_outlasts_interval :
    enemyOnPlayer.DamageCooldown = 0 ∧
      Game.TickApplies32 ⟨[], 0, 0⟩ (fun _ => 0) (pistolFrame60 1) enemyOnPlayer ∧
      (pistolFrame60 1).weapon.cooldownInterval32 ≤
        (((List.range 12).map fun k => pistolFrame60 (k + 2)).map TickInput.frameTime).sum ∧
      (∀ k ∈ List.range 13,
        (Game.enemyTicks32 ⟨[], 0, 0⟩ (fun _ => 0) enemyOnPlayer
            (pistolFrame60 1 :: (List.range k).map fun j => pistolFrame60 (j + 2))).1.TickHits32
          (fun _ => 0) (pistolFrame60 (k + 2))
          (Game.enemyTicks32 ⟨[], 0, 0⟩ (fun _ => 0) enemyOnPlayer
            (pistolFrame60 1 :: (List.range k).map fun j => pistolFrame60 (j + 2))).2) ∧
      ¬ (Game.enemyTicks32 ⟨[], 0, 0⟩ (fun _ => 0) enemyOnPlayer
            (pistolFrame60 1 :: (List.range 11).map fun j => pistolFrame60 (j + 2))).1.TickApplies32
          (fun _ => 0) (pistolFrame60 13)
          (Game.enemyTicks32 ⟨[], 0, 0⟩ (fun _ => 0) enemyOnPlayer
            (pistolFrame60 1 :: (List.range 11).map fun j => pistolFrame60 (j + 2))).2 ∧
      0 < (Game.enemyTicks32 ⟨[], 0, 0⟩ (fun _ => 0) enemyOnPlayer
            (pistolFrame60 1 :: (List.range 12).map fun j => pistolFrame60 (j + 2))).2.DamageCooldown ∧
      (Game.enemyTicks32 ⟨[], 0, 0⟩ (fun _ => 0) enemyOnPlayer
            (pistolFrame60 1 :: (List.range 12).map fun j => pistolFrame60 (j + 2))).1.TickApplies32
          (fun _ => 0) (pistolFrame60 14)
          (Game.enemyTicks32 ⟨[], 0, 0⟩ (fun _ => 0) enemyOnPlayer
            (pistolFrame60 1 :: (List.range 12).map fun j => pistolFrame60 (j + 2))).2 := by
  refine ⟨by decide!, by decide!, by decide!, by decide!, by decide!, by decide!, by decide!⟩

/-- C8 amended, in binary32: an enemy with cooldown 0 that survives the first
hit, and weapons (reachable, of any type, possibly different from frame to
frame) that hit it in every frame, frame times not negative.  With `I` the
`float32` cooldown interval of the weapon of the first frame, `t` the frame
time accumulated since the first frame and `n` the number of frames since
then: the first frame applies damage; a later frame with `t + n * 2^-26 < I`
applies no damage and the enemy is still alive; as long as the `float32`
clock of the target has stayed positive it is the binary32 countdown of `I`,
and the next frame applies damage exactly if it brings the countdown to 0 or
below; that is the case at a frame with `t ≥ I + n * 2^-26` when the frame
before still had `t + n * 2^-26 < I`. -/
theorem damage_cooldown_gating (Sqrt : ℚ → ℚ) (g : Game) (enemy : Enemy) (first : TickInput)
    (later : List TickInput) (hcd : enemy.DamageCooldown = 0)
    (halive : first.weapon.damageAmount < enemy.CurrentHealth)
    (hrange : enemy.CurrentHealth < 2 ^ 31)
    (hdt : ∀ t ∈ later, 0 ≤ t.frameTime)
    (hw0 : first.weapon.Reachable32) (hw : ∀ t ∈ later, t.weapon.Reachable32)
    (hhit0 : g.TickHits32 Sqrt first enemy)
    (hhit : ∀ (pre : List TickInput) (t : TickInput) (post : List TickInput),
      later = pre ++ t :: post →
      (g.enemyTicks32 Sqrt enemy (first :: pre)).1.TickHits32 Sqrt t
        (g.enemyTicks32 Sqrt enemy (first :: pre)).2) :
    g.TickApplies32 Sqrt first enemy ∧
      ∀ (pre : List TickInput) (t : TickInput) (post : List TickInput),
        later = pre ++ t :: post →
        ((pre.map TickInput.frameTime).sum + t.frameTime +
              ((pre.length + 1 : ℕ) : ℚ) * (2 : ℚ) ^ (-26 : Int) <
            first.weapon.cooldownInterval32 →
          ¬ (g.enemyTicks32 Sqrt enemy (first :: pre)).1.TickApplies32 Sqrt t
              (g.enemyTicks32 Sqrt enemy (first :: pre)).2 ∧
            (g.enemyTicks32 Sqrt enemy (first :: pre)).2.IsDead = false) ∧
        (0 < countdown32 first.weapon.cooldownInterval32 (pre.map TickInput.frameTime) →
          (g.enemyTicks32 Sqrt enemy (first :: pre)).2.DamageCooldown =
              countdown32 first.weapon.cooldownInterval32 (pre.map TickInput.frameTime) ∧
            ((g.enemyTicks32 Sqrt enemy (first :: pre)).1.TickApplies32 Sqrt t
                (g.enemyTicks32 Sqrt enemy (first :: pre)).2 ↔
              countdown32 first.weapon.cooldownInterval32
                (pre.map TickInput.frameTime ++ [t.frameTime]) ≤ 0)) ∧
        ((pre.map TickInput.frameTime).sum + (pre.length : ℚ) * (2 : ℚ) ^ (-26 : Int) <
            first.weapon.cooldownInterval32 →
          first.weapon.cooldownInterval32 + ((pre.length + 1 : ℕ) : ℚ) * (2 : ℚ) ^ (-26 : Int) ≤
            (pre.map TickInput.frameTime).sum + t.frameTime →
          (g.enemyTicks32 Sqrt enemy (first :: pre)).1.TickApplies32 Sqrt t
            (g.enemyTicks32 Sqrt enemy (first :: pre)).2) := by
  obtain ⟨hIf, hI0, hI2⟩ := Weapon.cooldownInterval32_spec first.weapon
  have hcd0 : (enemy.Update32 Sqrt first.frameTime first.player).DamageCooldown = 0 := by
    rw [Enemy.Update32_DamageCooldown, hcd]
    simp
  have happ0 : g.TickApplies32 Sqrt first enemy :=
    (Game.tickApplies32_iff g Sqrt first enemy hw0).2 ⟨hhit0, le_of_eq hcd0⟩
  have hfirst := Game.weaponDamage32_hit
    (g.beforeWeaponDamage32 Sqrt first.frameTime first.player enemy).1
    (g.beforeWeaponDamage32 Sqrt first.frameTime first.player enemy).2.1 first.weapon
    (enemy.Update32 Sqrt first.frameTime first.player) hw0
    (by
      have := hhit0
      unfold Game.TickHits32 at this
      rwa [Game.beforeWeaponDamage32_enemy] at this)
    (le_of_eq hcd0)
  have he1 := Game.enemyLoopBody32_enemy g Sqrt first enemy
  rw [hfirst.1] at he1
  have hcd1 : (g.enemyLoopBody32 Sqrt first.frameTime first.player first.weapon
      enemy).2.2.DamageCooldown = first.weapon.cooldownInterval32 := by rw [he1]
  have hd0 : 0 < first.weapon.damageAmount := by
    cases first.weapon <;> norm_num [Weapon.damageAmount]
  have hh1 : 0 < (g.enemyLoopBody32 Sqrt first.frameTime first.player first.weapon
      enemy).2.2.CurrentHealth := by
    rw [he1]
    show 0 < ((enemy.Update32 Sqrt first.frameTime first.player).TakeDamage32
      first.weapon.damageAmount).CurrentHealth
    rw [Enemy.TakeDamage32_CurrentHealth _ _
      (by rw [Enemy.Update32_CurrentHealth]; omega)
      (by rw [Enemy.Update32_CurrentHealth]; omega), Enemy.Update32_CurrentHealth]
    exact lt_max_of_lt_right (by omega)
  refine ⟨happ0, ?_⟩
  intro pre t post hsplit
  have hpre : ∀ dt ∈ pre.map TickInput.frameTime, 0 ≤ dt := by
    intro dt hmem
    obtain ⟨u, hu, rfl⟩ := List.mem_map.1 hmem
    exact hdt u (by rw [hsplit]; exact List.mem_append_left _ hu)
  have htmem : t ∈ later := by rw [hsplit]; simp
  have ht : 0 ≤ t.frameTime := hdt t htmem
  have hall : ∀ dt ∈ pre.map TickInput.frameTime ++ [t.frameTime], 0 ≤ dt := by
    intro dt hmem
    rcases List.mem_append.1 hmem with h | h
    · exact hpre dt h
    · rw [List.mem_singleton.1 h]
      exact ht
  have hb1 := countdown32_bounds first.weapon.cooldownInterval32 hI2
    (pre.map TickInput.frameTime) hpre first.weapon.cooldownInterval32 0 0 hIf (le_refl _)
    (fun _ => by simp) (fun h => by simpa using h)
  have hb2 := countdown32_bounds first.weapon.cooldownInterval32 hI2
    (pre.map TickInput.frameTime ++ [t.frameTime]) hall first.weapon.cooldownInterval32 0 0 hIf
    (le_refl _) (fun _ => by simp) (fun h => by simpa using h)
  simp only [zero_add, List.length_map, List.length_append, List.length_singleton,
    List.sum_append, List.sum_singleton] at hb1 hb2
  have hcool : 0 < countdown32 first.weapon.cooldownInterval32 (pre.map TickInput.frameTime) →
      (g.enemyTicks32 Sqrt enemy (first :: pre)).2.DamageCooldown =
          countdown32 first.weapon.cooldownInterval32 (pre.map TickInput.frameTime) ∧
        0 < (g.enemyTicks32 Sqrt enemy (first :: pre)).2.CurrentHealth := by
    intro hpos
    have := Game.enemyTicks32_cooling Sqrt pre
      (g.enemyLoopBody32 Sqrt first.frameTime first.player first.weapon enemy).1
      (g.enemyLoopBody32 Sqrt first.frameTime first.player first.weapon enemy).2.2
      (by rw [hcd1]; exact hpos)
    simp only [Game.enemyTicks32]
    rw [this.1, this.2, hcd1]
    exact ⟨rfl, hh1⟩
  have hiff := Game.tickApplies32_iff (g.enemyTicks32 Sqrt enemy (first :: pre)).1 Sqrt t
    (g.enemyTicks32 Sqrt enemy (first :: pre)).2 (hw t htmem)
  have hstruct : 0 < countdown32 first.weapon.cooldownInterval32
        (pre.map TickInput.frameTime) →
      ((g.enemyTicks32 Sqrt enemy (first :: pre)).1.TickApplies32 Sqrt t
          (g.enemyTicks32 Sqrt enemy (first :: pre)).2 ↔
        countdown32 first.weapon.cooldownInterval32
          (pre.map TickInput.frameTime ++ [t.frameTime]) ≤ 0) := by
    intro hpos
    have hc := hcool hpos
    rw [hiff, Enemy.Update32_DamageCooldown, hc.1, countdown32_append]
    constructor
    · intro h
      exact h.2
    · intro h
      exact ⟨hhit pre t post hsplit, h⟩
  refine ⟨?_, fun hpos => ⟨(hcool hpos).1, hstruct hpos⟩, ?_⟩
  · intro hlt
    have hpos2 : 0 < countdown32 first.weapon.cooldownInterval32
        (pre.map TickInput.frameTime ++ [t.frameTime]) := by
      by_contra hneg
      have := hb2.2.2.2 (not_lt.1 hneg)
      linarith
    have hpos1 := countdown32_pos_prefix _ _ _ hpos2
    refine ⟨?_, ?_⟩
    · rw [hstruct hpos1]
      exact not_le.2 hpos2
    · simp only [Enemy.IsDead, decide_eq_false_iff_not, not_le]
      exact (hcool hpos1).2
  · intro hlt hge
    have hpos1 : 0 < countdown32 first.weapon.cooldownInterval32
        (pre.map TickInput.frameTime) := by
      by_contra hneg
      have := hb1.2.2.2 (not_lt.1 hneg)
      linarith
    rw [hstruct hpos1]
    by_contra hpos2
    have h3 := abs_le.1 (hb2.2.2.1 (not_le.1 hpos2))
    linarith [h3.2, not_le.1 hpos2]

/-- Witness of C8 amended: ray gun hit at cooldown 0 (interval
`float32(1/3)`), a sword hit 0.25 s later is rejected, the ray gun hit 0.5 s
later is applied. -/
theorem damage_cooldown_gating_witness :
    Game.TickApplies32 ⟨[], 0, 0⟩ (fun _ => 0) gatingFirst32 enemyOnPlayer ∧
      (¬ (Game.enemyTicks32 ⟨[], 0, 0⟩ (fun _ => 0) enemyOnPlayer [gatingFirst32]).1.TickApplies32
            (fun _ => 0) ⟨1 / 4, playerAtOrigin, Weapon.sword swordMidSlash⟩
            (Game.enemyTicks32 ⟨[], 0, 0⟩ (fun _ => 0) enemyOnPlayer [gatingFirst32]).2) ∧
      (Game.enemyTicks32 ⟨[], 0, 0⟩ (fun _ => 0) enemyOnPlayer
            [gatingFirst32, ⟨1 / 4, playerAtOrigin, Weapon.sword swordMidSlash⟩]).1.TickApplies32
          (fun _ => 0) ⟨1 / 4, playerAtOrigin, Weapon.rayGun rayGunJustActivated⟩
          (Game.enemyTicks32 ⟨[], 0, 0⟩ (fun _ => 0) enemyOnPlayer
            [gatingFirst32, ⟨1 / 4, playerAtOrigin, Weapon.sword swordMidSlash⟩]).2 := by
  have h := damage_cooldown_gating (fun _ => 0) ⟨[], 0, 0⟩ enemyOnPlayer gatingFirst32
    [⟨1 / 4, playerAtOrigin, Weapon.sword swordMidSlash⟩,
      ⟨1 / 4, playerAtOrigin, Weapon.rayGun rayGunJustActivated⟩] rfl
    (by decide) (by decide)
    (by
      intro t ht
      simp only [List.mem_cons, List.mem_singleton, List.not_mem_nil, or_false] at ht
      rcases ht with rfl | rfl <;> norm_num)
    ⟨[RayGunCall.OnActivate playerAtOrigin], by simp [RayGunCall.timeOk], rfl⟩
    (by
      intro t ht
      simp only [List.mem_cons, List.mem_singleton, List.not_mem_nil, or_false] at ht
      rcases ht with rfl | rfl
      · trivial
      · exact ⟨[RayGunCall.OnActivate playerAtOrigin], by simp [RayGunCall.timeOk], rfl⟩)
    (by decide!)
    (by
      intro pre t post h
      rcases pre with _ | ⟨a, _ | ⟨b, _ | ⟨c, pre⟩⟩⟩
      · simp only [List.nil_append, List.cons.injEq] at h
        obtain ⟨rfl, _⟩ := h
        decide!
      · simp only [List.cons_append, List.nil_append, List.cons.injEq] at h
        obtain ⟨rfl, rfl, _⟩ := h
        decide!
      · simp at h
      · simp at h)
  refine ⟨h.1, ?_, ?_⟩
  · exact ((h.2 [] ⟨1 / 4, playerAtOrigin, Weapon.sword swordMidSlash⟩
      [⟨1 / 4, playerAtOrigin, Weapon.rayGun rayGunJustActivated⟩] rfl).1 (by decide!)).1
  · exact (h.2 [⟨1 / 4, playerAtOrigin, Weapon.sword swordMidSlash⟩]
      ⟨1 / 4, playerAtOrigin, Weapon.rayGun rayGunJustActivated⟩ [] rfl).2.2 (by decide!)
      (by decide!)

/-! ## Scenario B in binary32: one slash against a stationary enemy -/

theorem Enemy.Update32_GetBounds32 (e : Enemy) (Sqrt : ℚ → ℚ) (frameTime : ℚ)
    (player : Player) (hs : e.Speed = 0) (hX : IsF32 e.X) (hY : IsF32 e.Y) :
    (e.Update32 Sqrt frameTime player).GetBounds32 = e.GetBounds32 := by
  have hX' : f32Round e.X = e.X := hX
  have hY' : f32Round e.Y = e.Y := hY
  unfold Enemy.Update32 Enemy.fadeText32 Enemy.move32 Enemy.normalize32 Enemy.turn Enemy.aim32
    Enemy.coolDown32 Enemy.GetBounds32
  simp only []
  split_ifs <;> simp [hs, f32Round_zero, hX', hY']

theorem Sword.Update32_stay (s : Sword) (dt : ℚ) (player : Player) (hS : s.IsSlashing = true)
    (h : f32Round (s.SlashAnim.FrameTime + dt) < f32Round (1 / 20)) :
    (s.Update32 dt player).IsSlashing = true ∧
      (s.Update32 dt player).SlashAnim.Frame = s.SlashAnim.Frame ∧
      (s.Update32 dt player).SlashAnim.FrameTime = f32Round (s.SlashAnim.FrameTime + dt) ∧
      (s.Update32 dt player).DamageArea = s.DamageArea := by
  have h' : ¬ (f32Round (s.SlashAnim.FrameTime + dt) ≥ f32Round (1 / 20)) := not_le.2 h
  unfold Sword.Update32
  simp only [hS, if_true, if_neg h']
  exact ⟨trivial, trivial, trivial, trivial⟩

theorem Sword.Update32_advance (s : Sword) (dt : ℚ) (player : Player)
    (hS : s.IsSlashing = true)
    (h : f32Round (1 / 20) ≤ f32Round (s.SlashAnim.FrameTime + dt))
    (hf : s.SlashAnim.Frame + 1 < 6) :
    (s.Update32 dt player).IsSlashing = true ∧
      (s.Update32 dt player).SlashAnim.Frame = s.SlashAnim.Frame + 1 ∧
      (s.Update32 dt player).SlashAnim.FrameTime = 0 ∧
      (s.Update32 dt player).DamageArea = s.DamageArea := by
  have h' : f32Round (s.SlashAnim.FrameTime + dt) ≥ f32Round (1 / 20) := h
  have hf' : ¬ (s.SlashAnim.Frame + 1 ≥ 6) := not_le.2 hf
  unfold Sword.Update32
  simp only [hS, if_true, if_pos h', if_neg hf']
  exact ⟨trivial, trivial, trivial, trivial⟩

theorem Sword.Update32_finish (s : Sword) (dt : ℚ) (player : Player)
    (hS : s.IsSlashing = true)
    (h : f32Round (1 / 20) ≤ f32Round (s.SlashAnim.FrameTime + dt))
    (hf : 6 ≤ s.SlashAnim.Frame + 1) :
    (s.Update32 dt player).IsSlashing = false := by
  have h' : f32Round (s.SlashAnim.FrameTime + dt) ≥ f32Round (1 / 20) := h
  have hf' : s.SlashAnim.Frame + 1 ≥ 6 := hf
  unfold Sword.Update32
  simp only [hS, if_true, if_pos h', if_pos hf']

theorem Game.enemyLoopBody32_of_not_applies (g : Game) (Sqrt : ℚ → ℚ) (t : TickInput)
    (enemy : Enemy) (h : ¬ g.TickApplies32 Sqrt t enemy) :
    (g.enemyLoopBody32 Sqrt t.frameTime t.player t.weapon enemy).2.2 =
      enemy.Update32 Sqrt t.frameTime t.player := by
  unfold Game.TickApplies32 Game.DamageApplied32 at h
  have h' := not_not.1 h
  simp only [Game.enemyLoopBody32, h']
  exact Game.beforeWeaponDamage32_enemy g Sqrt t.frameTime t.player enemy

theorem Game.enemyLoopBody32_of_applies (g : Game) (Sqrt : ℚ → ℚ) (t : TickInput)
    (enemy : Enemy) (hw : t.weapon.Reachable32) (h : g.TickApplies32 Sqrt t enemy) :
    (g.enemyLoopBody32 Sqrt t.frameTime t.player t.weapon enemy).2.2 =
      { (enemy.Update32 Sqrt t.frameTime t.player).TakeDamage32 t.weapon.damageAmount with
        DamageCooldown := t.weapon.cooldownInterval32 } := by
  have h2 := (Game.tickApplies32_iff g Sqrt t enemy hw).1 h
  have hhit := h2.1
  unfold Game.TickHits32 at hhit
  rw [Game.beforeWeaponDamage32_enemy] at hhit
  rw [Game.enemyLoopBody32_enemy]
  exact (Game.weaponDamage32_hit _ _ t.weapon _ hw hhit h2.2).1

theorem Game.slashDamageCount32_succ (Sqrt : ℚ → ℚ) (dt : ℚ) (player : Player) (fuel : ℕ)
    (fire : Bool) (g : Game) (sword : Sword) (enemy : Enemy) (s1 : Sword)
    (hs1 : s1 = (if fire then sword.OnActivate player else sword.OnDeactivate player).Update32 dt
      player) :
    Game.slashDamageCount32 Sqrt dt player (fuel + 1) fire g sword enemy =
      if s1.IsSlashing = true then
        (Game.slashDamageCount32 Sqrt dt player fuel false
          (g.enemyLoopBody32 Sqrt dt player (Weapon.sword s1) enemy).1 s1
          (g.enemyLoopBody32 Sqrt dt player (Weapon.sword s1) enemy).2.2).map
          (· + if g.TickApplies32 Sqrt ⟨dt, player, Weapon.sword s1⟩ enemy then 1 else 0)
      else some (if g.TickApplies32 Sqrt ⟨dt, player, Weapon.sword s1⟩ enemy then 1 else 0) := by
  subst hs1
  rfl

theorem Game.sword_cooling_no_damage32 (g : Game) (Sqrt : ℚ → ℚ) (dt : ℚ) (player : Player)
    (s1 : Sword) (enemy : Enemy)
    (h : 0 < (enemy.Update32 Sqrt dt player).DamageCooldown) :
    ¬ g.TickApplies32 Sqrt ⟨dt, player, Weapon.sword s1⟩ enemy := by
  rw [Game.tickApplies32_iff g Sqrt ⟨dt, player, Weapon.sword s1⟩ enemy trivial]
  rintro ⟨_, hle⟩
  exact absurd h (not_lt.2 hle)

theorem Game.sword_idle_no_damage32 (g : Game) (Sqrt : ℚ → ℚ) (dt : ℚ) (player : Player)
    (s1 : Sword) (enemy : Enemy) (h : s1.IsSlashing = false) :
    ¬ g.TickApplies32 Sqrt ⟨dt, player, Weapon.sword s1⟩ enemy := by
  rw [Game.tickApplies32_iff g Sqrt ⟨dt, player, Weapon.sword s1⟩ enemy trivial]
  rintro ⟨hhit, _⟩
  unfold Game.TickHits32 at hhit
  simp [Weapon.hitTest32, Sword.CheckSlashCollision32, h] at hhit

theorem countdown32_replicate_succ (c dt : ℚ) (m : ℕ) :
    countdown32 c (List.replicate (m + 1) dt) =
      if countdown32 c (List.replicate m dt) > 0 then
        f32Round (countdown32 c (List.replicate m dt) - dt)
      else countdown32 c (List.replicate m dt) := by
  rw [List.replicate_succ', countdown32_append]
  rfl

theorem countdown32_replicate_pos (c dt : ℚ) (m M : ℕ) (hm : m ≤ M)
    (h : 0 < countdown32 c (List.replicate M dt)) : 0 < countdown32 c (List.replicate m dt) := by
  obtain ⟨d, rfl⟩ := Nat.exists_eq_add_of_le hm
  rw [List.replicate_add] at h
  exact countdown32_pos_prefix _ _ _ h

/-- After the frame that applied the damage: with `n` frames per animation
frame and the cooldown of `float32(0.3)` still positive after `6n - 2` frames,
the remaining frames of the slash apply none. -/
theorem Game.slashDamageCount32_rest (Sqrt : ℚ → ℚ) (dt : ℚ) (player : Player) (n : ℕ)
    (hlow : ∀ k, k < n → frameTimer32 dt k < f32Round (1 / 20))
    (hhigh : f32Round (1 / 20) ≤ frameTimer32 dt n)
    (hcool : 0 < countdown32 (f32Round (3 / 10)) (List.replicate (6 * n - 2) dt)) :
    ∀ (fuel f j : ℕ) (g : Game) (sword : Sword) (enemy : Enemy),
      j < n → f < 6 → fuel + (f * n + j) = 6 * n → 1 ≤ f * n + j →
      sword.IsSlashing = true → sword.SlashAnim.Frame = (f : Int) →
      sword.SlashAnim.FrameTime = frameTimer32 dt j →
      enemy.DamageCooldown =
        countdown32 (f32Round (3 / 10)) (List.replicate (f * n + j - 1) dt) →
      Game.slashDamageCount32 Sqrt dt player fuel false g sword enemy = some 0 := by
  intro fuel
  induction fuel with
  | zero =>
    intro f j g sword enemy hj hf hfuel _ _ _ _ _
    exfalso
    have : f * n ≤ 5 * n := Nat.mul_le_mul_right n (by omega)
    omega
  | succ m ih =>
    intro f j g sword enemy hj hf hfuel hk hS hF hT hcd
    have hq : f * n ≤ 5 * n := Nat.mul_le_mul_right n (by omega)
    have hpos : 0 < enemy.DamageCooldown := by
      rw [hcd]
      exact countdown32_replicate_pos _ _ _ _ (by omega) hcool
    have hcd1 : (enemy.Update32 Sqrt dt player).DamageCooldown =
        countdown32 (f32Round (3 / 10)) (List.replicate (f * n + j) dt) := by
      have e : f * n + j = (f * n + j - 1) + 1 := by omega
      rw [Enemy.Update32_DamageCooldown, if_pos hpos, e, countdown32_replicate_succ, ← hcd,
        if_pos hpos]
    have hsame : sword.Update32 dt player =
        (if false = true then sword.OnActivate player else sword.OnDeactivate player).Update32 dt
          player := rfl
    have hFT1 : f32Round (sword.SlashAnim.FrameTime + dt) = frameTimer32 dt (j + 1) := by
      rw [hT]
      rfl
    rw [Game.slashDamageCount32_succ Sqrt dt player m false g sword enemy _ hsame]
    by_cases hjn : j + 1 < n
    · obtain ⟨hS1, hF1, hT1, _⟩ := Sword.Update32_stay sword dt player hS
        (by rw [hFT1]; exact hlow (j + 1) hjn)
      have hcdpos : 0 < (enemy.Update32 Sqrt dt player).DamageCooldown := by
        rw [hcd1]
        exact countdown32_replicate_pos _ _ _ _ (by omega) hcool
      have hno := Game.sword_cooling_no_damage32 g Sqrt dt player (sword.Update32 dt player)
        enemy hcdpos
      have hbody : (g.enemyLoopBody32 Sqrt dt player (Weapon.sword (sword.Update32 dt player))
          enemy).2.2 = enemy.Update32 Sqrt dt player :=
        Game.enemyLoopBody32_of_not_applies g Sqrt
          ⟨dt, player, Weapon.sword (sword.Update32 dt player)⟩ enemy hno
      have hrec := ih f (j + 1)
        (g.enemyLoopBody32 Sqrt dt player (Weapon.sword (sword.Update32 dt player)) enemy).1
        (sword.Update32 dt player)
        (g.enemyLoopBody32 Sqrt dt player (Weapon.sword (sword.Update32 dt player)) enemy).2.2
        hjn hf (by omega) (by omega) hS1 (by rw [hF1, hF])
        (by rw [hT1, hFT1])
        (by
          rw [hbody, hcd1]
          have e : f * n + (j + 1) - 1 = f * n + j := by omega
          rw [e])
      rw [if_pos hS1, if_neg hno, hrec]
      rfl
    · obtain rfl : n = j + 1 := by omega
      have hFT : f32Round (1 / 20) ≤ f32Round (sword.SlashAnim.FrameTime + dt) := by
        rw [hFT1]
        exact hhigh
      by_cases hlast : f + 1 < 6
      · have hq4 : f * (j + 1) ≤ 4 * (j + 1) := Nat.mul_le_mul_right (j + 1) (by omega)
        obtain ⟨hS1, hF1, hT1, _⟩ := Sword.Update32_advance sword dt player hS hFT
          (by rw [hF]; exact_mod_cast hlast)
        have hcdpos : 0 < (enemy.Update32 Sqrt dt player).DamageCooldown := by
          rw [hcd1]
          exact countdown32_replicate_pos _ _ _ _ (by omega) hcool
        have hno := Game.sword_cooling_no_damage32 g Sqrt dt player (sword.Update32 dt player)
          enemy hcdpos
        have hbody : (g.enemyLoopBody32 Sqrt dt player (Weapon.sword (sword.Update32 dt player))
            enemy).2.2 = enemy.Update32 Sqrt dt player :=
          Game.enemyLoopBody32_of_not_applies g Sqrt
            ⟨dt, player, Weapon.sword (sword.Update32 dt player)⟩ enemy hno
        have hmul : (f + 1) * (j + 1) = f * (j + 1) + (j + 1) := by ring
        have hrec := ih (f + 1) 0
          (g.enemyLoopBody32 Sqrt dt player (Weapon.sword (sword.Update32 dt player)) enemy).1
          (sword.Update32 dt player)
          (g.enemyLoopBody32 Sqrt dt player (Weapon.sword (sword.Update32 dt player)) enemy).2.2
          (by omega) hlast (by omega) (by omega) hS1 (by rw [hF1, hF]; push_cast; ring)
          (by rw [hT1]; rfl)
          (by
            rw [hbody, hcd1]
            have e : (f + 1) * (j + 1) + 0 - 1 = f * (j + 1) + j := by omega
            rw [e])
        rw [if_pos hS1, if_neg hno, hrec]
        rfl
      · have hfin := Sword.Update32_finish sword dt player hS hFT
          (by rw [hF]; exact_mod_cast (show 6 ≤ f + 1 by omega))
        have hno := Game.sword_idle_no_damage32 g Sqrt dt player (sword.Update32 dt player)
          enemy hfin
        rw [if_neg (by rw [hfin]; exact Bool.false_ne_true), if_neg hno]

/-- C10 as stated fails: at 25 frames per second (`dt = 0.04`) the slash lasts
12 frames (two per animation frame, since 0.04 < 0.05 <= 0.08), the cooldown of
0.3 s set by the first hit has run out at the ninth frame, and the stationary
enemy in the damage area is damaged twice in one slash, in exact arithmetic
and in binary32 alike.  In binary32 the same happens at the `float32` frame
time 0.0045454549 (`4880645 / 2^30`): eleven frame times add up to more than
0.05 s and 64 of them to less than 0.3 s, but the `float32` frame timer is
below `float32(0.05)` after eleven frames, the slash lasts 72 frames, and the
enemy is damaged twice. -/
theorem slash_hits_twice :
    (0 : ℚ) < 1 / 25 ∧ swordAtRest.IsSlashing = false ∧ enemyInReach.DamageCooldown = 0 ∧
      enemyInReach.Speed = 0 ∧
      CheckCollisionRecs swordAtRest.DamageArea enemyInReach.GetBounds = true ∧
      Game.slashDamageCount (fun _ => 0) (1 / 25) playerAtOrigin 12 true ⟨[], 0, 0⟩ swordAtRest
        enemyInReach = some 2 ∧
      CheckCollisionRecs32 swordAtRest.DamageArea enemyInReach.GetBounds32 = true ∧
      Game.slashDamageCount32 (fun _ => 0) (f32Round (1 / 25)) playerAtOrigin 12 true
        ⟨[], 0, 0⟩ swordAtRest enemyInReach = some 2 ∧
      (IsF32 (4880645 / 1073741824) ∧ (10 : ℚ) * (4880645 / 1073741824) < 1 / 20 ∧
        (1 / 20 : ℚ) ≤ 11 * (4880645 / 1073741824) ∧
        (64 : ℚ) * (4880645 / 1073741824) < 3 / 10) ∧
      frameTimer32 (4880645 / 1073741824) 11 < f32Round (1 / 20) ∧
      Game.slashDamageCount32 (fun _ => 0) (4880645 / 1073741824) playerAtOrigin 72 true
        ⟨[], 0, 0⟩ swordAtRest enemyInReach = some 2 := by
  refine ⟨by norm_num, rfl, rfl, rfl, by decide!, by decide!, by decide!, by decide!,
    by decide!, by decide!, by decide!⟩

/-- C10 amended, in binary32: let `n ≥ 1` be the number of ticks per animation
frame at tick length `dt`, that is, the `float32` frame timer summed from 0 is
below `float32(0.05)` after fewer than `n` ticks and at least that after `n`,
and let the `float32` cooldown counted down from `float32(0.3)` still be
positive after `6n - 2` ticks.  An idle sword activated in the first tick
only, against an enemy that does not move (speed 0, at `float32`
coordinates), overlaps the stored damage area and has cooldown 0, ticking in
the order weapon update, enemy update, hit test: the slash ends within `6n`
ticks and damage is applied in exactly one of them. -/
theorem slash_damage_once (Sqrt : ℚ → ℚ) (dt : ℚ) (player : Player) (n : ℕ) (g : Game)
    (sword : Sword) (enemy : Enemy) (hn : 1 ≤ n)
    (hlow : ∀ k, k < n → frameTimer32 dt k < f32Round (1 / 20))
    (hhigh : f32Round (1 / 20) ≤ frameTimer32 dt n)
    (hcool : 0 < countdown32 (f32Round (3 / 10)) (List.replicate (6 * n - 2) dt))
    (hidle : sword.IsSlashing = false) (hcd : enemy.DamageCooldown = 0)
    (hstill : enemy.Speed = 0) (hX : IsF32 enemy.X) (hY : IsF32 enemy.Y)
    (hover : CheckCollisionRecs32 sword.DamageArea enemy.GetBounds32 = true) :
    Game.slashDamageCount32 Sqrt dt player (6 * n) true g sword enemy = some 1 := by
  obtain ⟨m, hm⟩ : ∃ m, 6 * n = m + 1 := ⟨6 * n - 1, by omega⟩
  obtain ⟨hS0, hF0, hT0, hA0⟩ := Sword.OnActivate_idle sword player hidle
  rw [hm, Game.slashDamageCount32_succ Sqrt dt player m true g sword enemy
    ((sword.OnActivate player).Update32 dt player) rfl]
  have hFT1 : f32Round ((sword.OnActivate player).SlashAnim.FrameTime + dt) =
      frameTimer32 dt 1 := by
    rw [hT0]
    rfl
  have hfirst : ∃ f j : ℕ, j < n ∧ f < 6 ∧ f * n + j = 1 ∧
      ((sword.OnActivate player).Update32 dt player).IsSlashing = true ∧
      ((sword.OnActivate player).Update32 dt player).SlashAnim.Frame = (f : Int) ∧
      ((sword.OnActivate player).Update32 dt player).SlashAnim.FrameTime = frameTimer32 dt j ∧
      ((sword.OnActivate player).Update32 dt player).DamageArea = sword.DamageArea := by
    by_cases h1 : n = 1
    · subst h1
      obtain ⟨hS1, hF1, hT1, hA1⟩ := Sword.Update32_advance (sword.OnActivate player) dt player
        hS0 (by rw [hFT1]; exact hhigh) (by rw [hF0]; norm_num)
      exact ⟨1, 0, by omega, by omega, by omega, hS1, by rw [hF1, hF0]; norm_num,
        by rw [hT1]; rfl, by rw [hA1, hA0]⟩
    · obtain ⟨hS1, hF1, hT1, hA1⟩ := Sword.Update32_stay (sword.OnActivate player) dt player hS0
        (by rw [hFT1]; exact hlow 1 (by omega))
      exact ⟨0, 1, by omega, by omega, by omega, hS1, by rw [hF1, hF0]; norm_num,
        by rw [hT1, hFT1], by rw [hA1, hA0]⟩
  obtain ⟨f, j, hj, hf, hk, hS1, hF1, hT1, hA1⟩ := hfirst
  have happ : g.TickApplies32 Sqrt
      ⟨dt, player, Weapon.sword ((sword.OnActivate player).Update32 dt player)⟩ enemy := by
    rw [Game.tickApplies32_iff g Sqrt
      ⟨dt, player, Weapon.sword ((sword.OnActivate player).Update32 dt player)⟩ enemy trivial]
    constructor
    · unfold Game.TickHits32
      rw [Game.beforeWeaponDamage32_enemy]
      simp only [Weapon.hitTest32, Sword.CheckSlashCollision32, hS1, hA1,
        Enemy.Update32_GetBounds32 enemy Sqrt dt player hstill hX hY, hover]
      rfl
    · rw [Enemy.Update32_DamageCooldown, hcd]
      simp
  have hbody := Game.enemyLoopBody32_of_applies g Sqrt
    ⟨dt, player, Weapon.sword ((sword.OnActivate player).Update32 dt player)⟩ enemy trivial happ
  have hrec := Game.slashDamageCount32_rest Sqrt dt player n hlow hhigh hcool m f j
    (g.enemyLoopBody32 Sqrt dt player
      (Weapon.sword ((sword.OnActivate player).Update32 dt player)) enemy).1
    ((sword.OnActivate player).Update32 dt player)
    (g.enemyLoopBody32 Sqrt dt player
      (Weapon.sword ((sword.OnActivate player).Update32 dt player)) enemy).2.2
    hj hf (by omega) (by omega) hS1 hF1 hT1
    (by
      have h := congrArg Enemy.DamageCooldown hbody
      rw [hk]
      exact h)
  rw [if_pos hS1, if_pos happ, hrec]
  rfl

/-- Witness of C10 amended: 60 frames per second, three ticks per animation
frame in binary32, the slash of 18 ticks damages the enemy once. -/
theorem slash_damage_once_witness :
    Game.slashDamageCount32 (fun _ => 0) frame60 playerAtOrigin (6 * 3) true ⟨[], 0, 0⟩
      swordAtRest enemyInReach = some 1 :=
  slash_damage_once (fun _ => 0) frame60 playerAtOrigin 3 ⟨[], 0, 0⟩ swordAtRest enemyInReach
    (by decide) (by decide!) (by decide!) (by decide!) rfl rfl rfl (by decide!) (by decide!)
    (by decide!)

end Kahozr
